import Mathlib

/-!
Shallow embedding of the linear-scan register allocator found in
`src/backend/codegen/reg_alloc.cpp`, together with the parts of the ARM
instruction model (`src/arm_code/arm.cpp`) that it consumes, and proofs
about the allocator's documented properties.

Machine maps and sets (`std::unordered_map`, `std::map`, `std::set`,
`std::list`) are embedded as association lists with the same observable
behaviour: `insert` does not overwrite an existing key, `erase` removes a
key, iteration visits elements in a definite order (sorted for the sorted
containers, insertion order elsewhere).  Fallible operations (`.at`,
out-of-range vector access, `throw`, and the undefined behaviour of a
failed `static_cast` or of decrementing `begin()`) are modelled in an
`Except` monad.
-/

namespace RegAlloc

/-- Register ids, as in the source: ids below 16 are physical
general-purpose registers, ids of 64 and above are virtual
(`register_type` in `arm.cpp`). -/
abbrev Reg := Nat

/-- Modelled from the spec: `is_virtual_register` lives in the missing
`arm.hpp`; the spec states that a register is virtual iff its id is at
least 64, matching the thresholds of `register_type` in `arm.cpp`. -/
def is_virtual_register (r : Reg) : Bool := decide (64 ≤ r)

/-- Modelled from the spec: `GLOB_REGS` lives in the missing `arm.hpp`.
The spec names `CALLEE_SAVED_GLOBAL = {r4..r10}` and the source indexes
`GLOB_REGS[color]` with colors starting at r4. -/
def GLOB_REGS : List Reg := [4, 5, 6, 7, 8, 9, 10]

/-- `sp` is register 13 (spec section 3). -/
def REG_SP : Reg := 13

/-- `fp` is register 11 (spec section 3). -/
def REG_FP : Reg := 11

/-- `lr` is register 14 (spec section 3). -/
def REG_LR : Reg := 14

/-- Condition codes, from `arm.cpp` (`display_cond`). -/
inductive ConditionCode where
  | Equal | NotEqual | CarrySet | CarryClear
  | UnsignedGe | UnsignedLe | UnsignedGt | UnsignedLt
  | MinusOrNegative | PositiveOrZero | Overflow | NoOverflow
  | Ge | Lt | Gt | Le | Always
deriving DecidableEq

/-- Opcodes, from `arm.cpp` (`display_op`). -/
inductive OpCode where
  | Nop | B | Bl | Bx | Cbz | Cbnz
  | Mov | MovT | Mvn
  | Add | Sub | Rsb | Mul | SMMul | Mla | SMMla | SDiv
  | Lsl | Lsr | Asr | And | Orr | Eor | Bic | Cmp | Cmn
  | LdR | LdM | StR | StM | Push | Pop
deriving DecidableEq

/-- Register shift kinds, from `arm.cpp` (`display_shift`). -/
inductive RegisterShiftKind where
  | Lsl | Lsr | Asr | Ror | Rrx
deriving DecidableEq

/-- A register operand with an optional shift, from the instruction model. -/
structure RegisterOperand where
  reg : Reg
  shift : RegisterShiftKind := .Lsl
  shift_amount : Nat := 0
deriving DecidableEq

/-- `Operand2 = RegisterOperand | int32 immediate`. -/
inductive Operand2 where
  | reg (r : RegisterOperand)
  | imm (v : Int)
deriving DecidableEq

/-- Memory access kinds of `MemoryOperand`. -/
inductive MemoryAccessKind where
  | None | PostIndex | PreIndex
deriving DecidableEq

/-- `MemoryOperand.offset = RegisterOperand | int16 immediate`. -/
inductive MemOffset where
  | reg (r : RegisterOperand)
  | imm (v : Int)
deriving DecidableEq

/-- Modelled from the spec where the constructor lives in the missing
`arm.hpp`: `MemoryOperand(base, imm)` builds a plain `[base, #imm]`
operand, and equality of memory operands is structural. -/
structure MemoryOperand where
  r1 : Reg
  offset : MemOffset
  kind : MemoryAccessKind := .None
  neg_rm : Bool := false
deriving DecidableEq

/-- `LoadStoreInst.mem` is a label or a memory operand. -/
inductive MemArg where
  | label (l : String)
  | mem (m : MemoryOperand)
deriving DecidableEq

/-- The instruction shapes of the model, one constructor per concrete
`Inst` subclass; each carries its condition code, as the C++ base class
does. -/
inductive Inst where
  | pureI (op : OpCode) (cond : ConditionCode)
  | arith2 (op : OpCode) (r1 : Reg) (r2 : Operand2) (cond : ConditionCode)
  | arith3 (op : OpCode) (rd r1 : Reg) (r2 : Operand2) (cond : ConditionCode)
  | arith4 (op : OpCode) (rd r1 r2 r3 : Reg) (cond : ConditionCode)
  | br (op : OpCode) (l : String) (param_cnt : Nat) (cond : ConditionCode)
  | loadStore (op : OpCode) (rd : Reg) (mem : MemArg) (cond : ConditionCode)
  | multLoadStore (op : OpCode) (rn : Reg) (rd : List Reg) (cond : ConditionCode)
  | pushPop (op : OpCode) (regs : List Reg) (cond : ConditionCode)
  | label (l : String) (cond : ConditionCode)
  | ctrl (key : String) (val : Int) (cond : ConditionCode)
deriving DecidableEq

/-- The condition code of an instruction (`Inst::cond` in the source). -/
def Inst.cond : Inst → ConditionCode
  | .pureI _ c => c
  | .arith2 _ _ _ c => c
  | .arith3 _ _ _ _ c => c
  | .arith4 _ _ _ _ _ c => c
  | .br _ _ _ c => c
  | .loadStore _ _ _ c => c
  | .multLoadStore _ _ _ c => c
  | .pushPop _ _ c => c
  | .label _ c => c
  | .ctrl _ _ c => c

/-- Live interval `[start, stop)`: `start` = first define, `stop` = last
read + 1 conceptually (the source stores raw indices and extends). -/
structure Interval where
  start : Nat
  stop : Nat
deriving DecidableEq

/-- `Interval(point)` constructor. -/
def Interval.point (p : Nat) : Interval := ⟨p, p⟩

/-- `Interval(start, end)` constructor; the source clamps `end` up to
`start` when `end < start`. -/
def Interval.mk2 (a b : Nat) : Interval := ⟨a, max a b⟩

/-- `Interval::add_starting_point`: move `start` down. -/
def Interval.add_starting_point (iv : Interval) (p : Nat) : Interval :=
  if p < iv.start then { iv with start := p } else iv

/-- `Interval::add_ending_point`: move `stop` up. -/
def Interval.add_ending_point (iv : Interval) (p : Nat) : Interval :=
  if iv.stop < p then { iv with stop := p } else iv

/-- `Interval::with_starting_point`: copy with a replaced `start`. -/
def Interval.with_starting_point (iv : Interval) (p : Nat) : Interval :=
  { iv with start := p }

/-- `Interval::overlaps`: `end > other.start && start < other.end`. -/
def overlaps (a b : Interval) : Bool :=
  decide (b.start < a.stop) && decide (a.start < b.stop)

/-! ### Association-list embeddings of the C++ containers -/

/-- First-match lookup, the observable behaviour of `find`/`at` on the
map containers (keys are unique by construction). -/
def alookup {α : Type} (k : Nat) : List (Nat × α) → Option α
  | [] => none
  | (k2, v) :: rest => if k2 = k then some v else alookup k rest

/-- `insert` on a map container: no effect when the key is present. -/
def ainsertNR {α : Type} (k : Nat) (v : α) (m : List (Nat × α)) : List (Nat × α) :=
  match alookup k m with
  | some _ => m
  | none => (k, v) :: m

/-- In-place update of the value stored at a key (mutation through a
reference or iterator in the source). -/
def aupdate {α : Type} (k : Nat) (v : α) : List (Nat × α) → List (Nat × α)
  | [] => []
  | (k2, v2) :: rest => if k2 = k then (k2, v) :: rest else (k2, v2) :: aupdate k v rest

/-- `erase(key)` on a map container. -/
def aerase {α : Type} (k : Nat) (m : List (Nat × α)) : List (Nat × α) :=
  m.filter (fun e => decide (e.1 ≠ k))

/-- Membership in a set container. -/
def listHas (r : Nat) : List Nat → Bool
  | [] => false
  | x :: rest => if x = r then true else listHas r rest

/-- `std::set` / `std::unordered_set` insert (no duplicate); kept sorted
so equal sets have equal representations, as `std::set` iteration is
sorted. -/
def setInsert (r : Nat) : List Nat → List Nat
  | [] => [r]
  | x :: rest =>
    if r < x then r :: x :: rest
    else if r = x then x :: rest
    else x :: setInsert r rest

/-- Insert a whole list of registers into a set container. -/
def setInsertAll (base : List Nat) : List Nat → List Nat
  | [] => base
  | x :: rest => setInsertAll (setInsert x base) rest

/-- `erase(value)` on a set container. -/
def setErase (r : Nat) (l : List Nat) : List Nat :=
  l.filter (fun x => decide (x ≠ r))

/-- Erase the first pair whose first component matches (list iteration
with `erase` in the source). -/
def eraseFirstByFst (k : Nat) : List (Nat × Nat) → List (Nat × Nat)
  | [] => []
  | e :: rest => if e.1 = k then rest else e :: eraseFirstByFst k rest

/-- Erase the first pair whose second component matches. -/
def eraseFirstBySnd (v : Nat) : List (Nat × Nat) → List (Nat × Nat)
  | [] => []
  | e :: rest => if e.2 = v then rest else e :: eraseFirstBySnd v rest

/-- `std::vector::insert(begin()+n, x)` (defined only under the bound
check performed at use sites). -/
def listInsertIdx {α : Type} : Nat → α → List α → List α
  | 0, x, l => x :: l
  | _ + 1, _, [] => []
  | n + 1, x, a :: l => a :: listInsertIdx n x l

/-- `std::vector::erase(begin()+n)` (defined only under the bound check
performed at use sites). -/
def listEraseIdx {α : Type} : Nat → List α → List α
  | _, [] => []
  | 0, _ :: l => l
  | n + 1, a :: l => a :: listEraseIdx n l

/-- Overwrite the element at an index (mutation through `front()` /
`back()` references in the source). -/
def listSet {α : Type} : Nat → α → List α → List α
  | _, _, [] => []
  | 0, x, _ :: l => x :: l
  | n + 1, x, a :: l => a :: listSet n x l

/-- Prefix test on character lists (`std::string::find(s) == 0`). -/
def charsStart : List Char → List Char → Bool
  | [], _ => true
  | _ :: _, [] => false
  | a :: as, b :: bs => a == b && charsStart as bs

/-- `label.find(pre) == 0`, i.e. `label` starts with `pre`. -/
def strStarts (pre s : String) : Bool := charsStart pre.data s.data

/-- Index of the first occurrence of a character
(`std::string::find(char)`, `npos` becoming `none`). -/
def charFindIdx (c : Char) : List Char → Option Nat
  | [] => none
  | a :: rest =>
    if a == c then some 0
    else match charFindIdx c rest with
      | some k => some (k + 1)
      | none => none

/-- Index of the last occurrence of a character
(`std::string::find_last_of`). -/
def charFindLastIdx (c : Char) (l : List Char) : Option Nat :=
  match l with
  | [] => none
  | a :: rest =>
    match charFindLastIdx c rest with
    | some k => some (k + 1)
    | none => if a == c then some 0 else none

/-- `std::stoi` on a label suffix: skip spaces, read an optional sign and
a non-empty digit prefix; `none` when no digit is found or the value does
not fit in `int` (both throwing cases of `stoi`). -/
def cppStoiDigits (acc : Int) : List Char → Int
  | [] => acc
  | c :: rest =>
    if c.isDigit then cppStoiDigits (acc * 10 + (Int.ofNat (c.toNat - 48))) rest
    else acc

/-- The digit prefix of a character list. -/
def takeDigits : List Char → List Char
  | [] => []
  | c :: rest => if c.isDigit then c :: takeDigits rest else []

/-- See `cppStoiDigits`. -/
def cppStoi (s : String) : Option Int :=
  let cs := s.data.dropWhile (fun c => c == ' ')
  let (sign, cs) : Int × List Char :=
    match cs with
    | '-' :: rest => (-1, rest)
    | '+' :: rest => (1, rest)
    | _ => (1, cs)
  let digits := takeDigits cs
  if digits.isEmpty then none
  else
    let v := sign * cppStoiDigits 0 digits
    if v > 2147483647 ∨ v < -2147483648 then none else some v

/-! ### Allocator state and errors -/

/-- Failure modes of the allocator: thrown exceptions and undefined
behaviour of the source, surfaced as errors of the embedding.
`allocFailed` carries the diagnostic dump of `active` that the source
formats into the `std::runtime_error`. `collapseLoop` models
non-termination of `get_collapse_reg` on a cyclic `reg_collapse`. -/
inductive AErr where
  | notImplemented
  | allocFailed (dump : List (Nat × Interval))
  | mapAtFailed
  | emptyBBMap
  | badColor
  | collapseLoop
  | badCast
  | oob
deriving DecidableEq

/-- The mutable state of `RegAllocator`, one field per data member used
by the allocator.  `temp_regs` stands for the constant `TEMP_REGS` of the
missing `arm.hpp` (the spec only says it is a small set of physical
registers), threaded as state so the development is parametric in it. -/
structure St where
  temp_regs : List Reg
  used_regs : List Reg := []
  used_regs_temp : List Reg := []
  bb_used_regs : List (Nat × List Reg) := []
  point_bb_map : List (Nat × Nat) := []
  live_intervals : List (Nat × Interval) := []
  reg_map : List (Nat × Reg) := []
  reg_reverse_map : List (Nat × Reg) := []
  active : List (Nat × Interval) := []
  active_reg_map : List (Reg × Reg) := []
  spilled_regs : List (Nat × Interval) := []
  spill_positions : List (Nat × Int) := []
  spilled_cross_block_reg : List Reg := []
  reg_assign_count : List (Nat × Nat) := []
  reg_affine : List (Reg × Reg) := []
  reg_collapse : List (Nat × Reg) := []
  inst_sink : List Inst := []
  bl_points : List Nat := []
  wrote_to : List Reg := []
  stack_size : Int
  stack_offset : Int := 0
  delayed_store : Option (Reg × Reg) := none
  bb_reset : Bool := true
  is_leaf_func : Bool := true
  cur_cond : ConditionCode := .Always
deriving DecidableEq

/-- The allocator's initial state for a function: `stack_size` starts at
`f.stack_size`, `bb_reset` starts `true`, everything else empty. -/
def initSt (temp : List Reg) (fss : Int) : St :=
  { temp_regs := temp, stack_size := fss }

/-- `ReplaceWriteKind` of the source. -/
inductive ReplaceWriteKind where
  | phys | graph | spill | transient
deriving DecidableEq

/-- `ReplaceWriteAction` of the source. -/
structure ReplaceWriteAction where
  from_ : Reg
  replace_with : Reg
  kind : ReplaceWriteKind
deriving DecidableEq

/-- `str rd, [sp, #off]` under a predicate, as emitted by the allocator. -/
def mkStr (rd : Reg) (off : Int) (c : ConditionCode) : Inst :=
  .loadStore .StR rd (.mem { r1 := REG_SP, offset := .imm off }) c

/-- `ldr rd, [sp, #off]` under a predicate, as emitted by the allocator. -/
def mkLdr (rd : Reg) (off : Int) (c : ConditionCode) : Inst :=
  .loadStore .LdR rd (.mem { r1 := REG_SP, offset := .imm off }) c

/-! ### Core allocator operations -/

/-- `RegAllocator::get_collapse_reg`, with explicit fuel: the source
recurses without a termination guarantee, so exhausted fuel (`none`)
witnesses a cycle in `reg_collapse`. -/
def get_collapse_reg (fuel : Nat) (m : List (Nat × Reg)) (r : Reg) : Option Reg :=
  match fuel with
  | 0 => none
  | fuel + 1 =>
    match alookup r m with
    | none => some r
    | some r2 => get_collapse_reg fuel m r2

/-- Run the collapse chase with enough fuel to traverse every entry once;
running out of fuel then means the source would recurse forever, which
the embedding surfaces as `collapseLoop`. -/
def chaseCollapse (s : St) (r : Reg) : Except AErr Reg :=
  match get_collapse_reg (s.reg_collapse.length + 1) s.reg_collapse r with
  | some r2 => .ok r2
  | none => .error .collapseLoop

/-- `RegAllocator::get_or_alloc_spill_pos`. -/
def getOrAllocSpillPos (s : St) (r : Reg) : Int × St :=
  match alookup r s.spill_positions with
  | some p => (p, s)
  | none =>
    (s.stack_size,
     { s with spill_positions := ainsertNR r s.stack_size s.spill_positions,
              stack_size := s.stack_size + 4 })

/-- `alloc_using_temp` in `alloc_transient_reg`: the first register of
`TEMP_REGS` that is not in `active`. -/
def findFreeTemp (s : St) : Option Reg :=
  s.temp_regs.find? (fun t => (alookup t s.active).isNone)

/-- `alloc_using_glob` in `alloc_transient_reg`: the first register of
`GLOB_REGS` that is not in `active` and not in `used_regs`. -/
def findFreeGlob (s : St) : Option Reg :=
  GLOB_REGS.find? (fun g => (alookup g s.active).isNone && !(listHas g s.used_regs))

/-- The two pool searches in their source order; a successful `GLOB`
pick is recorded in `used_regs_temp`. -/
def allocViaPools (s : St) (cross : Bool) : Option Reg × St :=
  if cross then
    match findFreeGlob s with
    | some g => (some g, { s with used_regs_temp := setInsert g s.used_regs_temp })
    | none => (findFreeTemp s, s)
  else
    match findFreeTemp s with
    | some t => (some t, s)
    | none =>
      match findFreeGlob s with
      | some g => (some g, { s with used_regs_temp := setInsert g s.used_regs_temp })
      | none => (none, s)

/-- The call-crossing test of `alloc_transient_reg`:
`bl_points.lower_bound(i.start) != bl_points.upper_bound(i.end)`, which
for the sorted set means some call index lies in `[start, stop]`. -/
def blCrosses (bl : List Nat) (i : Interval) : Bool :=
  bl.any (fun p => decide (i.start ≤ p) && decide (p ≤ i.stop))

/-- The pool-allocation / eviction part of
`RegAllocator::alloc_transient_reg`, reached when the LRU reuse of the
original virtual (the early return of the source) did not fire. -/
def allocTransientSlow (s0 : St) (i : Interval) (orig : Option Reg) :
    Except AErr (Reg × St) :=
  match allocViaPools s0 (blCrosses s0.bl_points i) with
  | (some r, s) =>
    .ok (r, { s with
                active := ainsertNR r i s.active,
                active_reg_map := s.active_reg_map ++
                  (match orig with | some o => [(o, r)] | none => []) })
  | (none, s) =>
    match s.active_reg_map with
    | [] => .error (.allocFailed s.active)
    | (spillVirt, spillPhys) :: rest =>
      match alookup spillPhys s.active with
      | none => .error .mapAtFailed
      | some iv =>
        let interval := { iv with start := i.start }
        let s := { s with active_reg_map := rest }
        let (pos, s) := getOrAllocSpillPos s spillVirt
        let s := { s with inst_sink :=
          s.inst_sink ++ [mkStr spillPhys (pos + s.stack_offset) s.cur_cond] }
        let s := { s with spilled_regs := ainsertNR spillVirt interval s.spilled_regs }
        let s := { s with active_reg_map :=
          match orig with
          | some o => eraseFirstByFst o s.active_reg_map
          | none => s.active_reg_map }
        let s := { s with active := aerase spillPhys s.active }
        .ok (spillPhys,
             { s with
                 active := ainsertNR spillPhys i s.active,
                 active_reg_map := s.active_reg_map ++
                   (match orig with | some o => [(o, spillPhys)] | none => []) })

/-- `RegAllocator::alloc_transient_reg`: reuse the original virtual's
current physical with an LRU touch when it is still active, otherwise
allocate from the pools or evict. -/
def allocTransientReg (s : St) (i : Interval) (orig : Option Reg) :
    Except AErr (Reg × St) :=
  match orig with
  | some o =>
    match s.active_reg_map.find? (fun e => decide (e.1 = o)) with
    | some e =>
      .ok (e.2, { s with active_reg_map := eraseFirstByFst o s.active_reg_map ++ [e] })
    | none => allocTransientSlow s i orig
  | none => allocTransientSlow s i orig

/-- `RegAllocator::force_free`. -/
def force_free (s : St) (r : Reg) (alsoEraseMap writeBack : Bool) : St :=
  match alookup r s.active with
  | none => s
  | some iv =>
    match s.active_reg_map.find? (fun y => decide (y.2 = r)) with
    | none => s
    | some y =>
      let (pos, s) := getOrAllocSpillPos s y.1
      let s :=
        if writeBack then
          { s with inst_sink := s.inst_sink ++ [mkStr r (pos + s.stack_offset) s.cur_cond] }
        else s
      let s := { s with spilled_regs := ainsertNR y.1 iv s.spilled_regs }
      let s := { s with active := aerase r s.active }
      if alsoEraseMap then
        { s with active_reg_map := eraseFirstByFst y.1 s.active_reg_map }
      else s

/-- The loop body of `RegAllocator::invalidate_read`: walk `active` in
iteration order, dropping every interval that ended and erasing its
(first) reverse-map entry. -/
def invalidateGo (pos : Nat) :
    List (Nat × Interval) → List (Reg × Reg) → List (Nat × Interval) × List (Reg × Reg)
  | [], arm => ([], arm)
  | (p, iv) :: rest, arm =>
    if iv.stop ≤ pos then invalidateGo pos rest (eraseFirstBySnd p arm)
    else
      let (a, m) := invalidateGo pos rest arm
      ((p, iv) :: a, m)

/-- `RegAllocator::invalidate_read`. -/
def invalidate_read (s : St) (pos : Nat) : St :=
  let (a, m) := invalidateGo pos s.active s.active_reg_map
  { s with active := a, active_reg_map := m }

/-- `RegAllocator::replace_read` on a plain register, returning the
physical register substituted in place. -/
def replace_read_reg (s : St) (r : Reg) (i : Nat) (pre : Option Reg) :
    Except AErr (Reg × St) :=
  match chaseCollapse s r with
  | .error e => .error e
  | .ok r =>
    if !is_virtual_register r then .ok (r, s)
    else
      match alookup r s.reg_map with
      | some ph => .ok (ph, s)
      | none =>
        match alookup r s.spilled_regs with
        | some iv =>
          let (pos, s) := getOrAllocSpillPos s r
          let interval := { iv with start := i }
          let s := { s with spilled_regs := aerase r s.spilled_regs }
          let rdRes : Except AErr (Reg × St) :=
            match pre with
            | some p => .ok (p, s)
            | none => allocTransientReg s interval (some r)
          match rdRes with
          | .error e => .error e
          | .ok (rd, s) =>
            -- store/load peephole: cancel a store of `rd` to the same
            -- slot under the same predicate, and delay the write-back
            let del : Bool :=
              match s.inst_sink.getLast? with
              | some (.loadStore .StR rd2 (.mem mo) c2) =>
                decide (rd2 = rd) &&
                decide (mo = { r1 := REG_SP, offset := .imm (pos + s.stack_offset) }) &&
                decide (c2 = s.cur_cond)
              | _ => false
            if del then
              .ok (rd, { s with inst_sink := s.inst_sink.dropLast,
                                delayed_store := some (r, rd) })
            else
              .ok (rd, { s with inst_sink :=
                s.inst_sink ++ [mkLdr rd (pos + s.stack_offset) s.cur_cond] })
        | none =>
          match alookup r s.live_intervals with
          | none => .error .mapAtFailed
          | some li => allocTransientReg s li (some r)

/-- `RegAllocator::replace_read` on an `Operand2`. -/
def replaceReadOp2 (s : St) (r : Operand2) (i : Nat) : Except AErr (Operand2 × St) :=
  match r with
  | .imm v => .ok (.imm v, s)
  | .reg ro =>
    match replace_read_reg s ro.reg i none with
    | .error e => .error e
    | .ok (r2, s) => .ok (.reg { ro with reg := r2 }, s)

/-- `RegAllocator::replace_read` on a `MemoryOperand` (base first, then
the register offset when present). -/
def replaceReadMem (s : St) (m : MemoryOperand) (i : Nat) :
    Except AErr (MemoryOperand × St) :=
  match replace_read_reg s m.r1 i none with
  | .error e => .error e
  | .ok (b, s) =>
    match m.offset with
    | .imm v => .ok ({ m with r1 := b, offset := .imm v }, s)
    | .reg ro =>
      match replace_read_reg s ro.reg i none with
      | .error e => .error e
      | .ok (r2, s) => .ok ({ m with r1 := b, offset := .reg { ro with reg := r2 } }, s)

/-- `RegAllocator::pre_replace_write`. -/
def pre_replace_write (s : St) (r : Reg) (i : Nat) (pre : Option Reg) :
    Except AErr (ReplaceWriteAction × St) :=
  match chaseCollapse s r with
  | .error e => .error e
  | .ok r =>
    if !is_virtual_register r then
      let s := force_free s r true true
      .ok ({ from_ := r, replace_with := r, kind := .phys }, s)
    else
      match alookup r s.reg_map with
      | some ph => .ok ({ from_ := r, replace_with := ph, kind := .graph }, s)
      | none =>
        if listHas r s.spilled_cross_block_reg then
          match pre with
          | some p => .ok ({ from_ := r, replace_with := p, kind := .spill }, s)
          | none =>
            match s.active_reg_map.find? (fun e => decide (e.1 = r)) with
            | some e =>
              .ok ({ from_ := r, replace_with := e.2, kind := .spill },
                   { s with active_reg_map := eraseFirstByFst r s.active_reg_map ++ [e] })
            | none =>
              match alookup r s.live_intervals with
              | none => .error .mapAtFailed
              | some li =>
                match allocTransientReg s (li.with_starting_point i) (some r) with
                | .error e => .error e
                | .ok (rd, s) =>
                  .ok ({ from_ := r, replace_with := rd, kind := .spill }, s)
        else
          match alookup r s.spilled_regs with
          | some iv =>
            let (_, s) := getOrAllocSpillPos s r
            let interval := { iv with start := i }
            let s := { s with spilled_regs := aerase r s.spilled_regs }
            match (match pre with
                   | some p => Except.ok (p, s)
                   | none => allocTransientReg s interval (some r)) with
            | .error e => .error e
            | .ok (rd, s) =>
              .ok ({ from_ := r, replace_with := rd, kind := .spill }, s)
          | none =>
            match alookup r s.live_intervals with
            | none => .error .mapAtFailed
            | some li =>
              match allocTransientReg s li (some r) with
              | .error e => .error e
              | .ok (rd, s) =>
                .ok ({ from_ := r, replace_with := rd, kind := .transient }, s)

/-- `RegAllocator::replace_write`.  Note the source's `Spill` peephole
guard compares `x__->r1` — the *base register* of the previous store's
memory operand — with `rd`, not the previously stored register. -/
def replace_write (s : St) (a : ReplaceWriteAction) (i : Nat) : St :=
  match a.kind with
  | .phys =>
    { s with active := ainsertNR a.replace_with ⟨i, 4294967295⟩ s.active }
  | .graph => s
  | .transient => s
  | .spill =>
    let rd := a.replace_with
    let (pos, s) := getOrAllocSpillPos s a.from_
    let del : Bool :=
      match s.inst_sink.getLast? with
      | some (.loadStore .StR _ (.mem mo) c2) =>
        decide (mo.r1 = rd) && decide (c2 = s.cur_cond) &&
        decide (mo = { r1 := REG_SP, offset := .imm (pos + s.stack_offset) })
      | _ => false
    let s :=
      if del then s
      else { s with inst_sink := s.inst_sink ++ [mkStr rd (pos + s.stack_offset) s.cur_cond] }
    { s with wrote_to := setErase a.from_ s.wrote_to }

/-! ### Liveness analysis (`calc_live_intervals`) -/

/-- The predecessor block of an instruction index:
`point_bb_map.lower_bound(point)` followed by a decrement, i.e. the last
label entry strictly before `point`; decrementing `begin()` is undefined
behaviour, surfaced as `emptyBBMap`. -/
def lastBbBefore (m : List (Nat × Nat)) (point : Nat) : Option Nat :=
  ((m.filter (fun e => decide (e.1 < point))).getLast?).map (·.2)

/-- `RegAllocator::add_reg_use_in_bb_at_point`. -/
def add_reg_use_in_bb_at_point (s : St) (r : Reg) (point : Nat) : Except AErr St :=
  match alookup r s.reg_map with
  | none => .ok s
  | some ph =>
    match lastBbBefore s.point_bb_map point with
    | none => .error .emptyBBMap
    | some bb =>
      let cur := (alookup bb s.bb_used_regs).getD []
      .ok { s with
              bb_used_regs := aupdate bb (setInsert ph cur) (ainsertNR bb [] s.bb_used_regs),
              used_regs := setInsert ph s.used_regs }

/-- `RegAllocator::add_reg_read` on a register. -/
def add_reg_read_r (s : St) (r : Reg) (point : Nat) : Except AErr St :=
  let s :=
    match alookup r s.live_intervals with
    | some iv =>
      { s with live_intervals := aupdate r (iv.add_ending_point point) s.live_intervals }
    | none =>
      { s with live_intervals := ainsertNR r (Interval.point point) s.live_intervals }
  add_reg_use_in_bb_at_point s r point

/-- `RegAllocator::add_reg_write` on a register (also bumps the
per-register assignment counter). -/
def add_reg_write_r (s : St) (r : Reg) (point : Nat) : Except AErr St :=
  let s :=
    match alookup r s.live_intervals with
    | some iv =>
      { s with live_intervals := aupdate r (iv.add_starting_point point) s.live_intervals }
    | none =>
      { s with live_intervals := ainsertNR r (Interval.point point) s.live_intervals }
  let s :=
    match alookup r s.reg_assign_count with
    | some n => { s with reg_assign_count := aupdate r (n + 1) s.reg_assign_count }
    | none => { s with reg_assign_count := ainsertNR r 1 s.reg_assign_count }
  add_reg_use_in_bb_at_point s r point

/-- `add_reg_read` on an `Operand2` (register operands only). -/
def addReadOp2 (s : St) (r : Operand2) (point : Nat) : Except AErr St :=
  match r with
  | .reg ro => add_reg_read_r s ro.reg point
  | .imm _ => .ok s

/-- `add_reg_write` on an `Operand2` (register operands only; present in
the source but unused by any instruction case). -/
def addWriteOp2 (s : St) (r : Operand2) (point : Nat) : Except AErr St :=
  match r with
  | .reg ro => add_reg_write_r s ro.reg point
  | .imm _ => .ok s

/-- `add_reg_read` on a `MemoryOperand`: the base, then the register
offset when present. -/
def addReadMem (s : St) (m : MemoryOperand) (point : Nat) : Except AErr St :=
  match add_reg_read_r s m.r1 point with
  | .error e => .error e
  | .ok s =>
    match m.offset with
    | .reg ro => add_reg_read_r s ro.reg point
    | .imm _ => .ok s

/-- `add_reg_read` over a register list. -/
def addReadList (s : St) (l : List Reg) (point : Nat) : Except AErr St :=
  match l with
  | [] => .ok s
  | r :: rest =>
    match add_reg_read_r s r point with
    | .error e => .error e
    | .ok s => addReadList s rest point

/-- `add_reg_write` over a register list. -/
def addWriteList (s : St) (l : List Reg) (point : Nat) : Except AErr St :=
  match l with
  | [] => .ok s
  | r :: rest =>
    match add_reg_write_r s r point with
    | .error e => .error e
    | .ok s => addWriteList s rest point

/-- Parse the block id of a `.bb_…$id` label: take the suffix after the
last `$` (the whole label when there is none, as `npos + 1` wraps to 0)
and run `std::stoi` on it. -/
def parseBbId (l : String) : Option Int :=
  match charFindLastIdx '$' l.data with
  | some k => cppStoi (String.mk (l.data.drop (k + 1)))
  | none => cppStoi l

/-- One instruction of `RegAllocator::calc_live_intervals`. -/
def calcLiveStep (s : St) (i : Nat) (inst : Inst) : Except AErr St :=
  match inst with
  | .pureI _ _ => .ok s
  | .arith4 _ rd r1 r2 r3 _ =>
    match add_reg_read_r s r1 i with
    | .error e => .error e
    | .ok s =>
      match add_reg_read_r s r2 i with
      | .error e => .error e
      | .ok s =>
        match add_reg_read_r s r3 i with
        | .error e => .error e
        | .ok s => add_reg_write_r s rd i
  | .arith3 _ rd r1 r2 _ =>
    match add_reg_read_r s r1 i with
    | .error e => .error e
    | .ok s =>
      match addReadOp2 s r2 i with
      | .error e => .error e
      | .ok s => add_reg_write_r s rd i
  | .arith2 op r1 r2 _ =>
    let first : Except AErr St :=
      if op = .Mov ∨ op = .MovT ∨ op = .Mvn then
        match add_reg_write_r s r1 i with
        | .error e => .error e
        | .ok s =>
          -- copy-affinity collection: `mov r1, r2` with an unshifted
          -- register operand and both sides non-virtual
          match r2 with
          | .reg ro =>
            if op = .Mov ∧ ro.shift_amount = 0 ∧
               is_virtual_register r1 = false ∧ is_virtual_register ro.reg = false then
              .ok { s with reg_affine := ainsertNR r1 ro.reg s.reg_affine }
            else .ok s
          | .imm _ => .ok s
      else add_reg_read_r s r1 i
    match first with
    | .error e => .error e
    | .ok s => addReadOp2 s r2 i
  | .br op _ _ _ =>
    if op = .Bl then .ok { s with bl_points := setInsert i s.bl_points } else .ok s
  | .loadStore op rd mem _ =>
    let first : Except AErr St :=
      if op = .LdR then add_reg_write_r s rd i else add_reg_read_r s rd i
    match first with
    | .error e => .error e
    | .ok s =>
      match mem with
      | .mem mo => addReadMem s mo i
      | .label _ => .ok s
  | .multLoadStore op rn rds _ =>
    let first : Except AErr St :=
      if op = .LdM then addWriteList s rds i else addReadList s rds i
    match first with
    | .error e => .error e
    | .ok s => add_reg_read_r s rn i
  | .pushPop op regs _ =>
    if op = .Push then addWriteList s regs i else addReadList s regs i
  | .label l _ =>
    if strStarts ".bb_" l then
      match parseBbId l with
      | some id =>
        .ok { s with point_bb_map := s.point_bb_map ++ [(i, (id % 4294967296).toNat)] }
      | none => .ok s
    else .ok s
  | .ctrl _ _ _ => .ok s

/-- The indexed loop of `calc_live_intervals`. -/
def calcLiveGo (s : St) (i : Nat) (insts : List Inst) : Except AErr St :=
  match insts with
  | [] => .ok s
  | inst :: rest =>
    match calcLiveStep s i inst with
    | .error e => .error e
    | .ok s => calcLiveGo s (i + 1) rest

/-- `RegAllocator::calc_live_intervals`. -/
def calc_live_intervals (s : St) (insts : List Inst) : Except AErr St :=
  calcLiveGo s 0 insts

/-! ### Register-map construction (`construct_reg_map`) -/

/-- One entry of `construct_reg_map`: `mir_to_arm` maps a MIR variable id
to its virtual register, and the borrowed coloring result maps variable
ids to `-1` (spilled cross-block) or a `GLOB_REGS` index. -/
def constructOne (s : St) (varId : Nat) (vreg : Reg) (cm : List (Nat × Int)) :
    Except AErr St :=
  match alookup varId cm with
  | none => .ok s
  | some c =>
    if c = -1 then
      .ok { s with
              spill_positions := ainsertNR vreg s.stack_size s.spill_positions,
              stack_size := s.stack_size + 4,
              spilled_cross_block_reg := setInsert vreg s.spilled_cross_block_reg }
    else
      match GLOB_REGS.get? c.toNat with
      | none => .error .badColor
      | some reg =>
        if c < 0 then .error .badColor
        else
          .ok { s with
                  reg_map := ainsertNR vreg reg s.reg_map,
                  reg_reverse_map := s.reg_reverse_map ++ [(reg, vreg)],
                  used_regs := setInsert reg s.used_regs }

/-- `RegAllocator::construct_reg_map`, iterating the (sorted)
`mir_to_arm` map. -/
def construct_reg_map (s : St) (mta : List (Nat × Reg)) (cm : List (Nat × Int)) :
    Except AErr St :=
  match mta with
  | [] => .ok s
  | (varId, vreg) :: rest =>
    match constructOne s varId vreg cm with
    | .error e => .error e
    | .ok s => construct_reg_map s rest cm

/-! ### Copy-affinity coalescing (`calc_reg_affinity`) -/

/-- The `equal_range` loop of `calc_reg_affinity`: does any *other*
virtual with the same graph-colored home have a live interval that
overlaps `li`?  -/
def overlapsAnyGo (s : St) (src : Reg) (li : Interval) :
    List (Nat × Reg) → Except AErr Bool
  | [] => .ok false
  | (_, vr) :: rest =>
    if vr = src then overlapsAnyGo s src li rest
    else
      match alookup vr s.live_intervals with
      | none => .error .mapAtFailed
      | some ivr =>
        if overlaps ivr li then .ok true else overlapsAnyGo s src li rest

/-- See `overlapsAnyGo`; filters the reverse map down to the entries of
one home register, as `equal_range` does. -/
def overlapsAnyRev (s : St) (home src : Reg) (li : Interval) : Except AErr Bool :=
  overlapsAnyGo s src li (s.reg_reverse_map.filter (fun e => decide (e.1 = home)))

/-- One `(dst, src)` entry of `calc_reg_affinity`'s loop, with the three
`else if` branches of the source. -/
def affinityStep (s : St) (dst src : Reg) : Except AErr St :=
  match alookup src s.reg_map with
  | some home =>
    if (alookup dst s.reg_map).isNone ∧ listHas dst s.spilled_cross_block_reg = false then
      match alookup dst s.reg_assign_count with
      | none => .error .mapAtFailed
      | some cnt =>
        if cnt = 1 then
          match alookup dst s.live_intervals with
          | none => .error .mapAtFailed
          | some liDst =>
            match overlapsAnyRev s home src liDst with
            | .error e => .error e
            | .ok true => .ok s
            | .ok false => .ok { s with reg_collapse := ainsertNR dst src s.reg_collapse }
        else .ok s
    else .ok s
  | none =>
    match alookup dst s.reg_map with
    | some home2 =>
      if listHas src s.spilled_cross_block_reg = false then
        match alookup src s.live_intervals with
        | none => .error .mapAtFailed
        | some liSrc =>
          match overlapsAnyRev s home2 src liSrc with
          | .error e => .error e
          | .ok true => .ok s
          | .ok false => .ok { s with reg_collapse := ainsertNR src dst s.reg_collapse }
      else .ok s
    | none =>
      if listHas src s.spilled_cross_block_reg = false ∧
         listHas dst s.spilled_cross_block_reg = false then
        match chaseCollapse s src with
        | .error e => .error e
        | .ok srcR =>
          match chaseCollapse s dst with
          | .error e => .error e
          | .ok dstR =>
            match alookup srcR s.live_intervals, alookup dstR s.live_intervals with
            | some liS, some liD =>
              if overlaps liS liD then .ok s
              else
                let liS2 := (liS.add_starting_point liD.start).add_ending_point liD.stop
                .ok { s with
                        live_intervals := aupdate srcR liS2 s.live_intervals,
                        reg_collapse := ainsertNR dstR srcR s.reg_collapse }
            | _, _ => .error .mapAtFailed
      else .ok s

/-- The loop of `calc_reg_affinity` over the collected `reg_affine`
entries. -/
def affinityGo (s : St) : List (Reg × Reg) → Except AErr St
  | [] => .ok s
  | (dst, src) :: rest =>
    match affinityStep s dst src with
    | .error e => .error e
    | .ok s => affinityGo s rest

/-- `RegAllocator::calc_reg_affinity`. -/
def calc_reg_affinity (s : St) : Except AErr St :=
  affinityGo s s.reg_affine

/-! ### Linear-scan rewriting (`perform_load_stores`) -/

/-- The source's block-reset trigger on labels is written
`x->label.find(".bb" == 0)`: `".bb" == 0` is a null-pointer comparison
yielding `false`, which converts to the character `'\x00'`, so the call
searches for a NUL character; `npos` (no NUL, the case for every real
label) is non-zero and hence truthy.  The condition is therefore true
unless the label *starts* with an embedded NUL. -/
def labelTriggersBbReset (l : String) : Bool :=
  match charFindIdx (Char.ofNat 0) l.data with
  | none => true
  | some k => decide (k ≠ 0)

/-- Swap the last two emitted instructions (the `.ld_pc` label hack). -/
def swapLastTwo : List Inst → List Inst
  | [] => []
  | [a] => [a]
  | [a, b] => [b, a]
  | a :: b :: c :: rest => a :: swapLastTwo (b :: c :: rest)

/-- The `bb_reset` loop over `active_reg_map` at an unconditional branch:
the entries already kept are in `done`, the entries not yet visited in
`todo`; a cross-block entry is force-freed (writing back only when its
virtual is in `wrote_to`), erased from `active`, and dropped. -/
def bbResetGo (s : St) (done todo : List (Reg × Reg)) : St :=
  match todo with
  | [] => { s with active_reg_map := done }
  | (v, p) :: rest =>
    if listHas v s.spilled_cross_block_reg then
      let wb := listHas v s.wrote_to
      let s1 := force_free { s with active_reg_map := done ++ (v, p) :: rest } p false wb
      let s2 := { s1 with active := aerase p s1.active }
      bbResetGo s2 done rest
    else
      bbResetGo s (done ++ [(v, p)]) rest

/-- Commit a pending `delayed_store` as a `Spill` write-back (the tail of
the `perform_load_stores` loop body, and the entry of the branch case). -/
def commitDelayed (s : St) (i : Nat) : St :=
  match s.delayed_store with
  | none => s
  | some (r, rd) =>
    let s := replace_write s { from_ := r, replace_with := rd, kind := .spill } i
    { s with delayed_store := none }

/-- The call-clobber handling of a `bl` at index `i` (spec 4.4.3):
argument registers are dropped, the remaining caller-saved registers and
`lr` are force-freed with write-back, and after the call every
caller-saved register is erased from `active`. -/
def blHandle (s : St) (inst : Inst) (paramCnt : Nat) : St :=
  let regCnt := min paramCnt 4
  let s := (List.range regCnt).foldl (fun s j => { s with active := aerase j s.active }) s
  let s := ((List.range 4).drop regCnt).foldl (fun s j => force_free s j true true) s
  let s := force_free s 12 true true
  let s := force_free s REG_LR true true
  let s := { s with inst_sink := s.inst_sink ++ [inst], is_leaf_func := false }
  let s := { s with active := aerase 0 s.active }
  let s := { s with active := aerase 1 s.active }
  let s := { s with active := aerase 2 s.active }
  let s := { s with active := aerase 3 s.active }
  let s := { s with active := aerase 12 s.active }
  { s with active := aerase REG_LR s.active }

/-- The per-instruction body of `perform_load_stores` (before the final
`delayed_store` commit). -/
def plsCore (s : St) (i : Nat) (inst : Inst) : Except AErr St :=
  match inst with
  | .arith3 op rd r1 r2 c =>
    match replace_read_reg s r1 i none with
    | .error e => .error e
    | .ok (r1a, s) =>
      match replaceReadOp2 s r2 i with
      | .error e => .error e
      | .ok (r2a, s) =>
        let s := invalidate_read s i
        let s := { s with wrote_to := setInsert rd s.wrote_to }
        match pre_replace_write s rd i none with
        | .error e => .error e
        | .ok (act, s) =>
          let s := { s with inst_sink :=
            s.inst_sink ++ [.arith3 op act.replace_with r1a r2a c] }
          .ok (replace_write s act i)
  | .arith4 op rd r1 r2 r3 c =>
    match replace_read_reg s r1 i none with
    | .error e => .error e
    | .ok (r1a, s) =>
      match replace_read_reg s r2 i none with
      | .error e => .error e
      | .ok (r2a, s) =>
        match replace_read_reg s r3 i none with
        | .error e => .error e
        | .ok (r3a, s) =>
          let s := invalidate_read s i
          let s := { s with wrote_to := setInsert rd s.wrote_to }
          match pre_replace_write s rd i none with
          | .error e => .error e
          | .ok (act, s) =>
            let s := { s with inst_sink :=
              s.inst_sink ++ [.arith4 op act.replace_with r1a r2a r3a c] }
            .ok (replace_write s act i)
  | .arith2 op r1 r2 c =>
    if op = .Mov ∨ op = .Mvn then
      match replaceReadOp2 s r2 i with
      | .error e => .error e
      | .ok (r2a, s) =>
        let s := invalidate_read s i
        let s := { s with wrote_to := setInsert r1 s.wrote_to }
        match pre_replace_write s r1 i none with
        | .error e => .error e
        | .ok (act, s) =>
          let s := { s with inst_sink :=
            s.inst_sink ++ [.arith2 op act.replace_with r2a c] }
          .ok (replace_write s act i)
    else if op = .MovT then
      -- `movt` keeps `r2` untouched: the source only rewrites `r1` (as a
      -- read) and pre-writes the saved original with `x->r1` pre-allocated
      match replace_read_reg s r1 i none with
      | .error e => .error e
      | .ok (r1a, s) =>
        let s := invalidate_read s i
        let s := { s with wrote_to := setInsert r1a s.wrote_to }
        match pre_replace_write s r1 i (some r1a) with
        | .error e => .error e
        | .ok (act, s) =>
          let s := { s with inst_sink := s.inst_sink ++ [.arith2 op r1a r2 c] }
          .ok (replace_write s act i)
    else
      match replace_read_reg s r1 i none with
      | .error e => .error e
      | .ok (r1a, s) =>
        match replaceReadOp2 s r2 i with
        | .error e => .error e
        | .ok (r2a, s) =>
          let s := invalidate_read s i
          .ok { s with inst_sink := s.inst_sink ++ [.arith2 op r1a r2a c] }
  | .loadStore op rd mem c =>
    let memRes : Except AErr (MemArg × St) :=
      match mem with
      | .mem mo =>
        match replaceReadMem s mo i with
        | .error e => .error e
        | .ok (mo2, s) => .ok (.mem mo2, s)
      | .label l => .ok (.label l, s)
    match memRes with
    | .error e => .error e
    | .ok (mem2, s) =>
      if op = .LdR then
        let s := invalidate_read s i
        let s := { s with wrote_to := setInsert rd s.wrote_to }
        match pre_replace_write s rd i none with
        | .error e => .error e
        | .ok (act, s) =>
          let s := { s with inst_sink :=
            s.inst_sink ++ [.loadStore op act.replace_with mem2 c] }
          .ok (replace_write s act i)
      else
        match replace_read_reg s rd i none with
        | .error e => .error e
        | .ok (rda, s) =>
          let s := invalidate_read s i
          .ok { s with inst_sink := s.inst_sink ++ [.loadStore op rda mem2 c] }
  | .multLoadStore _ _ _ _ => .error .notImplemented
  | .pushPop op regs c =>
    let s := invalidate_read s i
    .ok { s with inst_sink := s.inst_sink ++ [.pushPop op regs c] }
  | .label l c =>
    let s := invalidate_read s i
    let old := s.inst_sink
    let s := { s with inst_sink := s.inst_sink ++ [.label l c] }
    let isLdPcSwap : Bool :=
      strStarts ".ld_pc" l &&
        (match old.getLast? with
         | some (.loadStore _ _ _ _) => true
         | _ => false)
    let s :=
      if isLdPcSwap then { s with inst_sink := swapLastTwo s.inst_sink } else s
    if labelTriggersBbReset l then .ok { s with bb_reset := true } else .ok s
  | .br op l paramCnt c =>
    let s := commitDelayed s i
    let s := invalidate_read s i
    if op = .Bl then
      .ok (blHandle s (.br op l paramCnt c) paramCnt)
    else if op = .B then
      if s.bb_reset then
        let s := bbResetGo s [] s.active_reg_map
        let s := { s with wrote_to := [], bb_reset := false }
        .ok { s with inst_sink := s.inst_sink ++ [.br op l paramCnt c] }
      else
        .ok { s with inst_sink := s.inst_sink ++ [.br op l paramCnt c] }
    else
      .ok { s with inst_sink := s.inst_sink ++ [.br op l paramCnt c] }
  | .ctrl k v c =>
    let s := if k = "offset_stack" then { s with stack_offset := s.stack_offset + v } else s
    let s := invalidate_read s i
    .ok { s with inst_sink := s.inst_sink ++ [.ctrl k v c] }
  | .pureI op c =>
    let s := invalidate_read s i
    .ok { s with inst_sink := s.inst_sink ++ [.pureI op c] }

/-- One instruction of `perform_load_stores`: set `cur_cond` from the
instruction, run the body, then commit any `delayed_store`. -/
def plsStep (s : St) (i : Nat) (inst : Inst) : Except AErr St :=
  match plsCore { s with cur_cond := inst.cond } i inst with
  | .error e => .error e
  | .ok s => .ok (commitDelayed s i)

/-- The indexed loop of `perform_load_stores`. -/
def plsGo (s : St) (i : Nat) (insts : List Inst) : Except AErr St :=
  match insts with
  | [] => .ok s
  | inst :: rest =>
    match plsStep s i inst with
    | .error e => .error e
    | .ok s => plsGo s (i + 1) rest

/-- `RegAllocator::perform_load_stores`. -/
def perform_load_stores (s : St) (insts : List Inst) : Except AErr St :=
  plsGo s 0 insts

/-! ### Prologue/epilogue patching (tail of `alloc_regs`) -/

/-- `std::vector::insert(begin()+k, x)` with its validity requirement. -/
def cppInsertIdx (k : Nat) (x : Inst) (l : List Inst) : Except AErr (List Inst) :=
  if k ≤ l.length then .ok (listInsertIdx k x l) else .error .oob

/-- `std::vector::erase(begin()+k)` with its validity requirement. -/
def cppEraseIdx (k : Nat) (l : List Inst) : Except AErr (List Inst) :=
  if k < l.length then .ok (listEraseIdx k l) else .error .oob

/-- The body of the prologue/epilogue patching block of
`RegAllocator::alloc_regs`, after the two boundary
`static_cast<PushPopInst*>` casts have succeeded (`op1 regs1 c1` is the
leading push, `op2 regs2 c2` the trailing pop): insert the used
registers into both lists, handle `fp` and stack arguments, insert the
frame allocation according to the final `stack_size`, erase the
placeholder frame move and the epilogue frame restore when the frame is
empty, and drop empty push/pop lists. -/
def patchCore (op1 op2 : OpCode) (regs1 regs2 : List Reg) (c1 c2 : ConditionCode)
    (inst : List Inst) (ss : Int) (params : Nat)
    (used usedt : List Reg) : Except AErr (List Inst) :=
  let U := used ++ usedt
  let regs1a := setInsertAll regs1 U
  let regs2a := setInsertAll regs2 U
  let usp : Bool := decide (params > 4)
  let offset_size : Int := Int.ofNat regs1a.length * 4
  let regs1b := if !usp && decide (ss = 0) then setErase REG_FP regs1a else regs1a
  let regs2b := if !usp && decide (ss = 0) then setErase REG_FP regs2a else regs2a
  let L := listSet 0 (.pushPop op1 regs1b c1) inst
  let L := listSet (L.length - 1) (.pushPop op2 regs2b c2) L
  let step4 : Except AErr (List Inst) :=
    if usp then
      cppInsertIdx 2 (.arith3 .Add REG_FP REG_FP (.imm offset_size) .Always) L
    else .ok L
  match step4 with
  | .error e => .error e
  | .ok L =>
    let step5 : Except AErr (List Inst) :=
      if ss = 0 then
        if !usp then cppEraseIdx 1 L else .ok L
      else if ss < 1024 then
        cppInsertIdx 2 (.arith3 .Sub REG_SP REG_SP (.imm ss) .Always) L
      else
        match cppInsertIdx 2 (.arith2 .Mov 12 (.imm ss) .Always) L with
        | .error e => .error e
        | .ok L =>
          cppInsertIdx 3 (.arith3 .Sub REG_SP REG_SP (.reg { reg := 12 }) .Always) L
    match step5 with
    | .error e => .error e
    | .ok L =>
      let step6 : Except AErr (List Inst) :=
        if ss = 0 then cppEraseIdx (L.length - 2) L else .ok L
      match step6 with
      | .error e => .error e
      | .ok L =>
        let step7 : Except AErr (List Inst) :=
          if usp then
            cppInsertIdx (L.length - 2)
              (.arith3 .Sub REG_FP REG_FP (.imm offset_size) .Always) L
          else .ok L
        match step7 with
        | .error e => .error e
        | .ok L =>
          match L.head?, L.getLast? with
          | some (.pushPop _ fregs _), some (.pushPop _ bregs _) =>
            let L1 := if fregs.isEmpty then L.drop 1 else L
            if bregs.isEmpty then
              match L1.length with
              | 0 => .error .oob
              | n + 1 => .ok (listEraseIdx n L1)
            else .ok L1
          | _, _ => .error .badCast

/-- The prologue/epilogue patching block at the end of
`RegAllocator::alloc_regs`, applied to the rewritten instruction list.
Both boundary `static_cast<PushPopInst*>` casts are modelled as
checks. -/
def patchPrologue (inst : List Inst) (ss : Int) (params : Nat)
    (used usedt : List Reg) : Except AErr (List Inst) :=
  match inst.head?, inst.getLast? with
  | some (.pushPop op1 regs1 c1), some (.pushPop op2 regs2 c2) =>
    patchCore op1 op2 regs1 regs2 c1 c2 inst ss params used usedt
  | _, _ => .error .badCast

/-! ### The whole pass (`alloc_regs`) -/

/-- `RegAllocator::alloc_regs` for one function: build the register map
from the coloring result, run liveness, coalesce copies, rewrite the
instructions, and patch the prologue/epilogue.  Returns the function's
final instruction list. -/
def allocRegs (temp : List Reg) (insts : List Inst) (mta : List (Nat × Reg))
    (cm : List (Nat × Int)) (fss : Int) (params : Nat) : Except AErr (List Inst) :=
  match construct_reg_map (initSt temp fss) mta cm with
  | .error e => .error e
  | .ok s =>
    match calc_live_intervals s insts with
    | .error e => .error e
    | .ok s =>
      match calc_reg_affinity s with
      | .error e => .error e
      | .ok s =>
        match perform_load_stores s insts with
        | .error e => .error e
        | .ok s =>
          patchPrologue s.inst_sink s.stack_size params s.used_regs s.used_regs_temp

/-! ### Observables -/

/-- The register operands of an `Operand2`. -/
def op2Regs : Operand2 → List Reg
  | .reg ro => [ro.reg]
  | .imm _ => []

/-- The register operands of a `MemoryOperand`. -/
def memRegs (m : MemoryOperand) : List Reg :=
  m.r1 :: (match m.offset with | .reg ro => [ro.reg] | .imm _ => [])

/-- Every register operand of an instruction, across all positions. -/
def instRegs : Inst → List Reg
  | .pureI _ _ => []
  | .arith2 _ r1 r2 _ => r1 :: op2Regs r2
  | .arith3 _ rd r1 r2 _ => rd :: r1 :: op2Regs r2
  | .arith4 _ rd r1 r2 r3 _ => [rd, r1, r2, r3]
  | .br _ _ _ _ => []
  | .loadStore _ rd m _ =>
    rd :: (match m with | .label _ => [] | .mem mo => memRegs mo)
  | .multLoadStore _ rn rds _ => rn :: rds
  | .pushPop _ regs _ => regs
  | .label _ _ => []
  | .ctrl _ _ _ => []

/-- All register operands of an instruction are physical (id below 64). -/
def instPhys (inst : Inst) : Prop := ∀ r ∈ instRegs inst, r < 64

/-- A `push`/`pop` instruction whose register list is all-physical; other
instructions satisfy this trivially.  The rewriter moves push/pop
register lists through unchanged, so this is part of the input
contract. -/
def pushPopPhys (inst : Inst) : Prop :=
  ∀ op regs c, inst = Inst.pushPop op regs c → ∀ r ∈ regs, r < 64

/-- A `movt` whose `Operand2` is an immediate (the architectural form);
other instructions satisfy this trivially.  The rewriter does not touch
a `movt`'s second operand, so this is part of the input contract. -/
def movtImmOnly (inst : Inst) : Prop :=
  ∀ r1 ro c, inst = Inst.arith2 .MovT r1 (.reg ro) c → False

/-- The specification side of the eager write-back property (claim C2):
walking the `active_reg_map` entries in order, every cross-block virtual
that was written since the last reset contributes one
`str <phys>, [sp, #slot + stack_offset]` under the current predicate;
entries only read contribute nothing.  Compared against `bbResetGo`,
which is translated from the source loop. -/
def eagerStores (spv : List (Nat × Int)) (cross wrote : List Reg) (so : Int)
    (c : ConditionCode) : List (Reg × Reg) → List Inst
  | [] => []
  | (v, p) :: rest =>
    if listHas v cross then
      (if listHas v wrote then
        (match alookup v spv with
         | some pos => [mkStr p (pos + so) c]
         | none => [])
       else []) ++ eagerStores spv cross wrote so c rest
    else eagerStores spv cross wrote so c rest

/-- A state at an unconditional branch closing a basic block: virtual 100
lives in `r4` and was written, virtual 101 lives in `r5` and was only
read; both are cross-block with assigned spill slots. -/
def c2state : St :=
  { initSt [2] 0 with
      active := [(4, ⟨0, 10⟩), (5, ⟨0, 10⟩)],
      active_reg_map := [(100, 4), (101, 5)],
      spilled_cross_block_reg := [100, 101],
      wrote_to := [100],
      spill_positions := [(100, 8), (101, 12)] }

/-- Every instruction of a list has only physical register operands. -/
def allPhys (l : List Inst) : Prop := ∀ inst ∈ l, instPhys inst

/-- The physicality invariant carried through the rewriting pass: the
emitted instructions, the reverse map's physicals, the graph-coloring
map's homes, the transient pool, both used-register records and any
pending delayed store all mention only physical registers. -/
structure Inv (s : St) : Prop where
  sink : allPhys s.inst_sink
  arm : ∀ e ∈ s.active_reg_map, e.2 < 64
  rmap : ∀ e ∈ s.reg_map, e.2 < 64
  temp : ∀ r ∈ s.temp_regs, r < 64
  used : ∀ r ∈ s.used_regs, r < 64
  usedt : ∀ r ∈ s.used_regs_temp, r < 64
  delay : ∀ pr, s.delayed_store = some pr → pr.2 < 64

/-! ### Shared facts about the container embeddings -/

instance {ε α : Type} [DecidableEq ε] [DecidableEq α] : DecidableEq (Except ε α) := by
  intro x y
  cases x with
  | ok a =>
    cases y with
    | ok b =>
      exact if h : a = b then .isTrue (by rw [h]) else .isFalse (by simp [h])
    | error b => exact .isFalse (by simp)
  | error a =>
    cases y with
    | ok b => exact .isFalse (by simp)
    | error b =>
      exact if h : a = b then .isTrue (by rw [h]) else .isFalse (by simp [h])

theorem alookup_mem {α : Type} {k : Nat} {v : α} {m : List (Nat × α)}
    (h : alookup k m = some v) : (k, v) ∈ m := by
  induction m with
  | nil => simp [alookup] at h
  | cons e rest ih =>
    obtain ⟨k2, v2⟩ := e
    by_cases hk : k2 = k
    · subst hk
      simp [alookup] at h
      subst h
      exact List.mem_cons_self _ _
    · simp [alookup, hk] at h
      exact List.mem_cons_of_mem _ (ih h)

theorem alookup_ainsertNR_preserve {α : Type} {k : Nat} {v : α} {m : List (Nat × α)}
    (k2 : Nat) (v2 : α) (h : alookup k m = some v) :
    alookup k (ainsertNR k2 v2 m) = some v := by
  unfold ainsertNR
  cases hl : alookup k2 m with
  | some w => exact h
  | none =>
    have hne : k2 ≠ k := by
      intro he
      rw [he, h] at hl
      exact Option.noConfusion hl
    simp [alookup, hne]
    exact h

theorem alookup_ainsertNR_self {α : Type} {k : Nat} {v : α} {m : List (Nat × α)}
    (h : alookup k m = none) : alookup k (ainsertNR k v m) = some v := by
  unfold ainsertNR
  rw [h]
  simp [alookup]

theorem alookup_aupdate_ne {α : Type} {k k2 : Nat} (v : α) {m : List (Nat × α)}
    (h : k ≠ k2) : alookup k (aupdate k2 v m) = alookup k m := by
  induction m with
  | nil => rfl
  | cons e rest ih =>
    obtain ⟨k3, v3⟩ := e
    rw [aupdate]
    by_cases h3 : k3 = k2
    · rw [if_pos h3]
      have hk : k3 ≠ k := by
        subst h3
        exact fun he => h he.symm
      rw [alookup, alookup, if_neg hk, if_neg hk]
    · rw [if_neg h3, alookup, alookup]
      by_cases h4 : k3 = k
      · rw [if_pos h4, if_pos h4]
      · rw [if_neg h4, if_neg h4]
        exact ih

theorem alookup_aupdate_self {α : Type} {k : Nat} (v : α) {m : List (Nat × α)}
    {w : α} (h : alookup k m = some w) : alookup k (aupdate k v m) = some v := by
  induction m with
  | nil => simp [alookup] at h
  | cons e rest ih =>
    obtain ⟨k3, v3⟩ := e
    by_cases h3 : k3 = k
    · subst h3
      simp [aupdate, alookup]
    · simp [alookup, h3] at h
      simp [aupdate, h3, alookup, ih h]

theorem alookup_aerase_ne {α : Type} {k k2 : Nat} {m : List (Nat × α)}
    (h : k ≠ k2) : alookup k (aerase k2 m) = alookup k m := by
  induction m with
  | nil => rfl
  | cons e rest ih =>
    obtain ⟨k3, v3⟩ := e
    rw [aerase, List.filter_cons]
    rw [aerase] at ih
    by_cases h3 : k3 = k2
    · have hd : decide ((k3, v3).1 ≠ k2) = false := by simp [h3]
      rw [hd]
      have hk : k3 ≠ k := by
        subst h3
        exact fun he => h he.symm
      simp only [Bool.false_eq_true, if_false]
      rw [ih, alookup, if_neg hk]
    · have hd : decide ((k3, v3).1 ≠ k2) = true := by simp [h3]
      rw [hd]
      simp only [if_true]
      rw [alookup, alookup]
      by_cases h4 : k3 = k
      · rw [if_pos h4, if_pos h4]
      · rw [if_neg h4, if_neg h4]
        exact ih

theorem mem_setInsert {r x : Nat} {l : List Nat}
    (h : x ∈ setInsert r l) : x = r ∨ x ∈ l := by
  induction l with
  | nil =>
    simp [setInsert] at h
    exact Or.inl h
  | cons a rest ih =>
    by_cases h1 : r < a
    · simp [setInsert, h1] at h
      rcases h with h | h | h
      · exact Or.inl h
      · exact Or.inr (by simp [h])
      · exact Or.inr (by simp [h])
    · by_cases h2 : r = a
      · simp [setInsert, h1, h2] at h
        rcases h with h | h
        · exact Or.inr (by simp [h])
        · exact Or.inr (by simp [h])
      · simp [setInsert, h1, h2] at h
        rcases h with h | h
        · exact Or.inr (by simp [h])
        · rcases ih h with h | h
          · exact Or.inl h
          · exact Or.inr (by simp [h])

theorem listHas_setInsert_self (r : Nat) (l : List Nat) :
    listHas r (setInsert r l) = true := by
  induction l with
  | nil => simp [setInsert, listHas]
  | cons a rest ih =>
    by_cases h1 : r < a
    · simp [setInsert, h1, listHas]
    · by_cases h2 : r = a
      · simp [setInsert, h1, h2, listHas]
      · have : a ≠ r := fun he => h2 he.symm
        simp [setInsert, h1, h2, listHas, this, ih]

theorem mem_setInsertAll {x : Nat} {l base : List Nat}
    (h : x ∈ setInsertAll base l) : x ∈ base ∨ x ∈ l := by
  induction l generalizing base with
  | nil =>
    simp [setInsertAll] at h
    exact Or.inl h
  | cons a rest ih =>
    rw [setInsertAll] at h
    rcases ih h with h | h
    · rcases mem_setInsert h with h | h
      · exact Or.inr (by simp [h])
      · exact Or.inl h
    · exact Or.inr (by simp [h])

theorem mem_setErase {r x : Nat} {l : List Nat}
    (h : x ∈ setErase r l) : x ∈ l := by
  exact (List.mem_filter.mp h).1

theorem mem_eraseFirstByFst {k : Nat} {e : Nat × Nat} {m : List (Nat × Nat)}
    (h : e ∈ eraseFirstByFst k m) : e ∈ m := by
  induction m with
  | nil => simp [eraseFirstByFst] at h
  | cons a rest ih =>
    by_cases h1 : a.1 = k
    · rw [eraseFirstByFst, if_pos h1] at h
      exact List.mem_cons_of_mem _ h
    · rw [eraseFirstByFst, if_neg h1] at h
      rcases List.mem_cons.mp h with h | h
      · exact h ▸ List.mem_cons_self _ _
      · exact List.mem_cons_of_mem _ (ih h)

theorem mem_eraseFirstBySnd {v : Nat} {e : Nat × Nat} {m : List (Nat × Nat)}
    (h : e ∈ eraseFirstBySnd v m) : e ∈ m := by
  induction m with
  | nil => simp [eraseFirstBySnd] at h
  | cons a rest ih =>
    by_cases h1 : a.2 = v
    · rw [eraseFirstBySnd, if_pos h1] at h
      exact List.mem_cons_of_mem _ h
    · rw [eraseFirstBySnd, if_neg h1] at h
      rcases List.mem_cons.mp h with h | h
      · exact h ▸ List.mem_cons_self _ _
      · exact List.mem_cons_of_mem _ (ih h)

theorem mem_swapLastTwo {x : Inst} {l : List Inst}
    (h : x ∈ swapLastTwo l) : x ∈ l := by
  induction l with
  | nil => simp [swapLastTwo] at h
  | cons a rest ih =>
    match rest, h with
    | [], h => simpa [swapLastTwo] using h
    | [b], h =>
      simp [swapLastTwo] at h
      rcases h with h | h <;> simp [h]
    | b :: c :: r2, h =>
      rw [swapLastTwo] at h
      rcases List.mem_cons.mp h with h | h
      · simp [h]
      · exact List.mem_cons_of_mem _ (ih h)

theorem mem_invalidateGo_arm {pos : Nat} {act : List (Nat × Interval)}
    {arm : List (Reg × Reg)} {e : Reg × Reg}
    (h : e ∈ (invalidateGo pos act arm).2) : e ∈ arm := by
  induction act generalizing arm with
  | nil => simpa [invalidateGo] using h
  | cons a rest ih =>
    obtain ⟨p, iv⟩ := a
    by_cases h1 : iv.stop ≤ pos
    · rw [invalidateGo, if_pos h1] at h
      exact mem_eraseFirstBySnd (ih h)
    · rw [invalidateGo, if_neg h1] at h
      exact ih (by
        rcases hgo : invalidateGo pos rest arm with ⟨a2, m2⟩
        rw [hgo] at h
        simpa using h)

/-! ### Claim theorems -/

/-- Claim C9 helper: a self-loop in `reg_collapse` makes
`get_collapse_reg` run out of any amount of fuel, i.e. the source
recursion never terminates. -/
theorem get_collapse_reg_self_loop {m : List (Nat × Reg)} {r : Reg}
    (h : alookup r m = some r) : ∀ fuel, get_collapse_reg fuel m r = none := by
  intro fuel
  induction fuel with
  | zero => rfl
  | succ n ih =>
    rw [get_collapse_reg, h]
    exact ih

/-- Claim C9: the claim states that every `reg_collapse` map producible
by `calc_reg_affinity` is acyclic and `get_collapse_reg` terminates.
The code violates this: on the single instruction `mov r5, r5` (an
unshifted register copy between equal non-virtual registers), liveness
records the empty interval `[0, 0)` for `r5` and the affinity pair
`(5, 5)`; the coalescing pass then finds that the empty interval does
not overlap itself and inserts the self-loop `reg_collapse[5] = 5`, on
which `get_collapse_reg` recurses forever (modelled as exhausting every
fuel bound).  The spec's invariant is clearly the intent, so this is a
code bug. -/
theorem C9_self_loop_nontermination :
    (Except.map (fun s => s.reg_collapse)
      (match calc_live_intervals (initSt [0] 0)
               [.arith2 .Mov 5 (.reg { reg := 5 }) .Always] with
       | .ok s => calc_reg_affinity s
       | .error e => .error e) = .ok [(5, 5)])
    ∧ ∀ fuel, get_collapse_reg fuel [(5, 5)] 5 = none := by
  constructor
  · decide
  · exact get_collapse_reg_self_loop (by decide)

/-- Claim C5: the claim states that `bb_reset` is set only at labels
beginning with `.bb`.  The source line is `x->label.find(".bb" == 0)`:
the string comparison `".bb" == 0` is a null-pointer comparison yielding
`false`, converted to the character `'\x00'`, and `find` of a NUL in a
NUL-free label returns `npos`, which is truthy — so *every* label sets
`bb_reset`.  Here the label `"foo"` (which does not begin with `.bb`)
flips `bb_reset` from `false` to `true`. -/
theorem C5_any_label_sets_bb_reset :
    (Except.map (fun s => s.bb_reset)
      (plsStep { initSt [0] 0 with bb_reset := false } 0 (.label "foo" .Always))
      = .ok true)
    ∧ strStarts ".bb" "foo" = false := by
  constructor
  · decide
  · decide

/-- Claim C3: the claim states that a `Spill` write commit elides the
store when the previously emitted instruction is exactly the same store.
The source guard compares `x__->r1` — the *base register* of the
previous store's memory operand, which is always `sp` — against `rd`,
so the peephole can only fire when `rd = sp` and a duplicate store is
emitted even when the previous instruction is exactly `str r4, [sp, #8]`
under the same (`Always`) predicate.  The analogous guard in
`replace_read` compares the stored register `x_->rd`, so this is a slip
and a code bug (the emitted duplicate is redundant but not unsound). -/
theorem C3_duplicate_store_emitted :
    (replace_write
      { initSt [0] 0 with
          inst_sink := [mkStr 4 8 .Always],
          spill_positions := [(100, 8)],
          wrote_to := [100] }
      { from_ := 100, replace_with := 4, kind := .spill } 3).inst_sink
    = [mkStr 4 8 .Always, mkStr 4 8 .Always] := by
  decide

/-- Claim C10 counterexample: `overlaps` is not "the half-open ranges
share a point".  The zero-length interval `[5, 5)` contains no point at
all, yet `overlaps ⟨5,5⟩ ⟨0,10⟩` is `true`, because the code tests
`end > other.start && start < other.end` rather than intersecting the
ranges. -/
theorem C10_empty_interval_overlap_counterexample :
    overlaps ⟨5, 5⟩ ⟨0, 10⟩ = true
    ∧ ¬∃ x : Nat, (5 ≤ x ∧ x < 5) ∧ (0 ≤ x ∧ x < 10) := by
  constructor
  · decide
  · rintro ⟨x, ⟨h1, h2⟩, -⟩
    omega

/-- Claim C10, amended: `overlaps a b` is symmetric and a zero-length
interval never overlaps itself; for two *nonempty* intervals it holds
exactly when the half-open ranges share a point, but an empty interval
whose point lies strictly inside a nonempty interval does overlap it
(see the counterexample), so the characterization through shared points
only holds under nonemptiness. -/
theorem C10_overlaps_characterization (a b : Interval) (n : Nat) :
    overlaps a b = overlaps b a
    ∧ (a.start < a.stop → b.start < b.stop →
        (overlaps a b = true ↔
          ∃ x : Nat, (a.start ≤ x ∧ x < a.stop) ∧ (b.start ≤ x ∧ x < b.stop)))
    ∧ overlaps ⟨n, n⟩ ⟨n, n⟩ = false := by
  refine ⟨?_, ?_, ?_⟩
  · unfold overlaps
    exact Bool.and_comm _ _
  · intro ha hb
    unfold overlaps
    simp only [Bool.and_eq_true, decide_eq_true_eq]
    constructor
    · rintro ⟨h1, h2⟩
      exact ⟨max a.start b.start, by omega, by omega⟩
    · rintro ⟨x, ⟨h1, h2⟩, h3, h4⟩
      omega
  · unfold overlaps
    simp

/-- Claim C10 witness: the characterization applied at the concrete
intervals `[0,2)`, `[1,3)` and the empty interval `[7,7)`. -/
theorem C10_overlaps_characterization_witness :
    overlaps ⟨0, 2⟩ ⟨1, 3⟩ = overlaps ⟨1, 3⟩ ⟨0, 2⟩
    ∧ (overlaps ⟨0, 2⟩ ⟨1, 3⟩ = true ↔
        ∃ x : Nat, (0 ≤ x ∧ x < 2) ∧ (1 ≤ x ∧ x < 3))
    ∧ overlaps ⟨7, 7⟩ ⟨7, 7⟩ = false :=
  ⟨(C10_overlaps_characterization ⟨0, 2⟩ ⟨1, 3⟩ 7).1,
   (C10_overlaps_characterization ⟨0, 2⟩ ⟨1, 3⟩ 7).2.1 (by decide) (by decide),
   (C10_overlaps_characterization ⟨0, 2⟩ ⟨1, 3⟩ 7).2.2⟩

/-- Claim C4 counterexample: the claim states that liveness treats a
`push` as *reading* its register list (extending interval ends) and a
`pop` as *writing* it (extending starts).  The code does the opposite.
With `mov r5, #1` at index 0 (interval `[0,0)`), a `push {r5}` at index
1 leaves the interval at `⟨0, 0⟩` — a read would have extended the end
to 1 — while a `pop {r5}` at index 1 extends the end to `⟨0, 1⟩` — a
write would have left it unchanged. -/
theorem C4_push_pop_inverted_counterexample :
    (Except.map (fun s => alookup 5 s.live_intervals)
      (calc_live_intervals (initSt [0] 0)
        [.arith2 .Mov 5 (.imm 1) .Always, .pushPop .Push [5] .Always])
      = .ok (some ⟨0, 0⟩))
    ∧ (Except.map (fun s => alookup 5 s.live_intervals)
      (calc_live_intervals (initSt [0] 0)
        [.arith2 .Mov 5 (.imm 1) .Always, .pushPop .Pop [5] .Always])
      = .ok (some ⟨0, 1⟩))
    ∧ (⟨0, 0⟩ : Interval) ≠ ⟨0, 1⟩ := by
  refine ⟨by decide, by decide, by decide⟩

/-- When the LRU reuse path does not fire (no `active_reg_map` entry for
the original virtual), `alloc_transient_reg` runs its pool/eviction
logic. -/
theorem allocTransientReg_no_lru (s : St) (i : Interval) (orig : Option Reg)
    (horig : orig.bind (fun o => s.active_reg_map.find? (fun e => decide (e.1 = o))) = none) :
    allocTransientReg s i orig = allocTransientSlow s i orig := by
  cases orig with
  | none => rfl
  | some o =>
    have hf : s.active_reg_map.find? (fun e => decide (e.1 = o)) = none := by
      simpa using horig
    simp only [allocTransientReg, hf]

/-- Claim C6: when the virtual's live interval crosses a call
(`bl_points` meets `[I.start, I.stop]`), `alloc_transient_reg` prefers a
free `CALLEE_SAVED_GLOBAL` register not yet in `used_regs` (recording it
in `used_regs_temp`) and falls back to `TEMP` only when none exists;
without a call crossing the preference order is reversed.  The
hypothesis states that the LRU reuse path did not fire (the original
virtual has no entry in `active_reg_map`). -/
theorem C6_transient_pool_preference (s : St) (I : Interval) (orig : Option Reg)
    (horig : orig.bind (fun o => s.active_reg_map.find? (fun e => decide (e.1 = o))) = none) :
    (blCrosses s.bl_points I = true →
      (∀ g, findFreeGlob s = some g →
        ∃ s2, allocTransientReg s I orig = .ok (g, s2) ∧ listHas g s2.used_regs_temp = true)
      ∧ (findFreeGlob s = none → ∀ t, findFreeTemp s = some t →
          ∃ s2, allocTransientReg s I orig = .ok (t, s2)))
    ∧ (blCrosses s.bl_points I = false →
      (∀ t, findFreeTemp s = some t →
        ∃ s2, allocTransientReg s I orig = .ok (t, s2))
      ∧ (findFreeTemp s = none → ∀ g, findFreeGlob s = some g →
          ∃ s2, allocTransientReg s I orig = .ok (g, s2) ∧ listHas g s2.used_regs_temp = true)) := by
  rw [allocTransientReg_no_lru s I orig horig]
  constructor
  · intro hc
    constructor
    · intro g hg
      simp only [allocTransientSlow, allocViaPools, hc, hg, if_true]
      exact ⟨_, rfl, listHas_setInsert_self _ _⟩
    · intro hg t ht
      simp only [allocTransientSlow, allocViaPools, hc, hg, ht, if_true]
      exact ⟨_, rfl⟩
  · intro hc
    constructor
    · intro t ht
      simp only [allocTransientSlow, allocViaPools, hc, ht, Bool.false_eq_true, if_false]
      exact ⟨_, rfl⟩
    · intro ht g hg
      simp only [allocTransientSlow, allocViaPools, hc, ht, hg, Bool.false_eq_true, if_false]
      exact ⟨_, rfl, listHas_setInsert_self _ _⟩

/-- Claim C6 witness: with `bl_points = [3]` and interval `[2, 5]` the
interval crosses the call, `r4` is free and unused, and the allocator
returns `r4`, recording it in `used_regs_temp`. -/
theorem C6_transient_pool_preference_witness :
    ∃ s2, allocTransientReg { initSt [0, 1, 2, 3] 0 with bl_points := [3] }
            ⟨2, 5⟩ none = .ok (4, s2) ∧ listHas 4 s2.used_regs_temp = true :=
  ((C6_transient_pool_preference { initSt [0, 1, 2, 3] 0 with bl_points := [3] }
      ⟨2, 5⟩ none rfl).1 (by decide)).1 4 (by decide)

/-- Claim C8: with both pools exhausted, `alloc_transient_reg` evicts
the oldest `active_reg_map` entry: it reuses or allocates that virtual's
spill slot, emits `str <phys>, [sp, #slot+stack_offset]` under
`cur_cond`, records the virtual in `spilled_regs` with an interval
starting at `I.start`, and returns the evicted physical; when
`active_reg_map` is empty it fails fatally with a diagnostic dump of
`active`.  The hypotheses state that the LRU reuse path did not fire,
that both pool searches fail, and the allocator's own invariants that
every active entry's physical is in `active` and its virtual is not
currently spilled. -/
theorem C8_exhausted_pools_eviction (s : St) (I : Interval) (orig : Option Reg)
    (horig : orig.bind (fun o => s.active_reg_map.find? (fun e => decide (e.1 = o))) = none)
    (ht : findFreeTemp s = none)
    (hg : findFreeGlob s = none)
    (hcov : ∀ e ∈ s.active_reg_map, (alookup e.2 s.active).isSome = true)
    (hsp : ∀ e ∈ s.active_reg_map, alookup e.1 s.spilled_regs = none) :
    match s.active_reg_map with
    | [] => allocTransientReg s I orig = .error (.allocFailed s.active)
    | (sv, sp) :: _ =>
      ∃ iv pos s2,
        alookup sp s.active = some iv ∧
        allocTransientReg s I orig = .ok (sp, s2) ∧
        s2.inst_sink = s.inst_sink ++ [mkStr sp (pos + s.stack_offset) s.cur_cond] ∧
        alookup sv s2.spilled_regs = some { start := I.start, stop := iv.stop } ∧
        alookup sv s2.spill_positions = some pos := by
  have hpools : allocViaPools s (blCrosses s.bl_points I) = (none, s) := by
    cases hc : blCrosses s.bl_points I with
    | true => simp [allocViaPools, hc, ht, hg]
    | false => simp [allocViaPools, hc, ht, hg]
  rw [allocTransientReg_no_lru s I orig horig]
  split
  · rename_i hm
    simp only [allocTransientSlow, hpools, hm]
  · rename_i sv sp rest hm
    have hmem : (sv, sp) ∈ s.active_reg_map := by
      rw [hm]
      exact List.mem_cons_self _ _
    have hiv := hcov _ hmem
    rcases hiv2 : alookup sp s.active with _ | iv
    · rw [hiv2] at hiv
      simp at hiv
    · have hspv := hsp _ hmem
      rcases hpos : alookup sv s.spill_positions with _ | p
      · -- a fresh slot is allocated at the current stack_size
        simp only [allocTransientSlow, hpools, hm, hiv2, getOrAllocSpillPos, hpos]
        exact ⟨iv, s.stack_size, _, rfl, rfl, rfl,
               alookup_ainsertNR_self hspv, alookup_ainsertNR_self hpos⟩
      · -- the existing slot is reused
        simp only [allocTransientSlow, hpools, hm, hiv2, getOrAllocSpillPos, hpos]
        exact ⟨iv, p, _, rfl, rfl, rfl, alookup_ainsertNR_self hspv, hpos⟩

/-- The concrete state of the claim C8 witness: `TEMP = {r2}` is busy,
every `GLOB` register is in `used_regs`, and the oldest (only) active
entry maps virtual 100 to `r3`. -/
def c8state : St :=
  { initSt [2] 0 with
      active := [(2, ⟨0, 99⟩), (3, ⟨0, 9⟩)],
      active_reg_map := [(100, 3)],
      used_regs := [4, 5, 6, 7, 8, 9, 10] }

/-- Claim C8 witness: on `c8state` the allocator evicts `r3`, emits the
spill store, and records virtual 100 with interval start 4. -/
theorem C8_exhausted_pools_eviction_witness :
    match c8state.active_reg_map with
    | [] => allocTransientReg c8state ⟨4, 6⟩ none = .error (.allocFailed c8state.active)
    | (sv, sp) :: _ =>
      ∃ iv pos s2,
        alookup sp c8state.active = some iv ∧
        allocTransientReg c8state ⟨4, 6⟩ none = .ok (sp, s2) ∧
        s2.inst_sink = c8state.inst_sink ++
          [mkStr sp (pos + c8state.stack_offset) c8state.cur_cond] ∧
        alookup sv s2.spilled_regs = some { start := (⟨4, 6⟩ : Interval).start, stop := iv.stop } ∧
        alookup sv s2.spill_positions = some pos :=
  C8_exhausted_pools_eviction c8state ⟨4, 6⟩ none
    rfl (by decide) (by decide) (by decide) (by decide)

/-- `r ≠ k` lookups are unaffected by an `insert`. -/
theorem alookup_ainsertNR_ne {α : Type} {k k2 : Nat} {v : α} {m : List (Nat × α)}
    (h : k ≠ k2) : alookup k (ainsertNR k2 v m) = alookup k m := by
  unfold ainsertNR
  cases alookup k2 m with
  | some w => rfl
  | none =>
    rw [alookup, if_neg (fun he => h he.symm)]

/-- `add_starting_point` takes the minimum of the two starts. -/
theorem add_starting_point_eq (iv : Interval) (p : Nat) :
    iv.add_starting_point p = ⟨min iv.start p, iv.stop⟩ := by
  unfold Interval.add_starting_point
  split
  · rename_i h
    rw [Nat.min_eq_right (Nat.le_of_lt h)]
  · rename_i h
    rw [Nat.min_eq_left (Nat.le_of_not_lt h)]

/-- `add_ending_point` takes the maximum of the two ends. -/
theorem add_ending_point_eq (iv : Interval) (p : Nat) :
    iv.add_ending_point p = ⟨iv.start, max iv.stop p⟩ := by
  unfold Interval.add_ending_point
  split
  · rename_i h
    rw [Nat.max_eq_right (Nat.le_of_lt h)]
  · rename_i h
    rw [Nat.max_eq_left (Nat.le_of_not_lt h)]

/-- The effect of one liveness *write* on an optional interval: extend
the start down to the point, or create the point interval. -/
def extendStartAt (i : Nat) : Option Interval → Interval
  | some iv => ⟨min iv.start i, iv.stop⟩
  | none => ⟨i, i⟩

/-- The effect of one liveness *read* on an optional interval: extend
the end up to the point, or create the point interval. -/
def extendStopAt (i : Nat) : Option Interval → Interval
  | some iv => ⟨iv.start, max iv.stop i⟩
  | none => ⟨i, i⟩

theorem extendStartAt_idem (i : Nat) (o : Option Interval) :
    extendStartAt i (some (extendStartAt i o)) = extendStartAt i o := by
  cases o with
  | none => simp [extendStartAt]
  | some iv =>
    simp only [extendStartAt, Interval.mk.injEq]
    exact ⟨by omega, trivial⟩

theorem extendStopAt_idem (i : Nat) (o : Option Interval) :
    extendStopAt i (some (extendStopAt i o)) = extendStopAt i o := by
  cases o with
  | none => simp [extendStopAt]
  | some iv =>
    simp only [extendStopAt, Interval.mk.injEq]
    exact ⟨trivial, by omega⟩

/-- A liveness write at `i` on a register with no graph-colored home
succeeds, extends that register's interval start down to `i` (creating
`[i, i)` when absent), and changes no other interval; `reg_map` is
untouched. -/
theorem add_reg_write_r_spec (s : St) (q : Reg) (i : Nat)
    (h : alookup q s.reg_map = none) :
    ∃ s2, add_reg_write_r s q i = .ok s2
      ∧ (∀ r, alookup r s2.live_intervals =
          if r = q then some (extendStartAt i (alookup r s.live_intervals))
          else alookup r s.live_intervals)
      ∧ s2.reg_map = s.reg_map := by
  rcases hli : alookup q s.live_intervals with _ | iv <;>
    rcases hcnt : alookup q s.reg_assign_count with _ | n <;>
    · simp only [add_reg_write_r, add_reg_use_in_bb_at_point, hli, hcnt, h]
      refine ⟨_, rfl, ?_, rfl⟩
      intro r
      by_cases hr : r = q
      · subst hr
        rw [if_pos rfl, hli]
        first
        | exact alookup_ainsertNR_self hli
        | (rw [alookup_aupdate_self _ hli, add_starting_point_eq]
           rfl)
      · rw [if_neg hr]
        first
        | exact alookup_ainsertNR_ne hr
        | exact alookup_aupdate_ne _ hr

/-- A liveness read at `i` on a register with no graph-colored home
succeeds, extends that register's interval end up to `i` (creating
`[i, i)` when absent), and changes no other interval; `reg_map` is
untouched. -/
theorem add_reg_read_r_spec (s : St) (q : Reg) (i : Nat)
    (h : alookup q s.reg_map = none) :
    ∃ s2, add_reg_read_r s q i = .ok s2
      ∧ (∀ r, alookup r s2.live_intervals =
          if r = q then some (extendStopAt i (alookup r s.live_intervals))
          else alookup r s.live_intervals)
      ∧ s2.reg_map = s.reg_map := by
  rcases hli : alookup q s.live_intervals with _ | iv <;>
    · simp only [add_reg_read_r, add_reg_use_in_bb_at_point, hli, h]
      refine ⟨_, rfl, ?_, rfl⟩
      intro r
      by_cases hr : r = q
      · subst hr
        rw [if_pos rfl, hli]
        first
        | exact alookup_ainsertNR_self hli
        | (rw [alookup_aupdate_self _ hli, add_ending_point_eq]
           rfl)
      · rw [if_neg hr]
        first
        | exact alookup_ainsertNR_ne hr
        | exact alookup_aupdate_ne _ hr

/-- `addWriteList` is the pointwise `extendStartAt` on the listed
registers. -/
theorem addWriteList_spec (regs : List Reg) (s : St) (i : Nat)
    (h : ∀ q ∈ regs, alookup q s.reg_map = none) :
    ∃ s2, addWriteList s regs i = .ok s2
      ∧ ∀ r, alookup r s2.live_intervals =
          if r ∈ regs then some (extendStartAt i (alookup r s.live_intervals))
          else alookup r s.live_intervals := by
  induction regs generalizing s with
  | nil =>
    refine ⟨s, rfl, ?_⟩
    intro r
    simp
  | cons q rest ih =>
    obtain ⟨s1, hrun1, hlook1, hmap1⟩ :=
      add_reg_write_r_spec s q i (h q (List.mem_cons_self _ _))
    obtain ⟨s2, hrun2, hlook2⟩ := ih s1 (fun q2 hq2 => by
      rw [hmap1]
      exact h q2 (List.mem_cons_of_mem _ hq2))
    refine ⟨s2, ?_, ?_⟩
    · simp only [addWriteList, hrun1, hrun2]
    · intro r
      rw [hlook2 r, hlook1 r]
      by_cases h1 : r ∈ rest
      · rw [if_pos h1, if_pos (List.mem_cons_of_mem _ h1)]
        by_cases h2 : r = q
        · rw [if_pos h2, extendStartAt_idem]
        · rw [if_neg h2]
      · rw [if_neg h1]
        by_cases h2 : r = q
        · rw [if_pos h2, if_pos (h2 ▸ List.mem_cons_self _ _)]
        · rw [if_neg h2, if_neg (by
            intro hc
            rcases List.mem_cons.mp hc with hc | hc
            · exact h2 hc
            · exact h1 hc)]

/-- `addReadList` is the pointwise `extendStopAt` on the listed
registers. -/
theorem addReadList_spec (regs : List Reg) (s : St) (i : Nat)
    (h : ∀ q ∈ regs, alookup q s.reg_map = none) :
    ∃ s2, addReadList s regs i = .ok s2
      ∧ ∀ r, alookup r s2.live_intervals =
          if r ∈ regs then some (extendStopAt i (alookup r s.live_intervals))
          else alookup r s.live_intervals := by
  induction regs generalizing s with
  | nil =>
    refine ⟨s, rfl, ?_⟩
    intro r
    simp
  | cons q rest ih =>
    obtain ⟨s1, hrun1, hlook1, hmap1⟩ :=
      add_reg_read_r_spec s q i (h q (List.mem_cons_self _ _))
    obtain ⟨s2, hrun2, hlook2⟩ := ih s1 (fun q2 hq2 => by
      rw [hmap1]
      exact h q2 (List.mem_cons_of_mem _ hq2))
    refine ⟨s2, ?_, ?_⟩
    · simp only [addReadList, hrun1, hrun2]
    · intro r
      rw [hlook2 r, hlook1 r]
      by_cases h1 : r ∈ rest
      · rw [if_pos h1, if_pos (List.mem_cons_of_mem _ h1)]
        by_cases h2 : r = q
        · rw [if_pos h2, extendStopAt_idem]
        · rw [if_neg h2]
      · rw [if_neg h1]
        by_cases h2 : r = q
        · rw [if_pos h2, if_pos (h2 ▸ List.mem_cons_self _ _)]
        · rw [if_neg h2, if_neg (by
            intro hc
            rcases List.mem_cons.mp hc with hc | hc
            · exact h2 hc
            · exact h1 hc)]

/-- Claim C4, amended: during liveness analysis a `push` records each
register of its list as a *write* (extending the interval start down to
the instruction index, or creating the point interval), and a `pop`
records each register as a *read* (extending the interval end up to the
index) — the inverse of the claim as stated, matching the spec's own
design note on push/pop.  Registers not in the list are untouched.  The
hypothesis restricts to registers without a graph-colored home, where
`add_reg_use_in_bb_at_point` is a no-op (push/pop lists are physical). -/
theorem C4_push_writes_pop_reads (s : St) (i : Nat) (regs : List Reg)
    (c : ConditionCode) (hnm : ∀ q ∈ regs, alookup q s.reg_map = none) :
    ∃ s1 s2,
      calcLiveStep s i (.pushPop .Push regs c) = .ok s1 ∧
      calcLiveStep s i (.pushPop .Pop regs c) = .ok s2 ∧
      ∀ r,
        (alookup r s1.live_intervals =
          if r ∈ regs then some (extendStartAt i (alookup r s.live_intervals))
          else alookup r s.live_intervals) ∧
        (alookup r s2.live_intervals =
          if r ∈ regs then some (extendStopAt i (alookup r s.live_intervals))
          else alookup r s.live_intervals) := by
  obtain ⟨s1, hrun1, hlook1⟩ := addWriteList_spec regs s i hnm
  obtain ⟨s2, hrun2, hlook2⟩ := addReadList_spec regs s i hnm
  refine ⟨s1, s2, ?_, ?_, fun r => ⟨hlook1 r, hlook2 r⟩⟩
  · simpa [calcLiveStep] using hrun1
  · simpa [calcLiveStep] using hrun2

/-- Claim C4 witness: the amended behaviour on registers 5 and 7 at
index 2 in the empty initial state. -/
theorem C4_push_writes_pop_reads_witness :
    ∃ s1 s2,
      calcLiveStep (initSt [0] 0) 2 (.pushPop .Push [5, 7] .Always) = .ok s1 ∧
      calcLiveStep (initSt [0] 0) 2 (.pushPop .Pop [5, 7] .Always) = .ok s2 ∧
      ∀ r,
        (alookup r s1.live_intervals =
          if r ∈ [5, 7] then
            some (extendStartAt 2 (alookup r (initSt [0] 0).live_intervals))
          else alookup r (initSt [0] 0).live_intervals) ∧
        (alookup r s2.live_intervals =
          if r ∈ [5, 7] then
            some (extendStopAt 2 (alookup r (initSt [0] 0).live_intervals))
          else alookup r (initSt [0] 0).live_intervals) :=
  C4_push_writes_pop_reads (initSt [0] 0) 2 [5, 7] .Always (by decide)

/-! ### List-surgery lemmas for the prologue/epilogue patch -/

theorem listSet_append_len {α : Type} (l : List α) (b x : α) (r : List α) :
    listSet l.length x (l ++ b :: r) = l ++ x :: r := by
  induction l with
  | nil => rfl
  | cons a t ih =>
    simp only [List.length_cons, List.cons_append, listSet, List.append_eq, ih]

theorem listEraseIdx_append_len {α : Type} (l : List α) (b : α) (r : List α) :
    listEraseIdx l.length (l ++ b :: r) = l ++ r := by
  induction l with
  | nil => rfl
  | cons a t ih =>
    simp only [List.length_cons, List.cons_append, listEraseIdx, List.append_eq, ih]

theorem listInsertIdx_append_len {α : Type} (l : List α) (x : α) (r : List α) :
    listInsertIdx l.length x (l ++ r) = l ++ x :: r := by
  induction l with
  | nil => rfl
  | cons a t ih =>
    simp only [List.length_cons, List.cons_append, listInsertIdx, List.append_eq, ih]

theorem cppInsertIdx_two (x a b : Inst) (rest : List Inst) :
    cppInsertIdx 2 x (a :: b :: rest) = .ok (a :: b :: x :: rest) := by
  unfold cppInsertIdx
  rw [if_pos (by simp)]
  rfl

theorem cppInsertIdx_three (x a b c : Inst) (rest : List Inst) :
    cppInsertIdx 3 x (a :: b :: c :: rest) = .ok (a :: b :: c :: x :: rest) := by
  unfold cppInsertIdx
  rw [if_pos (by simp)]
  rfl

theorem cppEraseIdx_one (a b : Inst) (rest : List Inst) :
    cppEraseIdx 1 (a :: b :: rest) = .ok (a :: rest) := by
  unfold cppEraseIdx
  rw [if_pos (by simp)]
  rfl

theorem cppEraseIdx_penult (pre : List Inst) (b c : Inst) :
    cppEraseIdx ((pre ++ [b, c]).length - 2) (pre ++ [b, c]) = .ok (pre ++ [c]) := by
  unfold cppEraseIdx
  have hl : (pre ++ [b, c]).length = pre.length + 2 := by simp
  rw [hl]
  simp only [Nat.add_sub_cancel]
  rw [if_pos (by simp [hl])]
  have hsh : pre ++ [b, c] = pre ++ b :: [c] := rfl
  rw [hsh, listEraseIdx_append_len]

theorem cppInsertIdx_penult (pre : List Inst) (b c x : Inst) :
    cppInsertIdx ((pre ++ [b, c]).length - 2) x (pre ++ [b, c]) = .ok (pre ++ [x, b, c]) := by
  unfold cppInsertIdx
  have hl : (pre ++ [b, c]).length = pre.length + 2 := by simp
  rw [hl]
  simp only [Nat.add_sub_cancel]
  rw [if_pos (by simp [hl])]
  rw [listInsertIdx_append_len]

theorem getLast?_shape (a b : Inst) (mid : List Inst) (c d : Inst) :
    (a :: b :: mid ++ [c, d]).getLast? = some d := by
  have hsh : a :: b :: mid ++ [c, d] = (a :: b :: mid ++ [c]) ++ [d] := by simp
  rw [hsh, List.getLast?_concat]

theorem listInsertIdx_append_le {α : Type} (k : Nat) (x : α) (pre r : List α)
    (h : k ≤ pre.length) :
    listInsertIdx k x (pre ++ r) = (listInsertIdx k x pre) ++ r := by
  induction pre generalizing k with
  | nil =>
    have hk : k = 0 := Nat.le_zero.mp h
    subst hk
    rfl
  | cons a t ih =>
    cases k with
    | zero => rfl
    | succ n =>
      simp only [List.cons_append, listInsertIdx, List.append_eq]
      rw [ih n (by simpa using h)]

theorem isEmpty_false_of_ne_nil {α : Type} {l : List α} (h : l ≠ []) :
    l.isEmpty = false := by
  cases l with
  | nil => exact absurd rfl h
  | cons a t => rfl

theorem listSet_last_shape (a b : Inst) (mid : List Inst) (c d y : Inst) :
    listSet ((a :: b :: mid ++ [c, d]).length - 1) y (a :: b :: mid ++ [c, d])
      = a :: b :: mid ++ [c, y] := by
  have hlen : (a :: b :: mid ++ [c, d]).length - 1 = (a :: b :: mid ++ [c]).length := by
    simp
  have hsh : a :: b :: mid ++ [c, d] = (a :: b :: mid ++ [c]) ++ d :: [] := by simp
  rw [hlen, hsh, listSet_append_len]
  simp

/-- Claim C7 counterexample: with 5 parameters (stack arguments) and a
final `stack_size` of 0, the placeholder frame-move `mov fp, sp` after
the prologue push is *not* erased — the source only erases `begin()+1`
when the function has no stack parameters — so the claim's "the
placeholder frame-move instruction is erased [when stack_size = 0]" fails. -/
theorem C7_placeholder_kept_counterexample :
    patchPrologue
      [.pushPop .Push [11] .Always,
       .arith2 .Mov 11 (.reg { reg := 13 }) .Always,
       .arith2 .Mov 0 (.imm 0) .Always,
       .arith2 .Mov 13 (.reg { reg := 11 }) .Always,
       .pushPop .Pop [11] .Always] 0 5 [] []
    = .ok [.pushPop .Push [11] .Always,
           .arith2 .Mov 11 (.reg { reg := 13 }) .Always,
           .arith3 .Add REG_FP REG_FP (.imm 4) .Always,
           .arith3 .Sub REG_FP REG_FP (.imm 4) .Always,
           .arith2 .Mov 0 (.imm 0) .Always,
           .pushPop .Pop [11] .Always]
    ∧ (Inst.arith2 .Mov 11 (.reg { reg := 13 }) .Always) ∈
        [Inst.pushPop .Push [11] .Always,
         .arith2 .Mov 11 (.reg { reg := 13 }) .Always,
         .arith3 .Add REG_FP REG_FP (.imm 4) .Always,
         .arith3 .Sub REG_FP REG_FP (.imm 4) .Always,
         .arith2 .Mov 0 (.imm 0) .Always,
         .pushPop .Pop [11] .Always] := by
  constructor
  · decide
  · decide

/-- Claim C7, amended: on a function whose rewritten body is
`push; placeholder; body…; restore; pop`, with at most 4 parameters the
frame-allocation code after the prologue push is: nothing when the final
`stack_size` is 0 (the placeholder frame move and the epilogue frame
restore are erased, and `fp` is dropped from the push/pop lists);
`sub sp, sp, #stack_size` when `0 < stack_size < 1024`; and
`mov ip, #stack_size; sub sp, sp, ip` when `stack_size ≥ 1024`.  With
more than 4 parameters and `stack_size = 0` the placeholder is *kept*
(the erasure is conditional on having no stack parameters), which is the
correction forced by the counterexample.  The nonemptiness hypotheses
keep the final push/pop lists nonempty so the boundary instructions are
not dropped. -/
theorem C7_frame_sizing (op1 op2 : OpCode) (c1 c2 : ConditionCode)
    (pregs qregs : List Reg) (plc restore : Inst) (body : List Inst)
    (used usedt : List Reg) (ss : Int) (params : Nat)
    (hf1 : setErase REG_FP (setInsertAll pregs (used ++ usedt)) ≠ [])
    (hf2 : setErase REG_FP (setInsertAll qregs (used ++ usedt)) ≠ [])
    (hb1 : setInsertAll pregs (used ++ usedt) ≠ [])
    (hb2 : setInsertAll qregs (used ++ usedt) ≠ []) :
    (params ≤ 4 → ss = 0 →
      patchPrologue
        (.pushPop op1 pregs c1 :: plc :: body ++ [restore, .pushPop op2 qregs c2])
        ss params used usedt
      = .ok (.pushPop op1 (setErase REG_FP (setInsertAll pregs (used ++ usedt))) c1 ::
             body ++ [.pushPop op2 (setErase REG_FP (setInsertAll qregs (used ++ usedt))) c2]))
    ∧ (params ≤ 4 → 0 < ss → ss < 1024 →
      patchPrologue
        (.pushPop op1 pregs c1 :: plc :: body ++ [restore, .pushPop op2 qregs c2])
        ss params used usedt
      = .ok (.pushPop op1 (setInsertAll pregs (used ++ usedt)) c1 :: plc ::
             .arith3 .Sub REG_SP REG_SP (.imm ss) .Always ::
             body ++ [restore, .pushPop op2 (setInsertAll qregs (used ++ usedt)) c2]))
    ∧ (params ≤ 4 → 1024 ≤ ss →
      patchPrologue
        (.pushPop op1 pregs c1 :: plc :: body ++ [restore, .pushPop op2 qregs c2])
        ss params used usedt
      = .ok (.pushPop op1 (setInsertAll pregs (used ++ usedt)) c1 :: plc ::
             .arith2 .Mov 12 (.imm ss) .Always ::
             .arith3 .Sub REG_SP REG_SP (.reg { reg := 12 }) .Always ::
             body ++ [restore, .pushPop op2 (setInsertAll qregs (used ++ usedt)) c2]))
    ∧ (4 < params → ss = 0 →
      ∃ L, patchPrologue
        (.pushPop op1 pregs c1 :: plc :: body ++ [restore, .pushPop op2 qregs c2])
        ss params used usedt = .ok L ∧ plc ∈ L) := by
  have hlast : (Inst.pushPop op1 pregs c1 :: plc :: body ++
      [restore, .pushPop op2 qregs c2]).getLast? = some (.pushPop op2 qregs c2) :=
    getLast?_shape _ _ _ _ _
  have hh : (Inst.pushPop op1 pregs c1 :: plc :: body ++
      [restore, .pushPop op2 qregs c2]).head? = some (.pushPop op1 pregs c1) := rfl
  have h01 : ∀ x y : Inst,
      listSet
        ((listSet 0 x
           (Inst.pushPop op1 pregs c1 :: plc :: body ++
            [restore, .pushPop op2 qregs c2])).length - 1) y
        (listSet 0 x
          (Inst.pushPop op1 pregs c1 :: plc :: body ++
           [restore, .pushPop op2 qregs c2]))
      = x :: plc :: body ++ [restore, y] := by
    intro x y
    rw [show listSet 0 x
          (Inst.pushPop op1 pregs c1 :: plc :: body ++ [restore, .pushPop op2 qregs c2])
        = x :: plc :: body ++ [restore, .pushPop op2 qregs c2] from rfl]
    rw [listSet_last_shape]
  have hpenult : ∀ (pre : List Inst) (b c : Inst),
      cppEraseIdx ((pre ++ [b, c]).length - 2) (pre ++ [b, c]) = .ok (pre ++ [c]) :=
    cppEraseIdx_penult
  refine ⟨?_, ?_, ?_, ?_⟩
  · -- at most 4 parameters, empty frame
    intro husp hss
    subst hss
    have hps : decide (params > 4) = false := decide_eq_false (by omega)
    have hd0 : decide ((0 : Int) = 0) = true := by decide
    simp only [patchPrologue, hh, hlast, patchCore, hps, hd0, decide_True, Bool.true_and,
      Bool.and_self, Bool.not_false, Bool.and_true, Bool.false_eq_true, if_true, if_false,
      ite_true, ite_false, eq_self_iff_true]
    rw [h01]
    simp only [List.cons_append]
    rw [cppEraseIdx_one]
    have e6 := cppEraseIdx_penult
      (Inst.pushPop op1 (setErase REG_FP (setInsertAll pregs (used ++ usedt))) c1 :: body)
      restore (Inst.pushPop op2 (setErase REG_FP (setInsertAll qregs (used ++ usedt))) c2)
    simp only [List.cons_append] at e6
    have hhd2 : (Inst.pushPop op1 (setErase REG_FP (setInsertAll pregs (used ++ usedt))) c1 ::
        (body ++
         [Inst.pushPop op2 (setErase REG_FP (setInsertAll qregs (used ++ usedt))) c2])).head?
        = some (Inst.pushPop op1 (setErase REG_FP (setInsertAll pregs (used ++ usedt))) c1) := rfl
    have hl3 : (Inst.pushPop op1 (setErase REG_FP (setInsertAll pregs (used ++ usedt))) c1 ::
        (body ++
         [Inst.pushPop op2 (setErase REG_FP (setInsertAll qregs (used ++ usedt))) c2])).getLast?
        = some (Inst.pushPop op2 (setErase REG_FP (setInsertAll qregs (used ++ usedt))) c2) := by
      rw [← List.cons_append, List.getLast?_concat]
    simp only [e6, hhd2, hl3, isEmpty_false_of_ne_nil hf1, isEmpty_false_of_ne_nil hf2,
      Bool.false_eq_true, if_false, ite_false]
  · -- at most 4 parameters, small frame
    intro husp hss1 hss2
    have hps : decide (params > 4) = false := decide_eq_false (by omega)
    have hssd : decide (ss = 0) = false := decide_eq_false (by omega)
    have hne : ¬(ss = 0) := by omega
    have hhd2 : (Inst.pushPop op1 (setInsertAll pregs (used ++ usedt)) c1 :: plc ::
        .arith3 .Sub REG_SP REG_SP (.imm ss) .Always ::
        body ++ [restore, .pushPop op2 (setInsertAll qregs (used ++ usedt)) c2]).head?
        = some (.pushPop op1 (setInsertAll pregs (used ++ usedt)) c1) := rfl
    have hl3 : (Inst.pushPop op1 (setInsertAll pregs (used ++ usedt)) c1 :: plc ::
        .arith3 .Sub REG_SP REG_SP (.imm ss) .Always ::
        body ++ [restore, .pushPop op2 (setInsertAll qregs (used ++ usedt)) c2]).getLast?
        = some (.pushPop op2 (setInsertAll qregs (used ++ usedt)) c2) := by
      rw [show Inst.pushPop op1 (setInsertAll pregs (used ++ usedt)) c1 :: plc ::
            .arith3 .Sub REG_SP REG_SP (.imm ss) .Always ::
            body ++ [restore, .pushPop op2 (setInsertAll qregs (used ++ usedt)) c2]
          = (Inst.pushPop op1 (setInsertAll pregs (used ++ usedt)) c1 :: plc ::
             .arith3 .Sub REG_SP REG_SP (.imm ss) .Always ::
             body ++ [restore]) ++ [Inst.pushPop op2 (setInsertAll qregs (used ++ usedt)) c2]
          from by simp]
      exact List.getLast?_concat _
    simp only [patchPrologue, hh, hlast, patchCore, hps, hssd, hne, hss2, decide_True,
      Bool.true_and, Bool.and_self, Bool.not_false, Bool.and_false, Bool.false_eq_true,
      if_true, if_false, ite_true, ite_false]
    rw [h01]
    simp only [List.cons_append]
    simp only [List.cons_append] at hhd2 hl3
    simp only [cppInsertIdx_two, hhd2, hl3, isEmpty_false_of_ne_nil hb1,
      isEmpty_false_of_ne_nil hb2, decide_False, Bool.false_eq_true, if_false, ite_false]
  · -- at most 4 parameters, large frame
    intro husp hss1
    have hps : decide (params > 4) = false := decide_eq_false (by omega)
    have hssd : decide (ss = 0) = false := decide_eq_false (by omega)
    have hne : ¬(ss = 0) := by omega
    have hnlt : ¬(ss < 1024) := by omega
    have hhd2 : (Inst.pushPop op1 (setInsertAll pregs (used ++ usedt)) c1 :: plc ::
        .arith2 .Mov 12 (.imm ss) .Always ::
        .arith3 .Sub REG_SP REG_SP (.reg { reg := 12 }) .Always ::
        body ++ [restore, .pushPop op2 (setInsertAll qregs (used ++ usedt)) c2]).head?
        = some (.pushPop op1 (setInsertAll pregs (used ++ usedt)) c1) := rfl
    have hl3 : (Inst.pushPop op1 (setInsertAll pregs (used ++ usedt)) c1 :: plc ::
        .arith2 .Mov 12 (.imm ss) .Always ::
        .arith3 .Sub REG_SP REG_SP (.reg { reg := 12 }) .Always ::
        body ++ [restore, .pushPop op2 (setInsertAll qregs (used ++ usedt)) c2]).getLast?
        = some (.pushPop op2 (setInsertAll qregs (used ++ usedt)) c2) := by
      rw [show Inst.pushPop op1 (setInsertAll pregs (used ++ usedt)) c1 :: plc ::
            .arith2 .Mov 12 (.imm ss) .Always ::
            .arith3 .Sub REG_SP REG_SP (.reg { reg := 12 }) .Always ::
            body ++ [restore, .pushPop op2 (setInsertAll qregs (used ++ usedt)) c2]
          = (Inst.pushPop op1 (setInsertAll pregs (used ++ usedt)) c1 :: plc ::
             .arith2 .Mov 12 (.imm ss) .Always ::
             .arith3 .Sub REG_SP REG_SP (.reg { reg := 12 }) .Always ::
             body ++ [restore]) ++ [Inst.pushPop op2 (setInsertAll qregs (used ++ usedt)) c2]
          from by simp]
      exact List.getLast?_concat _
    simp only [patchPrologue, hh, hlast, patchCore, hps, hssd, hne, hnlt, decide_True,
      Bool.true_and, Bool.and_self, Bool.not_false, Bool.and_false, Bool.false_eq_true,
      if_true, if_false, ite_true, ite_false]
    rw [h01]
    simp only [List.cons_append]
    simp only [List.cons_append] at hhd2 hl3
    simp only [cppInsertIdx_two, cppInsertIdx_three, hhd2, hl3,
      isEmpty_false_of_ne_nil hb1, isEmpty_false_of_ne_nil hb2, decide_False,
      Bool.false_eq_true, if_false, ite_false]
  · -- more than 4 parameters, empty frame: the placeholder stays
    intro husp hss
    subst hss
    have hps : decide (params > 4) = true := decide_eq_true (by omega)
    have e6 : cppEraseIdx
        ((Inst.pushPop op1 (setInsertAll pregs (used ++ usedt)) c1 :: plc ::
          .arith3 .Add REG_FP REG_FP
            (.imm (Int.ofNat (setInsertAll pregs (used ++ usedt)).length * 4)) .Always ::
          body ++ [restore, .pushPop op2 (setInsertAll qregs (used ++ usedt)) c2]).length - 2)
        (Inst.pushPop op1 (setInsertAll pregs (used ++ usedt)) c1 :: plc ::
          .arith3 .Add REG_FP REG_FP
            (.imm (Int.ofNat (setInsertAll pregs (used ++ usedt)).length * 4)) .Always ::
          body ++ [restore, .pushPop op2 (setInsertAll qregs (used ++ usedt)) c2])
        = .ok (Inst.pushPop op1 (setInsertAll pregs (used ++ usedt)) c1 :: plc ::
               .arith3 .Add REG_FP REG_FP
                 (.imm (Int.ofNat (setInsertAll pregs (used ++ usedt)).length * 4)) .Always ::
               body ++ [Inst.pushPop op2 (setInsertAll qregs (used ++ usedt)) c2]) := by
      rw [show Inst.pushPop op1 (setInsertAll pregs (used ++ usedt)) c1 :: plc ::
            .arith3 .Add REG_FP REG_FP
              (.imm (Int.ofNat (setInsertAll pregs (used ++ usedt)).length * 4)) .Always ::
            body ++ [restore, .pushPop op2 (setInsertAll qregs (used ++ usedt)) c2]
          = (Inst.pushPop op1 (setInsertAll pregs (used ++ usedt)) c1 :: plc ::
             .arith3 .Add REG_FP REG_FP
               (.imm (Int.ofNat (setInsertAll pregs (used ++ usedt)).length * 4)) .Always ::
             body) ++ [restore, .pushPop op2 (setInsertAll qregs (used ++ usedt)) c2]
          from by simp]
      rw [hpenult]
    have e7 : cppInsertIdx
        ((Inst.pushPop op1 (setInsertAll pregs (used ++ usedt)) c1 :: plc ::
          .arith3 .Add REG_FP REG_FP
            (.imm (Int.ofNat (setInsertAll pregs (used ++ usedt)).length * 4)) .Always ::
          body ++ [Inst.pushPop op2 (setInsertAll qregs (used ++ usedt)) c2]).length - 2)
        (.arith3 .Sub REG_FP REG_FP
          (.imm (Int.ofNat (setInsertAll pregs (used ++ usedt)).length * 4)) .Always)
        (Inst.pushPop op1 (setInsertAll pregs (used ++ usedt)) c1 :: plc ::
          .arith3 .Add REG_FP REG_FP
            (.imm (Int.ofNat (setInsertAll pregs (used ++ usedt)).length * 4)) .Always ::
          body ++ [Inst.pushPop op2 (setInsertAll qregs (used ++ usedt)) c2])
        = .ok (Inst.pushPop op1 (setInsertAll pregs (used ++ usedt)) c1 :: plc ::
               (listInsertIdx body.length
                 (.arith3 .Sub REG_FP REG_FP
                   (.imm (Int.ofNat (setInsertAll pregs (used ++ usedt)).length * 4)) .Always)
                 (.arith3 .Add REG_FP REG_FP
                   (.imm (Int.ofNat (setInsertAll pregs (used ++ usedt)).length * 4)) .Always ::
                  body)) ++ [Inst.pushPop op2 (setInsertAll qregs (used ++ usedt)) c2]) := by
      unfold cppInsertIdx
      rw [if_pos (by simp)]
      have h1 : (Inst.pushPop op1 (setInsertAll pregs (used ++ usedt)) c1 :: plc ::
          .arith3 .Add REG_FP REG_FP
            (.imm (Int.ofNat (setInsertAll pregs (used ++ usedt)).length * 4)) .Always ::
          body ++ [Inst.pushPop op2 (setInsertAll qregs (used ++ usedt)) c2]).length - 2
          = body.length + 2 := by simp
      rw [h1]
      rw [show listInsertIdx (body.length + 2)
            (.arith3 .Sub REG_FP REG_FP
              (.imm (Int.ofNat (setInsertAll pregs (used ++ usedt)).length * 4)) .Always)
            (Inst.pushPop op1 (setInsertAll pregs (used ++ usedt)) c1 :: plc ::
              .arith3 .Add REG_FP REG_FP
                (.imm (Int.ofNat (setInsertAll pregs (used ++ usedt)).length * 4)) .Always ::
              body ++ [Inst.pushPop op2 (setInsertAll qregs (used ++ usedt)) c2])
          = Inst.pushPop op1 (setInsertAll pregs (used ++ usedt)) c1 :: plc ::
            listInsertIdx body.length
              (.arith3 .Sub REG_FP REG_FP
                (.imm (Int.ofNat (setInsertAll pregs (used ++ usedt)).length * 4)) .Always)
              ((.arith3 .Add REG_FP REG_FP
                 (.imm (Int.ofNat (setInsertAll pregs (used ++ usedt)).length * 4)) .Always ::
                body) ++ [Inst.pushPop op2 (setInsertAll qregs (used ++ usedt)) c2])
          from rfl]
      rw [listInsertIdx_append_le _ _ _ _ (by simp)]
      simp only [List.cons_append]
    have hhd2 : (Inst.pushPop op1 (setInsertAll pregs (used ++ usedt)) c1 :: plc ::
        (listInsertIdx body.length
          (.arith3 .Sub REG_FP REG_FP
            (.imm (Int.ofNat (setInsertAll pregs (used ++ usedt)).length * 4)) .Always)
          (.arith3 .Add REG_FP REG_FP
            (.imm (Int.ofNat (setInsertAll pregs (used ++ usedt)).length * 4)) .Always ::
           body)) ++ [Inst.pushPop op2 (setInsertAll qregs (used ++ usedt)) c2]).head?
        = some (.pushPop op1 (setInsertAll pregs (used ++ usedt)) c1) := rfl
    have hl3 : (Inst.pushPop op1 (setInsertAll pregs (used ++ usedt)) c1 :: plc ::
        (listInsertIdx body.length
          (.arith3 .Sub REG_FP REG_FP
            (.imm (Int.ofNat (setInsertAll pregs (used ++ usedt)).length * 4)) .Always)
          (.arith3 .Add REG_FP REG_FP
            (.imm (Int.ofNat (setInsertAll pregs (used ++ usedt)).length * 4)) .Always ::
           body)) ++ [Inst.pushPop op2 (setInsertAll qregs (used ++ usedt)) c2]).getLast?
        = some (.pushPop op2 (setInsertAll qregs (used ++ usedt)) c2) := by
      rw [show Inst.pushPop op1 (setInsertAll pregs (used ++ usedt)) c1 :: plc ::
            (listInsertIdx body.length
              (.arith3 .Sub REG_FP REG_FP
                (.imm (Int.ofNat (setInsertAll pregs (used ++ usedt)).length * 4)) .Always)
              (.arith3 .Add REG_FP REG_FP
                (.imm (Int.ofNat (setInsertAll pregs (used ++ usedt)).length * 4)) .Always ::
               body)) ++ [Inst.pushPop op2 (setInsertAll qregs (used ++ usedt)) c2]
          = (Inst.pushPop op1 (setInsertAll pregs (used ++ usedt)) c1 :: plc ::
             listInsertIdx body.length
               (.arith3 .Sub REG_FP REG_FP
                 (.imm (Int.ofNat (setInsertAll pregs (used ++ usedt)).length * 4)) .Always)
               (.arith3 .Add REG_FP REG_FP
                 (.imm (Int.ofNat (setInsertAll pregs (used ++ usedt)).length * 4)) .Always ::
                body)) ++ [Inst.pushPop op2 (setInsertAll qregs (used ++ usedt)) c2]
          from by simp]
      exact List.getLast?_concat _
    refine ⟨Inst.pushPop op1 (setInsertAll pregs (used ++ usedt)) c1 :: plc ::
        (listInsertIdx body.length
          (.arith3 .Sub REG_FP REG_FP
            (.imm (Int.ofNat (setInsertAll pregs (used ++ usedt)).length * 4)) .Always)
          (.arith3 .Add REG_FP REG_FP
            (.imm (Int.ofNat (setInsertAll pregs (used ++ usedt)).length * 4)) .Always ::
           body) ++ [Inst.pushPop op2 (setInsertAll qregs (used ++ usedt)) c2]), ?_, ?_⟩
    · simp only [patchPrologue, hh, hlast, patchCore, hps, decide_True, Bool.true_and,
        Bool.and_self, Bool.not_true, Bool.false_and, Bool.false_eq_true, if_true, if_false,
        ite_true, ite_false, eq_self_iff_true]
      rw [h01]
      simp only [List.cons_append]
      simp only [List.cons_append] at e6 e7 hhd2 hl3
      simp only [cppInsertIdx_two, eq_self_iff_true, ite_true, e6, e7, hhd2, hl3,
        isEmpty_false_of_ne_nil hb1, isEmpty_false_of_ne_nil hb2, Bool.false_eq_true, if_false,
        ite_false]
    · simp

/-- Witness for `C7_frame_sizing`: a five-instruction function
(`push {r11}; mov r11, sp; mov r0, #0; mov sp, r11; pop {r11}`) with
`stack_size = 4`, no stack parameters, and `r4` in use gets
`sub sp, sp, #4` inserted after the placeholder, with `r4` added to the
push and pop register lists. -/
theorem C7_frame_sizing_witness :
    patchPrologue
      [.pushPop .Push [11] .Always,
       .arith2 .Mov 11 (.reg { reg := 13 }) .Always,
       .arith2 .Mov 0 (.imm 0) .Always,
       .arith2 .Mov 13 (.reg { reg := 11 }) .Always,
       .pushPop .Pop [11] .Always] 4 0 [4] []
    = .ok [.pushPop .Push [4, 11] .Always,
           .arith2 .Mov 11 (.reg { reg := 13 }) .Always,
           .arith3 .Sub REG_SP REG_SP (.imm 4) .Always,
           .arith2 .Mov 0 (.imm 0) .Always,
           .arith2 .Mov 13 (.reg { reg := 11 }) .Always,
           .pushPop .Pop [4, 11] .Always] := by
  have h := (C7_frame_sizing .Push .Pop .Always .Always [11] [11]
      (.arith2 .Mov 11 (.reg { reg := 13 }) .Always)
      (.arith2 .Mov 13 (.reg { reg := 11 }) .Always)
      [.arith2 .Mov 0 (.imm 0) .Always] [4] [] 4 0
      (by decide) (by decide) (by decide) (by decide)).2.1
      (by decide) (by decide) (by decide)
  simpa [setInsertAll, setInsert] using h

/-- In a reverse-map whose prefix avoids a physical, the first entry for
that physical is the explicit one. -/
theorem find?_snd_first (done : List (Reg × Reg)) (v p : Reg) (rest : List (Reg × Reg))
    (h : ∀ e ∈ done, e.2 ≠ p) :
    (done ++ (v, p) :: rest).find? (fun y => decide (y.2 = p)) = some (v, p) := by
  induction done with
  | nil => simp [List.find?]
  | cons a t ih =>
    have ha : a.2 ≠ p := h a (List.mem_cons_self a t)
    rw [List.cons_append]
    rw [List.find?_cons_of_neg _ (by simpa using ha)]
    exact ih (fun e he => h e (List.mem_cons_of_mem a he))

/-- `invalidate_read`'s loop keeps everything when every interval is
still live at the position. -/
theorem invalidateGo_live (pos : Nat) (l : List (Nat × Interval)) (arm : List (Reg × Reg))
    (h : ∀ e ∈ l, pos < e.2.stop) :
    invalidateGo pos l arm = (l, arm) := by
  induction l with
  | nil => rfl
  | cons e rest ih =>
    obtain ⟨pp, iv⟩ := e
    have he : ¬(iv.stop ≤ pos) :=
      Nat.not_le.mpr (h (pp, iv) (List.mem_cons_self _ _))
    have ih2 := ih (fun e he2 => h e (List.mem_cons_of_mem _ he2))
    simp [invalidateGo, he, ih2]

/-- `invalidate_read` is the identity when every active interval is
still live at the position. -/
theorem invalidate_read_live (s : St) (pos : Nat) (h : ∀ e ∈ s.active, pos < e.2.stop) :
    invalidate_read s pos = s := by
  simp [invalidate_read, invalidateGo_live pos s.active s.active_reg_map h]

/-- `force_free` without map erasure, on a physical whose interval is
active, whose first reverse-map entry is `(v, p)` and whose virtual
already has a spill slot: emit the write-back store when requested, move
the interval to `spilled_regs`, and drop the physical from `active`. -/
theorem force_free_noMap_spec (s : St) (p v : Reg) (wb : Bool) (iv : Interval) (pos : Int)
    (hA : alookup p s.active = some iv)
    (hF : s.active_reg_map.find? (fun y => decide (y.2 = p)) = some (v, p))
    (hP : alookup v s.spill_positions = some pos) :
    force_free s p false wb =
      { s with
          inst_sink := s.inst_sink ++
            (if wb then [mkStr p (pos + s.stack_offset) s.cur_cond] else []),
          spilled_regs := ainsertNR v iv s.spilled_regs,
          active := aerase p s.active } := by
  cases wb with
  | true => simp [force_free, hA, hF, getOrAllocSpillPos, hP]
  | false => simp [force_free, hA, hF, getOrAllocSpillPos, hP]

/-- The block-reset loop: with distinct physicals, every physical active
and every cross-block virtual already slotted, it appends exactly the
`eagerStores` write-backs to the sink, keeps exactly the non-cross-block
entries of the reverse map, and leaves `wrote_to`, `bb_reset` and
`delayed_store` alone. -/
theorem bbResetGo_spec (todo : List (Reg × Reg)) :
    ∀ (s : St) (done : List (Reg × Reg)),
    (((done ++ todo).map Prod.snd).Nodup) →
    (∀ e ∈ todo, (alookup e.2 s.active).isSome = true) →
    (∀ e ∈ todo, listHas e.1 s.spilled_cross_block_reg = true →
      (alookup e.1 s.spill_positions).isSome = true) →
    (bbResetGo s done todo).inst_sink = s.inst_sink ++
        eagerStores s.spill_positions s.spilled_cross_block_reg s.wrote_to
          s.stack_offset s.cur_cond todo ∧
    (bbResetGo s done todo).active_reg_map =
        done ++ todo.filter (fun e => !listHas e.1 s.spilled_cross_block_reg) ∧
    (bbResetGo s done todo).wrote_to = s.wrote_to ∧
    (bbResetGo s done todo).bb_reset = s.bb_reset ∧
    (bbResetGo s done todo).delayed_store = s.delayed_store := by
  induction todo with
  | nil =>
    intro s done hnd hact hsp
    simp [bbResetGo, eagerStores]
  | cons e rest ih =>
    obtain ⟨v, p⟩ := e
    intro s done hnd hact hsp
    by_cases hc : listHas v s.spilled_cross_block_reg = true
    · obtain ⟨iv, hiv⟩ :=
        Option.isSome_iff_exists.mp (hact (v, p) (List.mem_cons_self _ _))
      obtain ⟨pos, hpos⟩ :=
        Option.isSome_iff_exists.mp (hsp (v, p) (List.mem_cons_self _ _) hc)
      have hnd2 : ((done.map Prod.snd).Nodup ∧ ((p :: rest.map Prod.snd).Nodup)) ∧
          (done.map Prod.snd).Disjoint (p :: rest.map Prod.snd) := by
        rw [List.map_append, List.nodup_append] at hnd
        exact ⟨⟨hnd.1, by simpa using hnd.2.1⟩, by simpa using hnd.2.2⟩
      have hdonep : ∀ e ∈ done, e.2 ≠ p := by
        intro e he heq
        exact hnd2.2 (List.mem_map_of_mem Prod.snd he) (by simp [heq])
      have hprest : p ∉ rest.map Prod.snd := by
        have := hnd2.1.2
        rw [List.nodup_cons] at this
        exact this.1
      have hfind : (done ++ (v, p) :: rest).find? (fun y => decide (y.2 = p))
          = some (v, p) := find?_snd_first done v p rest hdonep
      have hff := force_free_noMap_spec
        { s with active_reg_map := done ++ (v, p) :: rest }
        p v (listHas v s.wrote_to) iv pos hiv hfind hpos
      have hstep : bbResetGo s done ((v, p) :: rest) =
          bbResetGo
            { s with
                active_reg_map := done ++ (v, p) :: rest,
                inst_sink := s.inst_sink ++
                  (if listHas v s.wrote_to then
                    [mkStr p (pos + s.stack_offset) s.cur_cond] else []),
                spilled_regs := ainsertNR v iv s.spilled_regs,
                active := aerase p (aerase p s.active) } done rest := by
        rw [bbResetGo]
        simp only [hc, if_true, ite_true, hff]
      have ihres := ih
        { s with
            active_reg_map := done ++ (v, p) :: rest,
            inst_sink := s.inst_sink ++
              (if listHas v s.wrote_to then
                [mkStr p (pos + s.stack_offset) s.cur_cond] else []),
            spilled_regs := ainsertNR v iv s.spilled_regs,
            active := aerase p (aerase p s.active) }
        done
        (by
          apply List.Nodup.sublist _ hnd
          apply List.Sublist.map
          exact List.Sublist.append_left (List.sublist_cons_self (v, p) rest) done)
        (by
          intro e he
          have hep : e.2 ≠ p := fun heq => hprest (heq ▸ List.mem_map_of_mem Prod.snd he)
          show (alookup e.2 (aerase p (aerase p s.active))).isSome = true
          rw [alookup_aerase_ne hep, alookup_aerase_ne hep]
          exact hact e (List.mem_cons_of_mem _ he))
        (by
          intro e he hcr
          exact hsp e (List.mem_cons_of_mem _ he) hcr)
      obtain ⟨ih1, ih2, ih3, ih4, ih5⟩ := ihres
      rw [hstep]
      refine ⟨?_, ?_, ?_, ?_, ?_⟩
      · rw [ih1]
        simp [eagerStores, hc, hpos, List.append_assoc]
      · rw [ih2]
        simp [List.filter_cons, hc]
      · exact ih3
      · exact ih4
      · exact ih5
    · have hcf : listHas v s.spilled_cross_block_reg = false :=
        Bool.not_eq_true _ ▸ Bool.of_not_eq_true hc
      have hstep : bbResetGo s done ((v, p) :: rest) =
          bbResetGo s (done ++ [(v, p)]) rest := by
        rw [bbResetGo]
        simp only [hcf, Bool.false_eq_true, if_false, ite_false]
      have hnd2 : (((done ++ [(v, p)]) ++ rest).map Prod.snd).Nodup := by
        rw [List.append_assoc]
        simpa using hnd
      have ihres := ih s (done ++ [(v, p)]) hnd2
        (fun e he => hact e (List.mem_cons_of_mem _ he))
        (fun e he hcr => hsp e (List.mem_cons_of_mem _ he) hcr)
      obtain ⟨ih1, ih2, ih3, ih4, ih5⟩ := ihres
      rw [hstep]
      refine ⟨?_, ?_, ?_, ?_, ?_⟩
      · rw [ih1]
        simp [eagerStores, hcf]
      · rw [ih2]
        simp [List.filter_cons, hcf]
      · exact ih3
      · exact ih4
      · exact ih5

/-- Claim C2: at an unconditional `b` with `bb_reset` set (and no pending
delayed store, all active intervals live, distinct physicals, actives
covered, slots assigned), the rewriter emits, before the branch, exactly
one spill store per written cross-block virtual currently held in a
physical (the `eagerStores` of the reverse map); virtuals that were only
read are freed without a store (their entries simply leave the reverse
map); and `wrote_to` is cleared afterwards. -/
theorem C2_eager_writeback (s : St) (i : Nat) (lab : String) (pc : Nat)
    (c : ConditionCode)
    (hbb : s.bb_reset = true)
    (hds : s.delayed_store = none)
    (hlive : ∀ e ∈ s.active, i < e.2.stop)
    (hnd : (s.active_reg_map.map Prod.snd).Nodup)
    (hact : ∀ e ∈ s.active_reg_map, (alookup e.2 s.active).isSome = true)
    (hsp : ∀ e ∈ s.active_reg_map, listHas e.1 s.spilled_cross_block_reg = true →
      (alookup e.1 s.spill_positions).isSome = true) :
    ∃ s2, plsStep s i (.br .B lab pc c) = .ok s2 ∧
      s2.inst_sink = s.inst_sink ++
        eagerStores s.spill_positions s.spilled_cross_block_reg s.wrote_to
          s.stack_offset c s.active_reg_map ++ [.br .B lab pc c] ∧
      s2.active_reg_map =
        s.active_reg_map.filter (fun e => !listHas e.1 s.spilled_cross_block_reg) ∧
      s2.wrote_to = [] ∧ s2.bb_reset = false := by
  set t : St := { s with cur_cond := c } with ht
  have hbbt : t.bb_reset = true := hbb
  have hdst : t.delayed_store = none := hds
  have hcd : commitDelayed t i = t := by simp [commitDelayed, hdst, hds]
  have hir : invalidate_read t i = t :=
    invalidate_read_live t i (fun e he => hlive e he)
  have hbrs := bbResetGo_spec t.active_reg_map t []
    (by simpa using hnd)
    (fun e he => hact e he)
    (fun e he hcr => hsp e he hcr)
  obtain ⟨h1, h2, h3, h4, h5⟩ := hbrs
  have hds2 : (bbResetGo t [] t.active_reg_map).delayed_store = none := by
    rw [h5]; exact hdst
  have hne1 : ((OpCode.B = OpCode.Bl) = False) := by simp
  have he1 : ((OpCode.B = OpCode.B) = True) := by simp
  refine ⟨{ { bbResetGo t [] t.active_reg_map with
        wrote_to := [], bb_reset := false } with
      inst_sink := ({ bbResetGo t [] t.active_reg_map with
        wrote_to := [], bb_reset := false } : St).inst_sink ++ [.br .B lab pc c] },
    ?_, ?_, ?_, ?_, ?_⟩
  · simp only [plsStep, plsCore, Inst.cond]
    rw [← ht]
    rw [hcd, hir]
    simp only [hbbt, hbb, hne1, he1, if_true, if_false, ite_true, ite_false]
    simp [commitDelayed, hds2, hdst, hds]
  · show ({ bbResetGo t [] t.active_reg_map with
        wrote_to := [], bb_reset := false } : St).inst_sink ++ [Inst.br .B lab pc c] = _
    have hsink : ({ bbResetGo t [] t.active_reg_map with
        wrote_to := [], bb_reset := false } : St).inst_sink
        = (bbResetGo t [] t.active_reg_map).inst_sink := rfl
    rw [hsink, h1]
  · show ({ bbResetGo t [] t.active_reg_map with
        wrote_to := [], bb_reset := false } : St).active_reg_map = _
    have harm : ({ bbResetGo t [] t.active_reg_map with
        wrote_to := [], bb_reset := false } : St).active_reg_map
        = (bbResetGo t [] t.active_reg_map).active_reg_map := rfl
    rw [harm, h2]
    simp [ht]
  · rfl
  · rfl

/-- Witness for `C2_eager_writeback`: on `c2state` (virtual 100 written
in `r4`, virtual 101 only read in `r5`, both cross-block) the branch at
index 5 gets exactly the write-back of `r4` emitted before it, both
entries leave the reverse map, and `wrote_to` is cleared. -/
theorem C2_eager_writeback_witness :
    ∃ s2, plsStep c2state 5 (.br .B "l2" 0 .Always) = .ok s2 ∧
      s2.inst_sink = c2state.inst_sink ++
        eagerStores c2state.spill_positions c2state.spilled_cross_block_reg
          c2state.wrote_to c2state.stack_offset .Always c2state.active_reg_map ++
        [.br .B "l2" 0 .Always] ∧
      s2.active_reg_map = c2state.active_reg_map.filter
        (fun e => !listHas e.1 c2state.spilled_cross_block_reg) ∧
      s2.wrote_to = [] ∧ s2.bb_reset = false :=
  C2_eager_writeback c2state 5 "l2" 0 .Always rfl rfl
    (by decide) (by decide) (by decide) (by decide)

/-! ### Membership facts used by the physicality invariant -/

theorem mem_ainsertNR {α : Type} {e : Nat × α} {k : Nat} {v : α} {m : List (Nat × α)}
    (h : e ∈ ainsertNR k v m) : e = (k, v) ∨ e ∈ m := by
  unfold ainsertNR at h
  cases hk : alookup k m with
  | some w => rw [hk] at h; exact Or.inr h
  | none =>
    rw [hk] at h
    rcases List.mem_cons.mp h with h | h
    · exact Or.inl h
    · exact Or.inr h

theorem mem_aupdate {α : Type} {e : Nat × α} {k : Nat} {v : α} :
    ∀ {m : List (Nat × α)}, e ∈ aupdate k v m → e.1 = k ∧ e.2 = v ∨ e ∈ m := by
  intro m
  induction m with
  | nil => intro h; cases h
  | cons f rest ih =>
    obtain ⟨k2, v2⟩ := f
    intro h
    rw [aupdate] at h
    by_cases hk : k2 = k
    · rw [if_pos hk] at h
      rcases List.mem_cons.mp h with h | h
      · subst h; exact Or.inl ⟨hk, rfl⟩
      · exact Or.inr (List.mem_cons_of_mem _ h)
    · rw [if_neg hk] at h
      rcases List.mem_cons.mp h with h | h
      · subst h; exact Or.inr (List.mem_cons_self _ _)
      · rcases ih h with h | h
        · exact Or.inl h
        · exact Or.inr (List.mem_cons_of_mem _ h)

theorem mem_aerase {α : Type} {e : Nat × α} {k : Nat} {m : List (Nat × α)}
    (h : e ∈ aerase k m) : e ∈ m :=
  List.mem_of_mem_filter h

theorem mem_listSet {α : Type} {x y : α} :
    ∀ {k : Nat} {l : List α}, x ∈ listSet k y l → x = y ∨ x ∈ l := by
  intro k l
  induction l generalizing k with
  | nil =>
    intro h
    cases k with
    | zero => rw [listSet] at h; cases h
    | succ n => rw [listSet] at h; cases h
  | cons a rest ih =>
    intro h
    cases k with
    | zero =>
      rw [listSet] at h
      rcases List.mem_cons.mp h with h | h
      · exact Or.inl h
      · exact Or.inr (List.mem_cons_of_mem _ h)
    | succ n =>
      rw [listSet] at h
      rcases List.mem_cons.mp h with h | h
      · exact Or.inr (h ▸ List.mem_cons_self _ _)
      · rcases ih h with h | h
        · exact Or.inl h
        · exact Or.inr (List.mem_cons_of_mem _ h)

theorem mem_listInsertIdx {α : Type} {x y : α} :
    ∀ {k : Nat} {l : List α}, x ∈ listInsertIdx k y l → x = y ∨ x ∈ l := by
  intro k l
  induction l generalizing k with
  | nil =>
    intro h
    cases k with
    | zero =>
      rw [listInsertIdx] at h
      rcases List.mem_cons.mp h with h | h
      · exact Or.inl h
      · cases h
    | succ n => cases h
  | cons a rest ih =>
    intro h
    cases k with
    | zero =>
      rw [listInsertIdx] at h
      rcases List.mem_cons.mp h with h | h
      · exact Or.inl h
      · exact Or.inr h
    | succ n =>
      rw [listInsertIdx] at h
      rcases List.mem_cons.mp h with h | h
      · exact Or.inr (h ▸ List.mem_cons_self _ _)
      · rcases ih h with h | h
        · exact Or.inl h
        · exact Or.inr (List.mem_cons_of_mem _ h)

theorem mem_listEraseIdx {α : Type} {x : α} :
    ∀ {k : Nat} {l : List α}, x ∈ listEraseIdx k l → x ∈ l := by
  intro k l
  induction l generalizing k with
  | nil =>
    intro h
    cases k with
    | zero => rw [listEraseIdx] at h; cases h
    | succ n => rw [listEraseIdx] at h; cases h
  | cons a rest ih =>
    intro h
    cases k with
    | zero =>
      rw [listEraseIdx] at h
      exact List.mem_cons_of_mem _ h
    | succ n =>
      rw [listEraseIdx] at h
      rcases List.mem_cons.mp h with h | h
      · exact h ▸ List.mem_cons_self _ _
      · exact List.mem_cons_of_mem _ (ih h)

theorem mem_dropLast {α : Type} {x : α} {l : List α} (h : x ∈ l.dropLast) : x ∈ l :=
  (List.dropLast_sublist l).mem h

/-! ### Physicality preservation through the rewriting operations -/

theorem GLOB_REGS_phys : ∀ g ∈ GLOB_REGS, g < 64 := by decide

theorem mkStr_phys {rd : Reg} (h : rd < 64) (off : Int) (c : ConditionCode) :
    instPhys (mkStr rd off c) := by
  intro r hr
  simp [mkStr, instRegs, memRegs, REG_SP] at hr
  rcases hr with rfl | rfl
  · exact h
  · decide

theorem mkLdr_phys {rd : Reg} (h : rd < 64) (off : Int) (c : ConditionCode) :
    instPhys (mkLdr rd off c) := by
  intro r hr
  simp [mkLdr, instRegs, memRegs, REG_SP] at hr
  rcases hr with rfl | rfl
  · exact h
  · decide

theorem Inv_sink_append {s : St} {x : Inst} (h : Inv s) (hx : instPhys x) :
    Inv { s with inst_sink := s.inst_sink ++ [x] } := by
  refine ⟨?_, h.arm, h.rmap, h.temp, h.used, h.usedt, h.delay⟩
  intro inst hi
  rcases List.mem_append.mp hi with hi | hi
  · exact h.sink inst hi
  · rw [List.mem_singleton.mp hi]
    exact hx

theorem getOrAllocSpillPos_inv {s : St} (r : Reg) (h : Inv s) :
    Inv (getOrAllocSpillPos s r).2 := by
  unfold getOrAllocSpillPos
  cases alookup r s.spill_positions with
  | some p => exact h
  | none => exact ⟨h.sink, h.arm, h.rmap, h.temp, h.used, h.usedt, h.delay⟩

theorem force_free_inv {s : St} {r : Reg} (aem wb : Bool) (h : Inv s) (hr : r < 64) :
    Inv (force_free s r aem wb) := by
  unfold force_free
  cases halo : alookup r s.active with
  | none => exact h
  | some iv =>
    dsimp only []
    cases hfind : s.active_reg_map.find? (fun y => decide (y.2 = r)) with
    | none => exact h
    | some y =>
      dsimp only []
      rcases hg : getOrAllocSpillPos s y.1 with ⟨pos, s1⟩
      dsimp only []
      have h1 : Inv s1 := by
        have := getOrAllocSpillPos_inv y.1 h
        rw [hg] at this
        exact this
      have h2 : Inv (if wb then
          { s1 with inst_sink := s1.inst_sink ++ [mkStr r (pos + s1.stack_offset) s1.cur_cond] }
          else s1) := by
        cases wb with
        | true => exact Inv_sink_append h1 (mkStr_phys hr _ _)
        | false => exact h1
      set s2 := if wb then
          { s1 with inst_sink := s1.inst_sink ++ [mkStr r (pos + s1.stack_offset) s1.cur_cond] }
          else s1 with hs2
      have h3 : Inv { s2 with
          spilled_regs := ainsertNR y.1 iv s2.spilled_regs,
          active := aerase r s2.active } :=
        ⟨h2.sink, h2.arm, h2.rmap, h2.temp, h2.used, h2.usedt, h2.delay⟩
      cases aem with
      | true =>
        refine ⟨h3.sink, ?_, h3.rmap, h3.temp, h3.used, h3.usedt, h3.delay⟩
        intro e he
        exact h3.arm e (mem_eraseFirstByFst he)
      | false => exact h3

theorem invalidate_read_inv {s : St} (pos : Nat) (h : Inv s) :
    Inv (invalidate_read s pos) := by
  unfold invalidate_read
  rcases hgo : invalidateGo pos s.active s.active_reg_map with ⟨a2, m2⟩
  refine ⟨h.sink, ?_, h.rmap, h.temp, h.used, h.usedt, h.delay⟩
  intro e he
  have : e ∈ (invalidateGo pos s.active s.active_reg_map).2 := by
    rw [hgo]; exact he
  exact h.arm e (mem_invalidateGo_arm this)

theorem replace_write_inv {s : St} {a : ReplaceWriteAction} (i : Nat)
    (h : Inv s) (ha : a.replace_with < 64) : Inv (replace_write s a i) := by
  obtain ⟨f, rw_, kind⟩ := a
  cases kind with
  | phys =>
    exact ⟨h.sink, h.arm, h.rmap, h.temp, h.used, h.usedt, h.delay⟩
  | graph => exact h
  | transient => exact h
  | spill =>
    unfold replace_write
    rcases hg : getOrAllocSpillPos s f with ⟨pos, s1⟩
    have h1 : Inv s1 := by
      have := getOrAllocSpillPos_inv f h
      rw [hg] at this
      exact this
    dsimp only []
    have h2 : ∀ b : Bool, Inv (if b then s1 else
        { s1 with inst_sink := s1.inst_sink ++ [mkStr rw_ (pos + s1.stack_offset) s1.cur_cond] }) := by
      intro b
      cases b with
      | true => simpa using h1
      | false =>
        simp only [Bool.false_eq_true, if_false]
        exact Inv_sink_append h1 (mkStr_phys ha _ _)
    exact ⟨(h2 _).sink, (h2 _).arm, (h2 _).rmap, (h2 _).temp, (h2 _).used, (h2 _).usedt,
      (h2 _).delay⟩

theorem commitDelayed_inv {s : St} (i : Nat) (h : Inv s) : Inv (commitDelayed s i) := by
  unfold commitDelayed
  cases hd : s.delayed_store with
  | none => exact h
  | some pr =>
    obtain ⟨r, rd⟩ := pr
    have hrd : rd < 64 := h.delay (r, rd) hd
    have h2 := @replace_write_inv s { from_ := r, replace_with := rd, kind := .spill } i h hrd
    exact ⟨h2.sink, h2.arm, h2.rmap, h2.temp, h2.used, h2.usedt, fun pr hpr => by cases hpr⟩

theorem allocViaPools_phys {s0 : St} {cross : Bool} {ro : Option Reg} {s1 : St}
    (h : Inv s0) (hav : allocViaPools s0 cross = (ro, s1)) :
    (∀ g, ro = some g → g < 64) ∧ Inv s1 := by
  unfold allocViaPools at hav
  cases cross with
  | true =>
    rw [if_pos rfl] at hav
    cases hgl : findFreeGlob s0 with
    | some g =>
      rw [hgl] at hav
      injection hav with h1 h2
      subst h1; subst h2
      refine ⟨?_, ?_⟩
      · intro g2 hg2
        injection hg2 with hg2
        subst hg2
        exact GLOB_REGS_phys g (List.mem_of_find?_eq_some hgl)
      · refine ⟨h.sink, h.arm, h.rmap, h.temp, h.used, ?_, h.delay⟩
        intro r2 hr2
        rcases mem_setInsert hr2 with hr2 | hr2
        · exact hr2 ▸ GLOB_REGS_phys g (List.mem_of_find?_eq_some hgl)
        · exact h.usedt r2 hr2
    | none =>
      rw [hgl] at hav
      injection hav with h1 h2
      subst h1; subst h2
      refine ⟨?_, h⟩
      intro g hg
      have := List.mem_of_find?_eq_some hg
      exact h.temp g this
  | false =>
    rw [if_neg (by simp)] at hav
    cases hft : findFreeTemp s0 with
    | some t =>
      rw [hft] at hav
      injection hav with h1 h2
      subst h1; subst h2
      refine ⟨?_, h⟩
      intro g hg
      injection hg with hg
      subst hg
      exact h.temp _ (List.mem_of_find?_eq_some hft)
    | none =>
      rw [hft] at hav
      cases hgl : findFreeGlob s0 with
      | some g =>
        rw [hgl] at hav
        injection hav with h1 h2
        subst h1; subst h2
        refine ⟨?_, ?_⟩
        · intro g2 hg2
          injection hg2 with hg2
          subst hg2
          exact GLOB_REGS_phys g (List.mem_of_find?_eq_some hgl)
        · refine ⟨h.sink, h.arm, h.rmap, h.temp, h.used, ?_, h.delay⟩
          intro r2 hr2
          rcases mem_setInsert hr2 with hr2 | hr2
          · exact hr2 ▸ GLOB_REGS_phys g (List.mem_of_find?_eq_some hgl)
          · exact h.usedt r2 hr2
      | none =>
        rw [hgl] at hav
        injection hav with h1 h2
        subst h1; subst h2
        exact ⟨(fun g hg => by cases hg), h⟩

theorem allocTransientSlow_phys {s0 : St} {i : Interval} {orig : Option Reg}
    {r : Reg} {s2 : St} (h : Inv s0)
    (hok : allocTransientSlow s0 i orig = .ok (r, s2)) : r < 64 ∧ Inv s2 := by
  unfold allocTransientSlow at hok
  rcases hav : allocViaPools s0 (blCrosses s0.bl_points i) with ⟨ro, s1⟩
  obtain ⟨hro, h1⟩ := allocViaPools_phys h hav
  rw [hav] at hok
  cases ro with
  | some r0 =>
    simp only [] at hok
    injection hok with hok
    injection hok with hok1 hok2
    subst hok1; subst hok2
    refine ⟨hro _ rfl, ?_⟩
    refine ⟨h1.sink, ?_, h1.rmap, h1.temp, h1.used, h1.usedt, h1.delay⟩
    intro e he
    rcases List.mem_append.mp he with he | he
    · exact h1.arm e he
    · cases orig with
      | some o =>
        rw [List.mem_singleton.mp he]
        exact hro _ rfl
      | none => cases he
  | none =>
    simp only [] at hok
    cases harm : s1.active_reg_map with
    | nil => rw [harm] at hok; cases hok
    | cons hd rest =>
      obtain ⟨sv, sp⟩ := hd
      have hsp64 : sp < 64 := h1.arm (sv, sp) (harm ▸ List.mem_cons_self _ _)
      rw [harm] at hok
      simp only [] at hok
      cases hal : alookup sp s1.active with
      | none => rw [hal] at hok; cases hok
      | some iv =>
        rw [hal] at hok
        simp only [] at hok
        rcases hgp : getOrAllocSpillPos { s1 with active_reg_map := rest } sv
          with ⟨pos, s3⟩
        have h3 : Inv s3 := by
          have hrest : Inv { s1 with active_reg_map := rest } := by
            refine ⟨h1.sink, ?_, h1.rmap, h1.temp, h1.used, h1.usedt, h1.delay⟩
            intro e he
            exact h1.arm e (harm ▸ List.mem_cons_of_mem _ he)
          have := getOrAllocSpillPos_inv sv hrest
          rw [hgp] at this
          exact this
        rw [hgp] at hok
        simp only [] at hok
        injection hok with hok
        injection hok with hok1 hok2
        subst hok1; subst hok2
        refine ⟨hsp64, ?_⟩
        have h4 : Inv { s3 with inst_sink :=
            s3.inst_sink ++ [mkStr sp (pos + s3.stack_offset) s3.cur_cond] } :=
          Inv_sink_append h3 (mkStr_phys hsp64 _ _)
        refine ⟨h4.sink, ?_, h4.rmap, h4.temp, h4.used, h4.usedt, h4.delay⟩
        intro e he
        rcases List.mem_append.mp he with he | he
        · cases orig with
          | some o =>
            simp only [] at he
            exact h4.arm e (mem_eraseFirstByFst he)
          | none => exact h4.arm e he
        · cases orig with
          | some o =>
            rw [List.mem_singleton.mp he]
            exact hsp64
          | none => cases he

theorem allocTransientReg_phys {s : St} {i : Interval} {orig : Option Reg}
    {r : Reg} {s2 : St} (h : Inv s)
    (hok : allocTransientReg s i orig = .ok (r, s2)) : r < 64 ∧ Inv s2 := by
  unfold allocTransientReg at hok
  cases orig with
  | none => exact allocTransientSlow_phys h hok
  | some o =>
    simp only [] at hok
    cases hf : s.active_reg_map.find? (fun e => decide (e.1 = o)) with
    | none =>
      rw [hf] at hok
      exact allocTransientSlow_phys h hok
    | some e =>
      rw [hf] at hok
      simp only [] at hok
      injection hok with hok
      injection hok with hok1 hok2
      subst hok1; subst hok2
      have he : e ∈ s.active_reg_map := List.mem_of_find?_eq_some hf
      refine ⟨h.arm e he, ?_⟩
      refine ⟨h.sink, ?_, h.rmap, h.temp, h.used, h.usedt, h.delay⟩
      intro e2 he2
      rcases List.mem_append.mp he2 with he2 | he2
      · exact h.arm e2 (mem_eraseFirstByFst he2)
      · rw [List.mem_singleton.mp he2]
        exact h.arm e he

theorem replace_read_reg_phys {s : St} {r : Reg} {i : Nat} {pre : Option Reg}
    {rd : Reg} {s2 : St} (h : Inv s)
    (hpre : ∀ p, pre = some p → p < 64)
    (hok : replace_read_reg s r i pre = .ok (rd, s2)) : rd < 64 ∧ Inv s2 := by
  unfold replace_read_reg at hok
  cases hcc : chaseCollapse s r with
  | error e => rw [hcc] at hok; cases hok
  | ok r1 =>
    rw [hcc] at hok
    simp only [] at hok
    cases hv : is_virtual_register r1 with
    | false =>
      rw [hv] at hok
      simp only [Bool.not_false, if_true, ite_true] at hok
      injection hok with hok
      injection hok with hok1 hok2
      subst hok1; subst hok2
      have h64 : ¬ (64 ≤ r1) := by simpa [is_virtual_register] using hv
      exact ⟨Nat.not_le.mp h64, h⟩
    | true =>
      rw [hv] at hok
      simp only [Bool.not_true, Bool.false_eq_true, if_false, ite_false] at hok
      cases hrm : alookup r1 s.reg_map with
      | some ph =>
        rw [hrm] at hok
        injection hok with hok
        injection hok with hok1 hok2
        subst hok1; subst hok2
        exact ⟨h.rmap _ (alookup_mem hrm), h⟩
      | none =>
        rw [hrm] at hok
        simp only [] at hok
        cases hsr : alookup r1 s.spilled_regs with
        | some iv =>
          rw [hsr] at hok
          simp only [] at hok
          rcases hgp : getOrAllocSpillPos s r1 with ⟨pos, s3⟩
          rw [hgp] at hok
          simp only [] at hok
          have h3 : Inv s3 := by
            have := getOrAllocSpillPos_inv r1 h
            rw [hgp] at this
            exact this
          have h4 : Inv { s3 with spilled_regs := aerase r1 s3.spilled_regs } :=
            ⟨h3.sink, h3.arm, h3.rmap, h3.temp, h3.used, h3.usedt, h3.delay⟩
          cases pre with
          | some p =>
            simp only [] at hok
            have hp : p < 64 := hpre p rfl
            split at hok
            · injection hok with hok
              injection hok with hok1 hok2
              subst hok1; subst hok2
              refine ⟨hp, ?_⟩
              refine ⟨?_, h4.arm, h4.rmap, h4.temp, h4.used, h4.usedt, ?_⟩
              · intro inst hi
                exact h4.sink inst (mem_dropLast hi)
              · intro pr hpr
                injection hpr with hpr
                rw [← hpr]
                exact hp
            · injection hok with hok
              injection hok with hok1 hok2
              subst hok1; subst hok2
              exact ⟨hp, Inv_sink_append h4 (mkLdr_phys hp _ _)⟩
          | none =>
            simp only [] at hok
            cases hat : allocTransientReg { s3 with spilled_regs := aerase r1 s3.spilled_regs }
                { iv with start := i } (some r1) with
            | error e => rw [hat] at hok; cases hok
            | ok pr =>
              obtain ⟨rd2, s5⟩ := pr
              rw [hat] at hok
              simp only [] at hok
              obtain ⟨hrd2, h5⟩ := allocTransientReg_phys h4 hat
              split at hok
              · injection hok with hok
                injection hok with hok1 hok2
                subst hok1; subst hok2
                refine ⟨hrd2, ?_⟩
                refine ⟨?_, h5.arm, h5.rmap, h5.temp, h5.used, h5.usedt, ?_⟩
                · intro inst hi
                  exact h5.sink inst (mem_dropLast hi)
                · intro pr hpr
                  injection hpr with hpr
                  rw [← hpr]
                  exact hrd2
              · injection hok with hok
                injection hok with hok1 hok2
                subst hok1; subst hok2
                exact ⟨hrd2, Inv_sink_append h5 (mkLdr_phys hrd2 _ _)⟩
        | none =>
          rw [hsr] at hok
          simp only [] at hok
          cases hli : alookup r1 s.live_intervals with
          | none => rw [hli] at hok; cases hok
          | some li =>
            rw [hli] at hok
            exact allocTransientReg_phys h hok

theorem replaceReadOp2_phys {s : St} {o : Operand2} {i : Nat} {o2 : Operand2} {s2 : St}
    (h : Inv s) (hok : replaceReadOp2 s o i = .ok (o2, s2)) :
    (∀ r ∈ op2Regs o2, r < 64) ∧ Inv s2 := by
  unfold replaceReadOp2 at hok
  cases o with
  | imm v =>
    injection hok with hok
    injection hok with hok1 hok2
    subst hok1; subst hok2
    exact ⟨by simp [op2Regs], h⟩
  | reg ro =>
    simp only [] at hok
    cases hrr : replace_read_reg s ro.reg i none with
    | error e => rw [hrr] at hok; cases hok
    | ok pr =>
      obtain ⟨r2, s3⟩ := pr
      rw [hrr] at hok
      simp only [] at hok
      injection hok with hok
      injection hok with hok1 hok2
      subst hok1; subst hok2
      obtain ⟨hr2, h3⟩ := replace_read_reg_phys h (fun p hp => by cases hp) hrr
      refine ⟨?_, h3⟩
      intro r hr
      simp [op2Regs] at hr
      rw [hr]
      exact hr2

theorem replaceReadMem_phys {s : St} {m : MemoryOperand} {i : Nat}
    {m2 : MemoryOperand} {s2 : St}
    (h : Inv s) (hok : replaceReadMem s m i = .ok (m2, s2)) :
    (∀ r ∈ memRegs m2, r < 64) ∧ Inv s2 := by
  unfold replaceReadMem at hok
  cases hb : replace_read_reg s m.r1 i none with
  | error e => rw [hb] at hok; cases hok
  | ok pr =>
    obtain ⟨b, s3⟩ := pr
    rw [hb] at hok
    simp only [] at hok
    obtain ⟨hb64, h3⟩ := replace_read_reg_phys h (fun p hp => by cases hp) hb
    cases hmo : m.offset with
    | imm v =>
      rw [hmo] at hok
      injection hok with hok
      injection hok with hok1 hok2
      subst hok1; subst hok2
      refine ⟨?_, h3⟩
      intro r hr
      simp [memRegs] at hr
      rw [hr]
      exact hb64
    | reg ro =>
      rw [hmo] at hok
      simp only [] at hok
      cases ho : replace_read_reg s3 ro.reg i none with
      | error e => rw [ho] at hok; cases hok
      | ok pr2 =>
        obtain ⟨r2, s4⟩ := pr2
        rw [ho] at hok
        simp only [] at hok
        injection hok with hok
        injection hok with hok1 hok2
        subst hok1; subst hok2
        obtain ⟨hr2, h4⟩ := replace_read_reg_phys h3 (fun p hp => by cases hp) ho
        refine ⟨?_, h4⟩
        intro r hr
        simp [memRegs] at hr
        rcases hr with hr | hr
        · rw [hr]; exact hb64
        · rw [hr]; exact hr2

theorem pre_replace_write_phys {s : St} {r : Reg} {i : Nat} {pre : Option Reg}
    {act : ReplaceWriteAction} {s2 : St} (h : Inv s)
    (hpre : ∀ p, pre = some p → p < 64)
    (hok : pre_replace_write s r i pre = .ok (act, s2)) :
    act.replace_with < 64 ∧ Inv s2 := by
  unfold pre_replace_write at hok
  cases hcc : chaseCollapse s r with
  | error e => rw [hcc] at hok; cases hok
  | ok r1 =>
    rw [hcc] at hok
    simp only [] at hok
    cases hv : is_virtual_register r1 with
    | false =>
      rw [hv] at hok
      simp only [Bool.not_false, if_true, ite_true] at hok
      injection hok with hok
      injection hok with hok1 hok2
      subst hok1; subst hok2
      have h64 : ¬ (64 ≤ r1) := by simpa [is_virtual_register] using hv
      exact ⟨Nat.not_le.mp h64, force_free_inv true true h (Nat.not_le.mp h64)⟩
    | true =>
      rw [hv] at hok
      simp only [Bool.not_true, Bool.false_eq_true, if_false, ite_false] at hok
      cases hrm : alookup r1 s.reg_map with
      | some ph =>
        rw [hrm] at hok
        injection hok with hok
        injection hok with hok1 hok2
        subst hok1; subst hok2
        exact ⟨h.rmap _ (alookup_mem hrm), h⟩
      | none =>
        rw [hrm] at hok
        simp only [] at hok
        cases hcr : listHas r1 s.spilled_cross_block_reg with
        | true =>
          rw [hcr] at hok
          simp only [if_true, ite_true] at hok
          cases pre with
          | some p =>
            injection hok with hok
            injection hok with hok1 hok2
            subst hok1; subst hok2
            exact ⟨hpre p rfl, h⟩
          | none =>
            simp only [] at hok
            cases hf : s.active_reg_map.find? (fun e => decide (e.1 = r1)) with
            | some e =>
              rw [hf] at hok
              injection hok with hok
              injection hok with hok1 hok2
              subst hok1; subst hok2
              have he : e ∈ s.active_reg_map := List.mem_of_find?_eq_some hf
              refine ⟨h.arm e he, ?_⟩
              refine ⟨h.sink, ?_, h.rmap, h.temp, h.used, h.usedt, h.delay⟩
              intro e2 he2
              rcases List.mem_append.mp he2 with he2 | he2
              · exact h.arm e2 (mem_eraseFirstByFst he2)
              · rw [List.mem_singleton.mp he2]
                exact h.arm e he
            | none =>
              rw [hf] at hok
              simp only [] at hok
              cases hli : alookup r1 s.live_intervals with
              | none => rw [hli] at hok; cases hok
              | some li =>
                rw [hli] at hok
                simp only [] at hok
                cases hat : allocTransientReg s (li.with_starting_point i) (some r1) with
                | error e => rw [hat] at hok; cases hok
                | ok pr =>
                  obtain ⟨rd2, s5⟩ := pr
                  rw [hat] at hok
                  simp only [] at hok
                  injection hok with hok
                  injection hok with hok1 hok2
                  subst hok1; subst hok2
                  obtain ⟨hrd2, h5⟩ := allocTransientReg_phys h hat
                  exact ⟨hrd2, h5⟩
        | false =>
          rw [hcr] at hok
          simp only [Bool.false_eq_true, if_false, ite_false] at hok
          cases hsr : alookup r1 s.spilled_regs with
          | some iv =>
            rw [hsr] at hok
            simp only [] at hok
            rcases hgp : getOrAllocSpillPos s r1 with ⟨pos, s3⟩
            rw [hgp] at hok
            simp only [] at hok
            have h3 : Inv s3 := by
              have := getOrAllocSpillPos_inv r1 h
              rw [hgp] at this
              exact this
            have h4 : Inv { s3 with spilled_regs := aerase r1 s3.spilled_regs } :=
              ⟨h3.sink, h3.arm, h3.rmap, h3.temp, h3.used, h3.usedt, h3.delay⟩
            cases pre with
            | some p =>
              simp only [] at hok
              injection hok with hok
              injection hok with hok1 hok2
              subst hok1; subst hok2
              exact ⟨hpre p rfl, h4⟩
            | none =>
              simp only [] at hok
              cases hat : allocTransientReg
                  { s3 with spilled_regs := aerase r1 s3.spilled_regs }
                  { iv with start := i } (some r1) with
              | error e => rw [hat] at hok; cases hok
              | ok pr =>
                obtain ⟨rd2, s5⟩ := pr
                rw [hat] at hok
                simp only [] at hok
                injection hok with hok
                injection hok with hok1 hok2
                subst hok1; subst hok2
                obtain ⟨hrd2, h5⟩ := allocTransientReg_phys h4 hat
                exact ⟨hrd2, h5⟩
          | none =>
            rw [hsr] at hok
            simp only [] at hok
            cases hli : alookup r1 s.live_intervals with
            | none => rw [hli] at hok; cases hok
            | some li =>
              rw [hli] at hok
              simp only [] at hok
              cases hat : allocTransientReg s li (some r1) with
              | error e => rw [hat] at hok; cases hok
              | ok pr =>
                obtain ⟨rd2, s5⟩ := pr
                rw [hat] at hok
                simp only [] at hok
                injection hok with hok
                injection hok with hok1 hok2
                subst hok1; subst hok2
                obtain ⟨hrd2, h5⟩ := allocTransientReg_phys h hat
                exact ⟨hrd2, h5⟩

theorem foldl_inv {β : Type} (f : St → β → St) (l : List β) (s : St)
    (hf : ∀ x ∈ l, ∀ t, Inv t → Inv (f t x)) (hs : Inv s) : Inv (l.foldl f s) := by
  induction l generalizing s with
  | nil => exact hs
  | cons a rest ih =>
    rw [List.foldl_cons]
    exact ih (f s a) (fun x hx t ht => hf x (List.mem_cons_of_mem _ hx) t ht)
      (hf a (List.mem_cons_self _ _) s hs)

theorem Inv_of_active_update {s : St} (a : List (Nat × Interval)) (h : Inv s) :
    Inv { s with active := a } :=
  ⟨h.sink, h.arm, h.rmap, h.temp, h.used, h.usedt, h.delay⟩

theorem Inv_sink_append_leaf {s : St} {x : Inst} (h : Inv s) (hx : instPhys x) :
    Inv { s with inst_sink := s.inst_sink ++ [x], is_leaf_func := false } := by
  have h2 := Inv_sink_append h hx
  exact ⟨h2.sink, h2.arm, h2.rmap, h2.temp, h2.used, h2.usedt, h2.delay⟩

theorem blHandle_inv {s : St} {inst : Inst} (paramCnt : Nat) (h : Inv s)
    (hi : instPhys inst) : Inv (blHandle s inst paramCnt) := by
  unfold blHandle
  apply Inv_of_active_update
  apply Inv_of_active_update
  apply Inv_of_active_update
  apply Inv_of_active_update
  apply Inv_of_active_update
  apply Inv_of_active_update
  apply Inv_sink_append_leaf _ hi
  refine force_free_inv true true ?_ (by decide)
  refine force_free_inv true true ?_ (by decide)
  refine foldl_inv _ _ _ (fun x hx t ht => force_free_inv true true ht
    (Nat.lt_trans (List.mem_range.mp (List.mem_of_mem_drop hx)) (by decide))) ?_
  exact foldl_inv _ _ s (fun x hx t ht => Inv_of_active_update _ ht) h

theorem bbResetGo_inv (todo : List (Reg × Reg)) :
    ∀ (s : St) (done : List (Reg × Reg)), Inv s →
    (∀ e ∈ done ++ todo, e.2 < 64) → Inv (bbResetGo s done todo) := by
  induction todo with
  | nil =>
    intro s done h hb
    rw [bbResetGo]
    refine ⟨h.sink, ?_, h.rmap, h.temp, h.used, h.usedt, h.delay⟩
    intro e he
    exact hb e (by simpa using he)
  | cons hd rest ih =>
    obtain ⟨v, p⟩ := hd
    intro s done h hb
    rw [bbResetGo]
    cases hc : listHas v s.spilled_cross_block_reg with
    | true =>
      simp only [if_true, ite_true]
      have hp64 : p < 64 :=
        hb (v, p) (List.mem_append_right _ (List.mem_cons_self _ _))
      have hs' : Inv { s with active_reg_map := done ++ (v, p) :: rest } :=
        ⟨h.sink, hb, h.rmap, h.temp, h.used, h.usedt, h.delay⟩
      have h1 : Inv (force_free { s with active_reg_map := done ++ (v, p) :: rest }
          p false (listHas v s.wrote_to)) :=
        force_free_inv false (listHas v s.wrote_to) hs' hp64
      have h2 : Inv { force_free { s with active_reg_map := done ++ (v, p) :: rest }
          p false (listHas v s.wrote_to) with
          active := aerase p (force_free { s with active_reg_map := done ++ (v, p) :: rest }
            p false (listHas v s.wrote_to)).active } :=
        Inv_of_active_update _ h1
      refine ih _ done h2 ?_
      intro e he
      rcases List.mem_append.mp he with he | he
      · exact hb e (List.mem_append_left _ he)
      · exact hb e (List.mem_append_right _ (List.mem_cons_of_mem _ he))
    | false =>
      simp only [Bool.false_eq_true, if_false, ite_false]
      refine ih s (done ++ [(v, p)]) h ?_
      intro e he
      apply hb
      rw [List.append_assoc] at he
      simpa using he

theorem plsCore_inv {s : St} {i : Nat} {inst : Inst} {s2 : St} (h : Inv s)
    (hpp : pushPopPhys inst) (hmt : movtImmOnly inst)
    (hok : plsCore s i inst = .ok s2) : Inv s2 := by
  cases inst with
  | arith3 op rd r1 r2 c =>
    simp only [plsCore] at hok
    split at hok
    · cases hok
    · rename_i r1a s3 heq1
      obtain ⟨hr1a, h3⟩ := replace_read_reg_phys h (fun p hp => by cases hp) heq1
      split at hok
      · cases hok
      · rename_i r2a s4 heq2
        obtain ⟨hr2a, h4⟩ := replaceReadOp2_phys h3 heq2
        split at hok
        · cases hok
        · rename_i act s5 heq3
          have h5 : Inv (invalidate_read s4 i) := invalidate_read_inv i h4
          have h6 : Inv { invalidate_read s4 i with
              wrote_to := setInsert rd (invalidate_read s4 i).wrote_to } :=
            ⟨h5.sink, h5.arm, h5.rmap, h5.temp, h5.used, h5.usedt, h5.delay⟩
          obtain ⟨hact, h7⟩ := pre_replace_write_phys h6 (fun p hp => by cases hp) heq3
          have h8 : Inv { s5 with inst_sink :=
              s5.inst_sink ++ [.arith3 op act.replace_with r1a r2a c] } := by
            refine Inv_sink_append h7 ?_
            intro rr hrr
            simp [instRegs] at hrr
            rcases hrr with rfl | rfl | hrr
            · exact hact
            · exact hr1a
            · exact hr2a rr hrr
          injection hok with hok
          exact hok ▸ replace_write_inv i h8 hact
  | arith4 op rd r1 r2 r3 c =>
    simp only [plsCore] at hok
    split at hok
    · cases hok
    · rename_i r1a s3 heq1
      obtain ⟨hr1a, h3⟩ := replace_read_reg_phys h (fun p hp => by cases hp) heq1
      split at hok
      · cases hok
      · rename_i r2a s4 heq2
        obtain ⟨hr2a, h4⟩ := replace_read_reg_phys h3 (fun p hp => by cases hp) heq2
        split at hok
        · cases hok
        · rename_i r3a s5 heq3
          obtain ⟨hr3a, h5⟩ := replace_read_reg_phys h4 (fun p hp => by cases hp) heq3
          split at hok
          · cases hok
          · rename_i act s6 heq4
            have h6 : Inv (invalidate_read s5 i) := invalidate_read_inv i h5
            have h7 : Inv { invalidate_read s5 i with
                wrote_to := setInsert rd (invalidate_read s5 i).wrote_to } :=
              ⟨h6.sink, h6.arm, h6.rmap, h6.temp, h6.used, h6.usedt, h6.delay⟩
            obtain ⟨hact, h8⟩ := pre_replace_write_phys h7 (fun p hp => by cases hp) heq4
            have h9 : Inv { s6 with inst_sink :=
                s6.inst_sink ++ [.arith4 op act.replace_with r1a r2a r3a c] } := by
              refine Inv_sink_append h8 ?_
              intro rr hrr
              simp [instRegs] at hrr
              rcases hrr with rfl | rfl | rfl | rfl
              · exact hact
              · exact hr1a
              · exact hr2a
              · exact hr3a
            injection hok with hok
            exact hok ▸ replace_write_inv i h9 hact
  | arith2 op r1 r2 c =>
    simp only [plsCore] at hok
    split at hok
    · -- mov / mvn: rewritten write with a rewritten operand
      rename_i hop
      split at hok
      · cases hok
      · rename_i r2a s3 heq1
        obtain ⟨hr2a, h3⟩ := replaceReadOp2_phys h heq1
        split at hok
        · cases hok
        · rename_i act s4 heq2
          have h4 : Inv (invalidate_read s3 i) := invalidate_read_inv i h3
          have h5 : Inv { invalidate_read s3 i with
              wrote_to := setInsert r1 (invalidate_read s3 i).wrote_to } :=
            ⟨h4.sink, h4.arm, h4.rmap, h4.temp, h4.used, h4.usedt, h4.delay⟩
          obtain ⟨hact, h6⟩ := pre_replace_write_phys h5 (fun p hp => by cases hp) heq2
          have h7 : Inv { s4 with inst_sink :=
              s4.inst_sink ++ [.arith2 op act.replace_with r2a c] } := by
            refine Inv_sink_append h6 ?_
            intro rr hrr
            simp [instRegs] at hrr
            rcases hrr with rfl | hrr
            · exact hact
            · exact hr2a rr hrr
          injection hok with hok
          exact hok ▸ replace_write_inv i h7 hact
    · split at hok
      · -- movt: the second operand is an immediate by the input contract
        rename_i hop1 hop2
        split at hok
        · cases hok
        · rename_i r1a s3 heq1
          obtain ⟨hr1a, h3⟩ := replace_read_reg_phys h (fun p hp => by cases hp) heq1
          split at hok
          · cases hok
          · rename_i act s4 heq2
            have h4 : Inv (invalidate_read s3 i) := invalidate_read_inv i h3
            have h5 : Inv { invalidate_read s3 i with
                wrote_to := setInsert r1a (invalidate_read s3 i).wrote_to } :=
              ⟨h4.sink, h4.arm, h4.rmap, h4.temp, h4.used, h4.usedt, h4.delay⟩
            obtain ⟨hact, h6⟩ :=
              pre_replace_write_phys h5 (fun p hp => by injection hp with hp; exact hp ▸ hr1a) heq2
            have h7 : Inv { s4 with inst_sink :=
                s4.inst_sink ++ [.arith2 op r1a r2 c] } := by
              refine Inv_sink_append h6 ?_
              intro rr hrr
              simp [instRegs] at hrr
              rcases hrr with rfl | hrr
              · exact hr1a
              · cases hr2 : r2 with
                | imm v => rw [hr2] at hrr; simp [op2Regs] at hrr
                | reg ro => exact absurd (hop2 ▸ hr2 ▸ rfl) (fun he => hmt r1 ro c he)
            injection hok with hok
            exact hok ▸ replace_write_inv i h7 hact
      · -- other two-operand arithmetic: pure read rewriting
        split at hok
        · cases hok
        · rename_i r1a s3 heq1
          obtain ⟨hr1a, h3⟩ := replace_read_reg_phys h (fun p hp => by cases hp) heq1
          split at hok
          · cases hok
          · rename_i r2a s4 heq2
            obtain ⟨hr2a, h4⟩ := replaceReadOp2_phys h3 heq2
            injection hok with hok
            refine hok ▸ Inv_sink_append (invalidate_read_inv i h4) ?_
            intro rr hrr
            simp [instRegs] at hrr
            rcases hrr with rfl | hrr
            · exact hr1a
            · exact hr2a rr hrr
  | loadStore op rd mem c =>
    cases mem with
    | mem mo =>
      simp only [plsCore] at hok
      split at hok
      · cases hok
      · rename_i mem2 s3 heq1
        split at heq1
        · cases heq1
        · rename_i mo2 s3b heq2
          injection heq1 with heq1
          injection heq1 with he1 he2
          subst he1
          subst he2
          obtain ⟨hmo2, h3⟩ := replaceReadMem_phys h heq2
          split at hok
          · -- ldr: rewritten write
            split at hok
            · cases hok
            · rename_i act s4 heq3
              have h4 : Inv (invalidate_read s3b i) := invalidate_read_inv i h3
              have h5 : Inv { invalidate_read s3b i with
                  wrote_to := setInsert rd (invalidate_read s3b i).wrote_to } :=
                ⟨h4.sink, h4.arm, h4.rmap, h4.temp, h4.used, h4.usedt, h4.delay⟩
              obtain ⟨hact, h6⟩ := pre_replace_write_phys h5 (fun p hp => by cases hp) heq3
              have h7 : Inv { s4 with inst_sink :=
                  s4.inst_sink ++ [.loadStore op act.replace_with (.mem mo2) c] } := by
                refine Inv_sink_append h6 ?_
                intro rr hrr
                simp [instRegs] at hrr
                rcases hrr with rfl | hrr
                · exact hact
                · exact hmo2 rr hrr
              injection hok with hok
              exact hok ▸ replace_write_inv i h7 hact
          · -- str: the stored register is a read
            split at hok
            · cases hok
            · rename_i rda s4 heq3
              obtain ⟨hrda, h4⟩ := replace_read_reg_phys h3 (fun p hp => by cases hp) heq3
              injection hok with hok
              refine hok ▸ Inv_sink_append (invalidate_read_inv i h4) ?_
              intro rr hrr
              simp [instRegs] at hrr
              rcases hrr with rfl | hrr
              · exact hrda
              · exact hmo2 rr hrr
    | label l =>
      simp only [plsCore] at hok
      split at hok
      · -- ldr of a label address
        split at hok
        · cases hok
        · rename_i act s4 heq2
          have h4 : Inv (invalidate_read s i) := invalidate_read_inv i h
          have h5 : Inv { invalidate_read s i with
              wrote_to := setInsert rd (invalidate_read s i).wrote_to } :=
            ⟨h4.sink, h4.arm, h4.rmap, h4.temp, h4.used, h4.usedt, h4.delay⟩
          obtain ⟨hact, h6⟩ := pre_replace_write_phys h5 (fun p hp => by cases hp) heq2
          have h7 : Inv { s4 with inst_sink :=
              s4.inst_sink ++ [.loadStore op act.replace_with (.label l) c] } := by
            refine Inv_sink_append h6 ?_
            intro rr hrr
            simp [instRegs] at hrr
            rw [hrr]
            exact hact
          injection hok with hok
          exact hok ▸ replace_write_inv i h7 hact
      · split at hok
        · cases hok
        · rename_i rda s4 heq2
          obtain ⟨hrda, h4⟩ := replace_read_reg_phys h (fun p hp => by cases hp) heq2
          injection hok with hok
          refine hok ▸ Inv_sink_append (invalidate_read_inv i h4) ?_
          intro rr hrr
          simp [instRegs] at hrr
          rw [hrr]
          exact hrda
  | multLoadStore op rn rds c =>
    simp only [plsCore] at hok
    cases hok
  | pushPop op regs c =>
    simp only [plsCore] at hok
    injection hok with hok
    refine hok ▸ Inv_sink_append (invalidate_read_inv i h) ?_
    intro rr hrr
    simp only [instRegs] at hrr
    exact hpp op regs c rfl rr hrr
  | label l c =>
    simp only [plsCore] at hok
    have h3 : Inv (invalidate_read s i) := invalidate_read_inv i h
    have h4 : Inv { invalidate_read s i with
        inst_sink := (invalidate_read s i).inst_sink ++ [.label l c] } :=
      Inv_sink_append h3 (fun rr hrr => by simp [instRegs] at hrr)
    have h5 : ∀ b : Bool, Inv (if b then
        { ({ invalidate_read s i with
            inst_sink := (invalidate_read s i).inst_sink ++ [Inst.label l c] } : St) with
          inst_sink := swapLastTwo ({ invalidate_read s i with
            inst_sink := (invalidate_read s i).inst_sink ++ [Inst.label l c] } : St).inst_sink }
        else { invalidate_read s i with
            inst_sink := (invalidate_read s i).inst_sink ++ [Inst.label l c] }) := by
      intro b
      cases b with
      | true =>
        simp only [if_true, ite_true]
        exact ⟨fun inst hi => h4.sink inst (mem_swapLastTwo hi),
          h4.arm, h4.rmap, h4.temp, h4.used, h4.usedt, h4.delay⟩
      | false => simpa using h4
    split at hok
    · injection hok with hok
      exact hok ▸ ⟨(h5 _).sink, (h5 _).arm, (h5 _).rmap, (h5 _).temp, (h5 _).used,
        (h5 _).usedt, (h5 _).delay⟩
    · injection hok with hok
      exact hok ▸ h5 _
  | br op l pc c =>
    simp only [plsCore] at hok
    have h3 : Inv (invalidate_read (commitDelayed s i) i) :=
      invalidate_read_inv i (commitDelayed_inv i h)
    split at hok
    · -- bl: call-clobber handling
      injection hok with hok
      exact hok ▸ blHandle_inv pc h3 (fun rr hrr => by simp [instRegs] at hrr)
    · split at hok
      · -- unconditional b
        split at hok
        · -- bb_reset fires
          injection hok with hok
          have h4 : Inv (bbResetGo (invalidate_read (commitDelayed s i) i) []
              (invalidate_read (commitDelayed s i) i).active_reg_map) :=
            bbResetGo_inv _ _ [] h3 (by
              intro e he
              exact h3.arm e (by simpa using he))
          have h5 : Inv { bbResetGo (invalidate_read (commitDelayed s i) i) []
              (invalidate_read (commitDelayed s i) i).active_reg_map with
              wrote_to := [], bb_reset := false } :=
            ⟨h4.sink, h4.arm, h4.rmap, h4.temp, h4.used, h4.usedt, h4.delay⟩
          exact hok ▸ Inv_sink_append h5 (fun rr hrr => by simp [instRegs] at hrr)
        · injection hok with hok
          exact hok ▸ Inv_sink_append h3 (fun rr hrr => by simp [instRegs] at hrr)
      · injection hok with hok
        exact hok ▸ Inv_sink_append h3 (fun rr hrr => by simp [instRegs] at hrr)
  | ctrl k v c =>
    simp only [plsCore] at hok
    have h3 : ∀ b : Bool, Inv (if b then { s with stack_offset := s.stack_offset + v } else s) := by
      intro b
      cases b with
      | true =>
        simp only [if_true, ite_true]
        exact ⟨h.sink, h.arm, h.rmap, h.temp, h.used, h.usedt, h.delay⟩
      | false => simpa using h
    injection hok with hok
    split at hok
    · refine hok ▸ Inv_sink_append (invalidate_read_inv i ?_) ?_
      · exact ⟨h.sink, h.arm, h.rmap, h.temp, h.used, h.usedt, h.delay⟩
      · intro rr hrr; simp [instRegs] at hrr
    · refine hok ▸ Inv_sink_append (invalidate_read_inv i h) ?_
      intro rr hrr; simp [instRegs] at hrr
  | pureI op c =>
    simp only [plsCore] at hok
    injection hok with hok
    refine hok ▸ Inv_sink_append (invalidate_read_inv i h) ?_
    intro rr hrr; simp [instRegs] at hrr

theorem plsStep_inv {s : St} {i : Nat} {inst : Inst} {s2 : St} (h : Inv s)
    (hpp : pushPopPhys inst) (hmt : movtImmOnly inst)
    (hok : plsStep s i inst = .ok s2) : Inv s2 := by
  unfold plsStep at hok
  cases hc : plsCore { s with cur_cond := inst.cond } i inst with
  | error e => rw [hc] at hok; cases hok
  | ok s3 =>
    rw [hc] at hok
    injection hok with hok
    have h1 : Inv { s with cur_cond := inst.cond } :=
      ⟨h.sink, h.arm, h.rmap, h.temp, h.used, h.usedt, h.delay⟩
    exact hok ▸ commitDelayed_inv i (plsCore_inv h1 hpp hmt hc)

theorem plsGo_inv {insts : List Inst} :
    ∀ {s : St} {i : Nat} {s2 : St}, Inv s →
    (∀ inst ∈ insts, pushPopPhys inst) → (∀ inst ∈ insts, movtImmOnly inst) →
    plsGo s i insts = .ok s2 → Inv s2 := by
  induction insts with
  | nil =>
    intro s i s2 h hpp hmt hok
    injection hok with hok
    exact hok ▸ h
  | cons inst rest ih =>
    intro s i s2 h hpp hmt hok
    rw [plsGo] at hok
    cases hc : plsStep s i inst with
    | error e => rw [hc] at hok; cases hok
    | ok s3 =>
      rw [hc] at hok
      have h3 := plsStep_inv h (hpp inst (List.mem_cons_self _ _))
        (hmt inst (List.mem_cons_self _ _)) hc
      exact ih h3 (fun j hj => hpp j (List.mem_cons_of_mem _ hj))
        (fun j hj => hmt j (List.mem_cons_of_mem _ hj)) hok

theorem perform_load_stores_inv {s : St} {insts : List Inst} {s2 : St} (h : Inv s)
    (hpp : ∀ inst ∈ insts, pushPopPhys inst) (hmt : ∀ inst ∈ insts, movtImmOnly inst)
    (hok : perform_load_stores s insts = .ok s2) : Inv s2 :=
  plsGo_inv h hpp hmt hok

theorem add_reg_use_in_bb_at_point_inv {s : St} {r : Reg} {point : Nat} {s2 : St}
    (h : Inv s) (hok : add_reg_use_in_bb_at_point s r point = .ok s2) : Inv s2 := by
  unfold add_reg_use_in_bb_at_point at hok
  cases hrm : alookup r s.reg_map with
  | none =>
    rw [hrm] at hok
    injection hok with hok
    exact hok ▸ h
  | some ph =>
    rw [hrm] at hok
    simp only [] at hok
    cases hbb : lastBbBefore s.point_bb_map point with
    | none => rw [hbb] at hok; cases hok
    | some bb =>
      rw [hbb] at hok
      injection hok with hok
      refine hok ▸ ⟨h.sink, h.arm, h.rmap, h.temp, ?_, h.usedt, h.delay⟩
      intro r2 hr2
      rcases mem_setInsert hr2 with hr2 | hr2
      · exact hr2 ▸ h.rmap _ (alookup_mem hrm)
      · exact h.used r2 hr2

theorem add_reg_read_r_inv {s : St} {r : Reg} {point : Nat} {s2 : St}
    (h : Inv s) (hok : add_reg_read_r s r point = .ok s2) : Inv s2 := by
  unfold add_reg_read_r at hok
  cases hli : alookup r s.live_intervals with
  | some iv =>
    rw [hli] at hok
    refine add_reg_use_in_bb_at_point_inv ?_ hok
    exact ⟨h.sink, h.arm, h.rmap, h.temp, h.used, h.usedt, h.delay⟩
  | none =>
    rw [hli] at hok
    refine add_reg_use_in_bb_at_point_inv ?_ hok
    exact ⟨h.sink, h.arm, h.rmap, h.temp, h.used, h.usedt, h.delay⟩

theorem add_reg_write_r_inv {s : St} {r : Reg} {point : Nat} {s2 : St}
    (h : Inv s) (hok : add_reg_write_r s r point = .ok s2) : Inv s2 := by
  unfold add_reg_write_r at hok
  cases hli : alookup r s.live_intervals with
  | some iv =>
    rw [hli] at hok
    dsimp only [] at hok
    cases hrc : alookup r s.reg_assign_count with
    | some n =>
      rw [hrc] at hok
      refine add_reg_use_in_bb_at_point_inv ?_ hok
      exact ⟨h.sink, h.arm, h.rmap, h.temp, h.used, h.usedt, h.delay⟩
    | none =>
      rw [hrc] at hok
      refine add_reg_use_in_bb_at_point_inv ?_ hok
      exact ⟨h.sink, h.arm, h.rmap, h.temp, h.used, h.usedt, h.delay⟩
  | none =>
    rw [hli] at hok
    dsimp only [] at hok
    cases hrc : alookup r s.reg_assign_count with
    | some n =>
      rw [hrc] at hok
      refine add_reg_use_in_bb_at_point_inv ?_ hok
      exact ⟨h.sink, h.arm, h.rmap, h.temp, h.used, h.usedt, h.delay⟩
    | none =>
      rw [hrc] at hok
      refine add_reg_use_in_bb_at_point_inv ?_ hok
      exact ⟨h.sink, h.arm, h.rmap, h.temp, h.used, h.usedt, h.delay⟩

theorem addReadOp2_inv {s : St} {o : Operand2} {point : Nat} {s2 : St}
    (h : Inv s) (hok : addReadOp2 s o point = .ok s2) : Inv s2 := by
  unfold addReadOp2 at hok
  cases o with
  | reg ro => exact add_reg_read_r_inv h hok
  | imm v => injection hok with hok; exact hok ▸ h

theorem addWriteOp2_inv {s : St} {o : Operand2} {point : Nat} {s2 : St}
    (h : Inv s) (hok : addWriteOp2 s o point = .ok s2) : Inv s2 := by
  unfold addWriteOp2 at hok
  cases o with
  | reg ro => exact add_reg_write_r_inv h hok
  | imm v => injection hok with hok; exact hok ▸ h

theorem addReadMem_inv {s : St} {m : MemoryOperand} {point : Nat} {s2 : St}
    (h : Inv s) (hok : addReadMem s m point = .ok s2) : Inv s2 := by
  unfold addReadMem at hok
  cases hb : add_reg_read_r s m.r1 point with
  | error e => rw [hb] at hok; cases hok
  | ok s3 =>
    rw [hb] at hok
    simp only [] at hok
    have h3 := add_reg_read_r_inv h hb
    cases hmo : m.offset with
    | reg ro => rw [hmo] at hok; exact add_reg_read_r_inv h3 hok
    | imm v => rw [hmo] at hok; injection hok with hok; exact hok ▸ h3

theorem addReadList_inv {l : List Reg} :
    ∀ {s : St} {point : Nat} {s2 : St}, Inv s →
    addReadList s l point = .ok s2 → Inv s2 := by
  induction l with
  | nil =>
    intro s point s2 h hok
    injection hok with hok
    exact hok ▸ h
  | cons r rest ih =>
    intro s point s2 h hok
    rw [addReadList] at hok
    cases hc : add_reg_read_r s r point with
    | error e => rw [hc] at hok; cases hok
    | ok s3 =>
      rw [hc] at hok
      exact ih (add_reg_read_r_inv h hc) hok

theorem addWriteList_inv {l : List Reg} :
    ∀ {s : St} {point : Nat} {s2 : St}, Inv s →
    addWriteList s l point = .ok s2 → Inv s2 := by
  induction l with
  | nil =>
    intro s point s2 h hok
    injection hok with hok
    exact hok ▸ h
  | cons r rest ih =>
    intro s point s2 h hok
    rw [addWriteList] at hok
    cases hc : add_reg_write_r s r point with
    | error e => rw [hc] at hok; cases hok
    | ok s3 =>
      rw [hc] at hok
      exact ih (add_reg_write_r_inv h hc) hok

theorem calcLiveStep_inv {s : St} {i : Nat} {inst : Inst} {s2 : St}
    (h : Inv s) (hok : calcLiveStep s i inst = .ok s2) : Inv s2 := by
  cases inst with
  | pureI op c =>
    simp only [calcLiveStep] at hok
    injection hok with hok
    exact hok ▸ h
  | arith4 op rd r1 r2 r3 c =>
    simp only [calcLiveStep] at hok
    split at hok
    · cases hok
    · rename_i s3 heq1
      split at hok
      · cases hok
      · rename_i s4 heq2
        split at hok
        · cases hok
        · rename_i s5 heq3
          exact add_reg_write_r_inv
            (add_reg_read_r_inv (add_reg_read_r_inv (add_reg_read_r_inv h heq1) heq2) heq3) hok
  | arith3 op rd r1 r2 c =>
    simp only [calcLiveStep] at hok
    split at hok
    · cases hok
    · rename_i s3 heq1
      split at hok
      · cases hok
      · rename_i s4 heq2
        exact add_reg_write_r_inv (addReadOp2_inv (add_reg_read_r_inv h heq1) heq2) hok
  | arith2 op r1 r2 c =>
    simp only [calcLiveStep] at hok
    split at hok
    · cases hok
    · rename_i s3 heq1
      have h3 : Inv s3 := by
        split at heq1
        · -- write side (mov-family), with the copy-affinity collection
          split at heq1
          · cases heq1
          · rename_i s4 heq2
            have h4 := add_reg_write_r_inv h heq2
            cases r2 with
            | reg ro =>
              dsimp only [] at heq1
              split at heq1
              · injection heq1 with heq1
                exact heq1 ▸ ⟨h4.sink, h4.arm, h4.rmap, h4.temp, h4.used, h4.usedt, h4.delay⟩
              · injection heq1 with heq1
                exact heq1 ▸ h4
            | imm v =>
              injection heq1 with heq1
              exact heq1 ▸ h4
        · exact add_reg_read_r_inv h heq1
      exact addReadOp2_inv h3 hok
  | br op l pc c =>
    simp only [calcLiveStep] at hok
    split at hok
    · injection hok with hok
      exact hok ▸ ⟨h.sink, h.arm, h.rmap, h.temp, h.used, h.usedt, h.delay⟩
    · injection hok with hok
      exact hok ▸ h
  | loadStore op rd mem c =>
    simp only [calcLiveStep] at hok
    split at hok
    · cases hok
    · rename_i s3 heq1
      have h3 : Inv s3 := by
        split at heq1
        · exact add_reg_write_r_inv h heq1
        · exact add_reg_read_r_inv h heq1
      cases mem with
      | mem mo => exact addReadMem_inv h3 hok
      | label l2 =>
        injection hok with hok
        exact hok ▸ h3
  | multLoadStore op rn rds c =>
    simp only [calcLiveStep] at hok
    split at hok
    · cases hok
    · rename_i s3 heq1
      have h3 : Inv s3 := by
        split at heq1
        · exact addWriteList_inv h heq1
        · exact addReadList_inv h heq1
      exact add_reg_read_r_inv h3 hok
  | pushPop op regs c =>
    simp only [calcLiveStep] at hok
    split at hok
    · exact addWriteList_inv h hok
    · exact addReadList_inv h hok
  | label l c =>
    simp only [calcLiveStep] at hok
    split at hok
    · split at hok
      · injection hok with hok
        exact hok ▸ ⟨h.sink, h.arm, h.rmap, h.temp, h.used, h.usedt, h.delay⟩
      · injection hok with hok
        exact hok ▸ h
    · injection hok with hok
      exact hok ▸ h
  | ctrl k v c =>
    simp only [calcLiveStep] at hok
    injection hok with hok
    exact hok ▸ h

theorem calcLiveGo_inv {insts : List Inst} :
    ∀ {s : St} {i : Nat} {s2 : St}, Inv s →
    calcLiveGo s i insts = .ok s2 → Inv s2 := by
  induction insts with
  | nil =>
    intro s i s2 h hok
    injection hok with hok
    exact hok ▸ h
  | cons inst rest ih =>
    intro s i s2 h hok
    rw [calcLiveGo] at hok
    cases hc : calcLiveStep s i inst with
    | error e => rw [hc] at hok; cases hok
    | ok s3 =>
      rw [hc] at hok
      exact ih (calcLiveStep_inv h hc) hok

theorem calc_live_intervals_inv {s : St} {insts : List Inst} {s2 : St}
    (h : Inv s) (hok : calc_live_intervals s insts = .ok s2) : Inv s2 :=
  calcLiveGo_inv h hok

theorem constructOne_inv {s : St} {varId : Nat} {vreg : Reg} {cm : List (Nat × Int)}
    {s2 : St} (h : Inv s) (hok : constructOne s varId vreg cm = .ok s2) : Inv s2 := by
  unfold constructOne at hok
  cases hc : alookup varId cm with
  | none =>
    rw [hc] at hok
    injection hok with hok
    exact hok ▸ h
  | some c =>
    rw [hc] at hok
    simp only [] at hok
    split at hok
    · injection hok with hok
      exact hok ▸ ⟨h.sink, h.arm, h.rmap, h.temp, h.used, h.usedt, h.delay⟩
    · cases hg : GLOB_REGS.get? c.toNat with
      | none => rw [hg] at hok; cases hok
      | some reg =>
        rw [hg] at hok
        simp only [] at hok
        split at hok
        · cases hok
        · injection hok with hok
          have hreg : reg < 64 := GLOB_REGS_phys reg (List.get?_mem hg)
          refine hok ▸ ⟨h.sink, h.arm, ?_, h.temp, ?_, h.usedt, h.delay⟩
          · intro e he
            rcases mem_ainsertNR he with he | he
            · exact he ▸ hreg
            · exact h.rmap e he
          · intro r2 hr2
            rcases mem_setInsert hr2 with hr2 | hr2
            · exact hr2 ▸ hreg
            · exact h.used r2 hr2

theorem construct_reg_map_inv {mta : List (Nat × Reg)} :
    ∀ {s : St} {cm : List (Nat × Int)} {s2 : St}, Inv s →
    construct_reg_map s mta cm = .ok s2 → Inv s2 := by
  induction mta with
  | nil =>
    intro s cm s2 h hok
    injection hok with hok
    exact hok ▸ h
  | cons e rest ih =>
    obtain ⟨varId, vreg⟩ := e
    intro s cm s2 h hok
    rw [construct_reg_map] at hok
    cases hc : constructOne s varId vreg cm with
    | error e2 => rw [hc] at hok; cases hok
    | ok s3 =>
      rw [hc] at hok
      exact ih (constructOne_inv h hc) hok

theorem affinityStep_inv {s : St} {dst src : Reg} {s2 : St}
    (h : Inv s) (hok : affinityStep s dst src = .ok s2) : Inv s2 := by
  unfold affinityStep at hok
  repeat' (split at hok)
  any_goals
    first
    | cases hok
    | (injection hok with hok; exact hok ▸ h)
    | (injection hok with hok;
       exact hok ▸ ⟨h.sink, h.arm, h.rmap, h.temp, h.used, h.usedt, h.delay⟩)
    | exact h
    | exact ⟨h.sink, h.arm, h.rmap, h.temp, h.used, h.usedt, h.delay⟩
  all_goals exact ⟨h.sink, h.arm, h.rmap, h.temp, h.used, h.usedt, h.delay⟩

theorem affinityGo_inv {l : List (Reg × Reg)} :
    ∀ {s : St} {s2 : St}, Inv s → affinityGo s l = .ok s2 → Inv s2 := by
  induction l with
  | nil =>
    intro s s2 h hok
    injection hok with hok
    exact hok ▸ h
  | cons e rest ih =>
    obtain ⟨dst, src⟩ := e
    intro s s2 h hok
    rw [affinityGo] at hok
    cases hc : affinityStep s dst src with
    | error e2 => rw [hc] at hok; cases hok
    | ok s3 =>
      rw [hc] at hok
      exact ih (affinityStep_inv h hc) hok

theorem calc_reg_affinity_inv {s : St} {s2 : St}
    (h : Inv s) (hok : calc_reg_affinity s = .ok s2) : Inv s2 :=
  affinityGo_inv h hok

theorem initSt_inv {temp : List Reg} {fss : Int} (ht : ∀ r ∈ temp, r < 64) :
    Inv (initSt temp fss) := by
  refine ⟨?_, ?_, ?_, ht, ?_, ?_, ?_⟩
  · intro inst hi; cases hi
  · intro e he; cases he
  · intro e he; cases he
  · intro r hr; cases hr
  · intro r hr; cases hr
  · intro pr hpr; cases hpr

theorem allPhys_listSet {l : List Inst} {x : Inst} (hl : allPhys l) (hx : instPhys x)
    (k : Nat) : allPhys (listSet k x l) := by
  intro i hi
  rcases mem_listSet hi with hi | hi
  · exact hi ▸ hx
  · exact hl i hi

theorem allPhys_listInsertIdx {l : List Inst} {x : Inst} (hl : allPhys l)
    (hx : instPhys x) (k : Nat) : allPhys (listInsertIdx k x l) := by
  intro i hi
  rcases mem_listInsertIdx hi with hi | hi
  · exact hi ▸ hx
  · exact hl i hi

theorem allPhys_listEraseIdx {l : List Inst} (hl : allPhys l) (k : Nat) :
    allPhys (listEraseIdx k l) :=
  fun i hi => hl i (mem_listEraseIdx hi)

theorem allPhys_drop {l : List Inst} (hl : allPhys l) (n : Nat) : allPhys (l.drop n) :=
  fun i hi => hl i (List.mem_of_mem_drop hi)

theorem allPhys_cppInsertIdx {k : Nat} {x : Inst} {l l2 : List Inst}
    (hl : allPhys l) (hx : instPhys x) (h : cppInsertIdx k x l = .ok l2) :
    allPhys l2 := by
  unfold cppInsertIdx at h
  split at h
  · injection h with h
    exact h ▸ allPhys_listInsertIdx hl hx k
  · cases h

theorem allPhys_cppEraseIdx {k : Nat} {l l2 : List Inst}
    (hl : allPhys l) (h : cppEraseIdx k l = .ok l2) : allPhys l2 := by
  unfold cppEraseIdx at h
  split at h
  · injection h with h
    exact h ▸ allPhys_listEraseIdx hl k
  · cases h

theorem mem_of_head? {α : Type} {l : List α} {a : α} (h : l.head? = some a) : a ∈ l := by
  cases l with
  | nil => cases h
  | cons b rest =>
    injection h with h
    exact h ▸ List.mem_cons_self _ _

theorem mem_of_getLast? {α : Type} {l : List α} {a : α} (h : l.getLast? = some a) :
    a ∈ l := by
  induction l with
  | nil => cases h
  | cons b rest ih =>
    cases rest with
    | nil =>
      rw [List.getLast?_singleton] at h
      injection h with h
      exact h ▸ List.mem_cons_self _ _
    | cons c rest2 =>
      rw [List.getLast?_cons_cons] at h
      exact List.mem_cons_of_mem _ (ih h)

theorem framePush_phys {op : OpCode} {regs : List Reg} {c : ConditionCode}
    (h : ∀ r ∈ regs, r < 64) : instPhys (.pushPop op regs c) := by
  intro r hr
  simp only [instRegs] at hr
  exact h r hr

theorem frameArith_phys (op : OpCode) {rd r1 : Reg} (v : Int) (c : ConditionCode)
    (h1 : rd < 64) (h2 : r1 < 64) : instPhys (.arith3 op rd r1 (.imm v) c) := by
  intro r hr
  simp [instRegs, op2Regs] at hr
  rcases hr with rfl | rfl
  · exact h1
  · exact h2

theorem patchCore_phys {op1 op2 : OpCode} {regs1 regs2 : List Reg}
    {c1 c2 : ConditionCode} {inst : List Inst} {ss : Int} {params : Nat}
    {used usedt : List Reg} {out : List Inst}
    (hl : allPhys inst) (h1 : ∀ r ∈ regs1, r < 64) (h2 : ∀ r ∈ regs2, r < 64)
    (hu : ∀ r ∈ used, r < 64) (hut : ∀ r ∈ usedt, r < 64)
    (hok : patchCore op1 op2 regs1 regs2 c1 c2 inst ss params used usedt = .ok out) :
    allPhys out := by
  have hU : ∀ r ∈ used ++ usedt, r < 64 := by
    intro r hr
    rcases List.mem_append.mp hr with hr | hr
    · exact hu r hr
    · exact hut r hr
  unfold patchCore at hok
  simp only [] at hok
  have hR1 : ∀ r ∈ (if (!decide (params > 4) && decide (ss = 0)) = true
      then setErase REG_FP (setInsertAll regs1 (used ++ usedt))
      else setInsertAll regs1 (used ++ usedt)), r < 64 := by
    split
    · intro r hr
      rcases mem_setInsertAll (mem_setErase hr) with hr | hr
      · exact h1 r hr
      · exact hU r hr
    · intro r hr
      rcases mem_setInsertAll hr with hr | hr
      · exact h1 r hr
      · exact hU r hr
  have hR2 : ∀ r ∈ (if (!decide (params > 4) && decide (ss = 0)) = true
      then setErase REG_FP (setInsertAll regs2 (used ++ usedt))
      else setInsertAll regs2 (used ++ usedt)), r < 64 := by
    split
    · intro r hr
      rcases mem_setInsertAll (mem_setErase hr) with hr | hr
      · exact h2 r hr
      · exact hU r hr
    · intro r hr
      rcases mem_setInsertAll hr with hr | hr
      · exact h2 r hr
      · exact hU r hr
  set R1B := if (!decide (params > 4) && decide (ss = 0)) = true
      then setErase REG_FP (setInsertAll regs1 (used ++ usedt))
      else setInsertAll regs1 (used ++ usedt) with hR1def
  set R2B := if (!decide (params > 4) && decide (ss = 0)) = true
      then setErase REG_FP (setInsertAll regs2 (used ++ usedt))
      else setInsertAll regs2 (used ++ usedt) with hR2def
  set L01 := listSet ((listSet 0 (Inst.pushPop op1 R1B c1) inst).length - 1)
      (Inst.pushPop op2 R2B c2) (listSet 0 (Inst.pushPop op1 R1B c1) inst) with hL01def
  have hL01p : allPhys L01 := by
    rw [hL01def]
    exact allPhys_listSet (allPhys_listSet hl (framePush_phys hR1) 0)
      (framePush_phys hR2) _
  cases h4m : (if decide (params > 4) = true then
      cppInsertIdx 2 (.arith3 .Add REG_FP REG_FP
        (.imm (Int.ofNat (setInsertAll regs1 (used ++ usedt)).length * 4)) .Always) L01
      else .ok L01) with
  | error e => rw [h4m] at hok; cases hok
  | ok L4 =>
    rw [h4m] at hok
    simp only [] at hok
    have h4p : allPhys L4 := by
      split at h4m
      · exact allPhys_cppInsertIdx hL01p
          (frameArith_phys .Add _ .Always (by decide) (by decide)) h4m
      · injection h4m with h4m
        exact h4m ▸ hL01p
    cases h5m : (if ss = 0 then
        (if (!decide (params > 4)) = true then cppEraseIdx 1 L4 else .ok L4)
        else if ss < 1024 then
          cppInsertIdx 2 (.arith3 .Sub REG_SP REG_SP (.imm ss) .Always) L4
        else
          match cppInsertIdx 2 (.arith2 .Mov 12 (.imm ss) .Always) L4 with
          | .error e => .error e
          | .ok L =>
            cppInsertIdx 3 (.arith3 .Sub REG_SP REG_SP (.reg { reg := 12 }) .Always) L) with
    | error e => rw [h5m] at hok; cases hok
    | ok L5 =>
      rw [h5m] at hok
      simp only [] at hok
      have h5p : allPhys L5 := by
        split at h5m
        · split at h5m
          · exact allPhys_cppEraseIdx h4p h5m
          · injection h5m with h5m
            exact h5m ▸ h4p
        · split at h5m
          · exact allPhys_cppInsertIdx h4p
              (frameArith_phys .Sub ss .Always (by decide) (by decide)) h5m
          · split at h5m
            · cases h5m
            · rename_i Lm heqm
              have hmp : allPhys Lm := by
                refine allPhys_cppInsertIdx h4p ?_ heqm
                intro r hr
                simp [instRegs, op2Regs] at hr
                rw [hr]
                decide
              refine allPhys_cppInsertIdx hmp ?_ h5m
              intro r hr
              simp [instRegs, op2Regs] at hr
              rcases hr with rfl | rfl
              · decide
              · decide
      cases h6m : (if ss = 0 then cppEraseIdx (L5.length - 2) L5 else .ok L5) with
      | error e => rw [h6m] at hok; cases hok
      | ok L6 =>
        rw [h6m] at hok
        simp only [] at hok
        have h6p : allPhys L6 := by
          split at h6m
          · exact allPhys_cppEraseIdx h5p h6m
          · injection h6m with h6m
            exact h6m ▸ h5p
        cases h7m : (if decide (params > 4) = true then
            cppInsertIdx (L6.length - 2)
              (.arith3 .Sub REG_FP REG_FP
                (.imm (Int.ofNat (setInsertAll regs1 (used ++ usedt)).length * 4)) .Always) L6
            else .ok L6) with
        | error e => rw [h7m] at hok; cases hok
        | ok L7 =>
          rw [h7m] at hok
          simp only [] at hok
          have h7p : allPhys L7 := by
            split at h7m
            · exact allPhys_cppInsertIdx h6p
                (frameArith_phys .Sub _ .Always (by decide) (by decide)) h7m
            · injection h7m with h7m
              exact h7m ▸ h6p
          cases hh : L7.head? with
          | none =>
            rw [hh] at hok
            simp only [] at hok
            cases hok
          | some i1 =>
            rw [hh] at hok
            cases hl7 : L7.getLast? with
            | none =>
              rw [hl7] at hok
              cases i1 <;> simp only [] at hok <;> cases hok
            | some i2 =>
              rw [hl7] at hok
              have hi1 : i1 ∈ L7 := mem_of_head? hh
              have hi2 : i2 ∈ L7 := mem_of_getLast? hl7
              cases i1 <;> cases i2 <;> (try (simp only [] at hok; cases hok))
              rename_i opf fregs cf opb bregs cb
              simp only [] at hok
              have hL1p : allPhys (if fregs.isEmpty = true then L7.drop 1 else L7) := by
                split
                · exact allPhys_drop h7p 1
                · exact h7p
              split at hok
              · split at hok
                · cases hok
                · injection hok with hok
                  exact hok ▸ allPhys_listEraseIdx hL1p _
              · injection hok with hok
                exact hok ▸ hL1p

theorem patchPrologue_phys {inst : List Inst} {ss : Int} {params : Nat}
    {used usedt : List Reg} {out : List Inst}
    (hl : allPhys inst) (hu : ∀ r ∈ used, r < 64) (hut : ∀ r ∈ usedt, r < 64)
    (hok : patchPrologue inst ss params used usedt = .ok out) : allPhys out := by
  unfold patchPrologue at hok
  cases hh : inst.head? with
  | none =>
    rw [hh] at hok
    simp only [] at hok
    cases hok
  | some i1 =>
    rw [hh] at hok
    cases hl2 : inst.getLast? with
    | none =>
      rw [hl2] at hok
      cases i1 <;> simp only [] at hok <;> cases hok
    | some i2 =>
      rw [hl2] at hok
      have hi1 := hl _ (mem_of_head? hh)
      have hi2 := hl _ (mem_of_getLast? hl2)
      cases i1 <;> cases i2 <;> (try (simp only [] at hok; cases hok))
      rename_i op1 regs1 c1 op2 regs2 c2
      simp only [] at hok
      refine patchCore_phys hl ?_ ?_ hu hut hok
      · intro r hr
        exact hi1 r hr
      · intro r hr
        exact hi2 r hr

/-- Claim C1: when the allocator succeeds on a function whose input
instructions carry only physical push/pop register lists and whose
`movt`s are the immediate form, and the transient pool is physical,
every register operand of every emitted instruction is physical
(id < 64) — no virtual register survives the rewrite. -/
theorem C1_no_virtuals (temp : List Reg) (insts : List Inst) (mta : List (Nat × Reg))
    (cm : List (Nat × Int)) (fss : Int) (params : Nat) (out : List Inst)
    (htemp : ∀ r ∈ temp, r < 64)
    (hpp : ∀ inst ∈ insts, pushPopPhys inst)
    (hmt : ∀ inst ∈ insts, movtImmOnly inst)
    (hok : allocRegs temp insts mta cm fss params = .ok out) :
    ∀ inst ∈ out, instPhys inst := by
  unfold allocRegs at hok
  cases hc1 : construct_reg_map (initSt temp fss) mta cm with
  | error e => rw [hc1] at hok; cases hok
  | ok s1 =>
    rw [hc1] at hok
    simp only [] at hok
    cases hc2 : calc_live_intervals s1 insts with
    | error e => rw [hc2] at hok; cases hok
    | ok s2 =>
      rw [hc2] at hok
      simp only [] at hok
      cases hc3 : calc_reg_affinity s2 with
      | error e => rw [hc3] at hok; cases hok
      | ok s3 =>
        rw [hc3] at hok
        simp only [] at hok
        cases hc4 : perform_load_stores s3 insts with
        | error e => rw [hc4] at hok; cases hok
        | ok s4 =>
          rw [hc4] at hok
          have h4 : Inv s4 :=
            perform_load_stores_inv
              (calc_reg_affinity_inv
                (calc_live_intervals_inv
                  (construct_reg_map_inv (initSt_inv htemp) hc1) hc2) hc3)
              hpp hmt hc4
          exact patchPrologue_phys h4.sink h4.used h4.usedt hok

/-- Witness for `C1_no_virtuals`: a six-instruction function whose body
writes virtual register 100 and copies it into `r0` — prologue
`push {r11}`, placeholder `mov r11, sp`, `mov v100, #5`, `mov r0, v100`,
restore `mov sp, r11`, epilogue `pop {r11}` — rewrites to the two
physical instructions `mov r0, #5; mov r0, r0` (virtual 100 lives in the
transient register `r0`), with the empty-frame prologue and epilogue
dropped. -/
theorem C1_no_virtuals_witness :
    allPhys [Inst.arith2 .Mov 0 (.imm 5) .Always,
             Inst.arith2 .Mov 0 (.reg { reg := 0 }) .Always] :=
  C1_no_virtuals [0, 1, 2, 3]
    [.pushPop .Push [11] .Always,
     .arith2 .Mov 11 (.reg { reg := 13 }) .Always,
     .arith2 .Mov 100 (.imm 5) .Always,
     .arith2 .Mov 0 (.reg { reg := 100 }) .Always,
     .arith2 .Mov 13 (.reg { reg := 11 }) .Always,
     .pushPop .Pop [11] .Always] [] [] 0 0
    [.arith2 .Mov 0 (.imm 5) .Always,
     .arith2 .Mov 0 (.reg { reg := 0 }) .Always]
    (by decide)
    (by
      intro inst hi
      simp only [List.mem_cons, List.not_mem_nil, or_false] at hi
      rcases hi with rfl | rfl | rfl | rfl | rfl | rfl
      all_goals intro op regs c he
      · injection he with h1 h2 h3
        subst h2
        intro r hr
        simp at hr
        subst hr
        decide
      · cases he
      · cases he
      · cases he
      · cases he
      · injection he with h1 h2 h3
        subst h2
        intro r hr
        simp at hr
        subst hr
        decide)
    (by
      intro inst hi
      simp only [List.mem_cons, List.not_mem_nil, or_false] at hi
      rcases hi with rfl | rfl | rfl | rfl | rfl | rfl
      all_goals intro r1 ro c he
      · cases he
      · injection he with h1 h2 h3
        cases h1
      · injection he with h1 h2 h3
        cases h1
      · injection he with h1 h2 h3
        cases h1
      · injection he with h1 h2 h3
        cases h1
      · cases he)
    rfl

end RegAlloc
